import Mathlib

/-!
# Verification development for the packages `ws`, `genid`, `algorithm/random`, `cache`, `http`, `algorithm/ecc` and `token`

A shallow embedding of the reconnecting websocket client: the Coordinator's
`select` loop in `New`, the loops `connect`, `write`, `read`, `keepAlive` and
the shutdown function `safeClose`.  A goroutine body is a function from the
values its channel receives and transport calls produce to the list of effects
it performs, in program order.  The ID generator, the random-value functions,
the Redis `Set`, the retrying HTTP `send`, the seed handling of the ECIES
string functions and the token `Verify` follow in the namespaces `Genid`,
`Random`, `Cache`, `Http`, `Ecies` and `Tokens`.  All definitions come first,
the theorems after them.
-/

namespace Ws

/-! ## Data model (`wsclient.go` lines 12-36, 274-276) -/

/-- Go `type Command byte`. -/
abbrev Command := Nat

/-- Go `QUIT Command = 16 + iota`. -/
def QUIT : Command := 16
/-- Go `PING`, second constant of the block. -/
def PING : Command := 17
/-- Go `USETEXT`, third constant of the block. -/
def USETEXT : Command := 18
/-- Go `USEBINARY`, fourth constant of the block. -/
def USEBINARY : Command := 19

/-- Go `type State byte` with `DISCONNECTED State = iota` and `CONNECTED`. -/
inductive State where
  | DISCONNECTED
  | CONNECTED
  deriving DecidableEq, Repr

/-- A Go `error` value, identified by its message. -/
abbrev Err := String

/-- Go `type Status struct { State State; Error error }`; a nil error is `none`. -/
structure Status where
  State : State
  Error : Option Err
  deriving DecidableEq, Repr

/-- A non-nil `*websocket.Conn`, identified by its address. -/
abbrev Conn := Nat

/-- The constant `websocket.TextMessage` of the transport library. -/
def TextMessage : Nat := 1
/-- The constant `websocket.BinaryMessage` of the transport library. -/
def BinaryMessage : Nat := 2

/-! ## The Coordinator (`New`, lines 50-116) -/

/-- The local variables of the Coordinator goroutine (lines 51-54). -/
structure Coord where
  reading : Bool
  writing : Bool
  conn : Option Conn
  msgType : Nat
  deriving DecidableEq, Repr

/-- The case of the `select` at line 60 that fires, with the value it receives. -/
inductive Event where
  /-- Case `conn = <-conReturnCh`. -/
  | conReturn (conn : Option Conn)
  /-- Case `err := <-rErrorCh`. -/
  | rError (err : Err)
  /-- Case `err := <-wErrorCh`. -/
  | wError (err : Err)
  /-- Case `cmd, ok := <-cmdCh`. -/
  | cmd (c : Command) (ok : Bool)
  deriving DecidableEq, Repr

/-- The effects the Coordinator goroutine performs. -/
inductive Action where
  /-- Statement `go keepAlive(...)`. -/
  | goKeepAlive
  /-- Statement `go connect(...)`. -/
  | goConnect
  /-- Statement `go read(&wg, conn, ...)`. -/
  | goRead (conn : Conn)
  /-- Statement `go write(&wg, conn, msgType, ...)`. -/
  | goWrite (conn : Conn) (msgType : Nat)
  /-- Call `conn.Close()`. -/
  | connClose (conn : Conn)
  /-- Send `controlCh <- cmd`. -/
  | sendControl (c : Command)
  /-- Send `stsCh <- status`. -/
  | sendStatus (s : Status)
  /-- The deferred call `safeClose(&wg, conn, ...)` with the value bound to `conn`. -/
  | safeClose (conn : Option Conn)
  deriving DecidableEq, Repr

/-- The block `if conn != nil { conn.Close(); conn = nil }` (lines 76-79 and 84-87). -/
def closeAndClear (s : Coord) : Coord × List Action :=
  match s.conn with
  | some c => ({ s with conn := none }, [Action.connClose c])
  | none => (s, [])

/-- One pass through the `select` of lines 60-114: the new local variables, the
effects performed in order, and whether the pass ends in `break LOOP`. -/
def loopBody (s : Coord) : Event → Coord × List Action × Bool
  | Event.conReturn none => ({ s with conn := none }, [], true)
  | Event.conReturn (some c) =>
      ({ s with conn := some c, reading := true, writing := true },
        [Action.goRead c, Action.goWrite c s.msgType], false)
  | Event.rError err =>
      let s1 := { s with reading := false }
      if s1.writing then
        (s1, [Action.sendControl QUIT, Action.sendStatus ⟨State.DISCONNECTED, some err⟩], false)
      else
        let r := closeAndClear s1
        (r.1, r.2 ++ [Action.goConnect], false)
  | Event.wError err =>
      let s1 := { s with writing := false }
      if s1.reading then
        let r := closeAndClear s1
        (r.1, r.2 ++ [Action.sendStatus ⟨State.DISCONNECTED, some err⟩], false)
      else
        (s1, [Action.goConnect], false)
  | Event.cmd c ok =>
      if !ok || c == QUIT then
        (s, if s.reading || s.writing || s.conn.isSome
              then [Action.sendStatus ⟨State.DISCONNECTED, none⟩] else [], true)
      else if c == PING then
        (s, if s.conn.isSome && s.writing then [Action.sendControl c] else [], false)
      else if c == USETEXT then
        ({ s with msgType := TextMessage },
          if s.writing then [Action.sendControl c] else [], false)
      else if c == USEBINARY then
        ({ s with msgType := BinaryMessage },
          if s.writing then [Action.sendControl c] else [], false)
      else (s, [], false)

/-- The `for` loop of lines 58-115 run on the events the `select` receives, in
order: the local variables when the events are used up or the loop is left, the
effects performed, and whether the loop was left.  Events after `break LOOP`
are not received. -/
def loop (s : Coord) : List Event → Coord × List Action × Bool
  | [] => (s, [], false)
  | e :: es =>
      let r := loopBody s e
      if r.2.2 then (r.1, r.2.1, true)
      else
        let r2 := loop r.1 es
        (r2.1, r.2.1 ++ r2.2.1, r2.2.2)

/-- The local variables as declared at lines 51-54. -/
def initCoord : Coord :=
  { reading := false, writing := false, conn := none, msgType := BinaryMessage }

/-- The Coordinator goroutine of `New` (lines 50-116) on the events its `select`
receives.  The `defer` statement at line 57 evaluates the arguments of
`safeClose` when it executes, so the deferred call carries the value `conn`
has at line 57; the call runs when the loop is left. -/
def New (evs : List Event) : List Action :=
  let s0 := initCoord
  let deferredConn := s0.conn
  let r := loop s0 evs
  [Action.goKeepAlive, Action.goConnect] ++ r.2.1 ++
    (if r.2.2 then [Action.safeClose deferredConn] else [])

/-! ## The Coordinator together with the goroutines it has started -/

/-- The Coordinator and the goroutines it started that still owe it a message:
`connect` goroutines that have not yet delivered on `conReturnCh` (line 129),
`read` goroutines that have not yet reported on `rErrorCh` (line 223) and
`write` goroutines that have not yet reported on `wErrorCh`. -/
structure World where
  coord : Coord
  connectors : Nat
  readers : Nat
  writers : Nat
  deriving DecidableEq, Repr

/-- The state after lines 55-57: one `connect` goroutine has been started. -/
def initWorld : World :=
  { coord := initCoord, connectors := 1, readers := 0, writers := 0 }

/-- Whether some goroutine can make the `select` case fire: `connect` sends a
non-nil connection once before it returns, `read` and `write` send one error
before they return, and the caller may send any command or close `cmdCh`. -/
def enabled (w : World) : Event → Bool
  | Event.conReturn (some _) => decide (0 < w.connectors)
  | Event.conReturn none => false
  | Event.rError _ => decide (0 < w.readers)
  | Event.wError _ => decide (0 < w.writers)
  | Event.cmd _ _ => true

/-- The goroutine whose message the event receives has delivered it. -/
def consume (w : World) : Event → World
  | Event.conReturn _ => { w with connectors := w.connectors - 1 }
  | Event.rError _ => { w with readers := w.readers - 1 }
  | Event.wError _ => { w with writers := w.writers - 1 }
  | Event.cmd _ _ => w

/-- The number of `go connect(...)` statements in a trace. -/
def connectsStarted : List Action → Nat
  | [] => 0
  | Action.goConnect :: as => connectsStarted as + 1
  | _ :: as => connectsStarted as

/-- The number of `go read(...)` statements in a trace. -/
def readsStarted : List Action → Nat
  | [] => 0
  | Action.goRead _ :: as => readsStarted as + 1
  | _ :: as => readsStarted as

/-- The number of `go write(...)` statements in a trace. -/
def writesStarted : List Action → Nat
  | [] => 0
  | Action.goWrite _ _ :: as => writesStarted as + 1
  | _ :: as => writesStarted as

/-- One enabled pass through the `select`: the Coordinator runs `loopBody`, and
every `go` statement among its effects starts a goroutine.  No step is taken
once the loop is left. -/
def wstep (w : World) (e : Event) : Option World :=
  if enabled w e then
    let r := loopBody w.coord e
    if r.2.2 then none
    else
      let w1 := consume w e
      some { coord := r.1,
             connectors := w1.connectors + connectsStarted r.2.1,
             readers := w1.readers + readsStarted r.2.1,
             writers := w1.writers + writesStarted r.2.1 }
  else none

/-- The states the Coordinator and its goroutines can be in. -/
inductive Reachable : World → Prop where
  | init : Reachable initWorld
  | step (w w1 : World) (e : Event) : Reachable w → wstep w e = some w1 → Reachable w1

/-! ## Shutdown (`safeClose`, lines 229-272) -/

/-- The channels made in `New` (lines 39-48). -/
inductive ChanName where
  | inpCh | outCh | stsCh | cmdCh | rErrorCh | wErrorCh
  | ioEventCh | conCancelCh | controlCh | conReturnCh
  deriving DecidableEq, Repr

/-- The effects `safeClose` performs. -/
inductive Effect where
  /-- Call `conn.Close()`. -/
  | connClose (conn : Conn)
  /-- Call `close(ch)`. -/
  | close (ch : ChanName)
  /-- The wait `<-time.After(50 * time.Millisecond)`. -/
  | sleep
  /-- Call `wg.Wait()`, returned. -/
  | wgWait
  deriving DecidableEq, Repr

/-- Lines 232-238 of `safeClose`, for the argument `conn` it was called with. -/
def safeCloseHead (conn : Option Conn) : List Effect :=
  (match conn with
    | some c => [Effect.connClose c]
    | none => []) ++
  [Effect.close ChanName.ioEventCh, Effect.close ChanName.controlCh,
   Effect.close ChanName.conCancelCh, Effect.sleep]

/-- What a receiver sees of a Go channel: the values it will receive, oldest
first (those in the buffer, then those of senders blocked on the channel), and
whether the channel has been closed. -/
structure Chan (α : Type) where
  buf : List α
  closed : Bool
  deriving DecidableEq, Repr

/-- Whether a receive from the channel variable can proceed: never on a nil
channel, otherwise when a value is waiting or the channel is closed. -/
def Chan.ready {α : Type} : Option (Chan α) → Bool
  | none => false
  | some c => !c.buf.isEmpty || c.closed

/-- The receive `v, ok := <-ch` on a ready channel: the next value with
`ok = true`, or the zero value (here `none`) with `ok = false` once the channel
is closed and empty. -/
def Chan.recv {α : Type} (c : Chan α) : Option α × Bool × Chan α :=
  match c.buf with
  | x :: xs => (some x, true, { c with buf := xs })
  | [] => (none, false, c)

/-- A message payload, `[]byte`. -/
abbrev Bytes := List Nat

/-- The variables of `safeClose` that its drain loop reads or assigns; a nil
channel variable is `none`. -/
structure Drain where
  outCh : Option (Chan Bytes)
  cmdCh : Option (Chan Command)
  conReturnCh : Option (Chan (Option Conn))
  rErrorCh : Option (Chan Err)
  wErrorCh : Option (Chan Err)
  inpCh : Option ChanName
  deriving DecidableEq, Repr

/-- The receive cases of the `select` at line 241 that can proceed, numbered in
source order from 0 (`outCh`) to 4 (`wErrorCh`). -/
def readyCases (d : Drain) : List Nat :=
  (if Chan.ready d.outCh then [0] else []) ++
  (if Chan.ready d.cmdCh then [1] else []) ++
  (if Chan.ready d.conReturnCh then [2] else []) ++
  (if Chan.ready d.rErrorCh then [3] else []) ++
  (if Chan.ready d.wErrorCh then [4] else [])

/-- The body of receive case `k` of the `select` at lines 241-267. -/
def drainCase (d : Drain) (k : Nat) : Drain × List Effect :=
  match k with
  | 0 =>
      match d.outCh with
      | some c =>
          let r := c.recv
          (if !r.2.1 then { d with outCh := none } else { d with outCh := some r.2.2 }, [])
      | none => (d, [])
  | 1 =>
      match d.cmdCh with
      | some c =>
          let r := c.recv
          (if !r.2.1 then { d with cmdCh := some r.2.2, inpCh := none }
            else { d with cmdCh := some r.2.2 }, [])
      | none => (d, [])
  | 2 =>
      match d.conReturnCh with
      | some c =>
          let r := c.recv
          let eff := match r.1 with
            | some (some conn) => [Effect.connClose conn]
            | _ => []
          (if !r.2.1 then { d with conReturnCh := none }
            else { d with conReturnCh := some r.2.2 }, eff)
      | none => (d, [])
  | 3 =>
      match d.rErrorCh with
      | some c =>
          let r := c.recv
          (if !r.2.1 then { d with rErrorCh := none } else { d with rErrorCh := some r.2.2 }, [])
      | none => (d, [])
  | _ =>
      match d.wErrorCh with
      | some c =>
          let r := c.recv
          (if !r.2.1 then { d with wErrorCh := none } else { d with wErrorCh := some r.2.2 }, [])
      | none => (d, [])

/-- One pass through the `select` of lines 241-267.  Go runs the `default` case
only when no receive can proceed, and otherwise one of the receives that can,
chosen by the scheduler: `pick` selects it among `readyCases`.  The result is
`none` for `default`, which is `break LOOP`. -/
def drainStep (pick : Nat) (d : Drain) : Option (Drain × List Effect) :=
  match readyCases d with
  | [] => none
  | k :: ks => some (drainCase d ((k :: ks).getD (pick % (k :: ks).length) k))

/-- The loop of lines 239-268, `picks i` being the scheduler's choice in pass
`i`: the variables and the effects when the loop is left, or `none` when it has
not been left after `fuel` passes. -/
def drainLoop : Nat → (Nat → Nat) → Drain → Option (Drain × List Effect)
  | 0, _, _ => none
  | fuel + 1, picks, d =>
      match drainStep (picks 0) d with
      | none => some (d, [])
      | some r =>
          match drainLoop fuel (fun i => picks (i + 1)) r.1 with
          | none => none
          | some r2 => some (r2.1, r.2 ++ r2.2)

/-- How a call of `safeClose` ends. -/
inductive Outcome where
  /-- The call returned, having performed the effects. -/
  | returned (effects : List Effect)
  /-- The call panicked with the message, after the effects. -/
  | panicked (msg : String) (effects : List Effect)
  deriving DecidableEq, Repr

/-- Lines 269-271 with the variables the drain loop left: `wg.Wait()` (taken
here to return), `close(inpCh)`, which panics on a nil channel, `close(stsCh)`. -/
def safeCloseTail (d : Drain) : Outcome :=
  match d.inpCh with
  | none => Outcome.panicked "close of nil channel" [Effect.wgWait]
  | some ch => Outcome.returned [Effect.wgWait, Effect.close ch, Effect.close ChanName.stsCh]

/-- The function `safeClose` (lines 229-272) called with `conn` and channels in
the state `d`; `none` when the drain loop is still running after `fuel` passes. -/
def safeClose (fuel : Nat) (picks : Nat → Nat) (conn : Option Conn) (d : Drain) :
    Option Outcome :=
  match drainLoop fuel picks d with
  | none => none
  | some r =>
      match safeCloseTail r.1 with
      | Outcome.returned t => some (Outcome.returned (safeCloseHead conn ++ r.2 ++ t))
      | Outcome.panicked m t => some (Outcome.panicked m (safeCloseHead conn ++ r.2 ++ t))

/-- The channel variables as `safeClose` receives them: every channel non-nil. -/
def mkDrain (outCh : Chan Bytes) (cmdCh : Chan Command) (conReturnCh : Chan (Option Conn))
    (rErrorCh wErrorCh : Chan Err) : Drain :=
  { outCh := some outCh, cmdCh := some cmdCh, conReturnCh := some conReturnCh,
    rErrorCh := some rErrorCh, wErrorCh := some wErrorCh, inpCh := some ChanName.inpCh }

/-! ## Goroutines and the wait group (lines 49, 122-123, 145-146, 171-172, 216-217, 269-271) -/

/-- The four functions the Coordinator starts with a `go` statement. -/
inductive LoopKind where
  | connect | keepAlive | write | read
  deriving DecidableEq, Repr

/-- Where a started goroutine stands with respect to the wait group: each of
the four functions begins with `wg.Add(1)` followed by `defer wg.Done()`. -/
inductive Stage where
  /-- The `go` statement has run; the goroutine has not yet executed `wg.Add(1)`. -/
  | started
  /-- The goroutine has executed `wg.Add(1)` and not yet returned. -/
  | running
  /-- The goroutine has returned and its deferred `wg.Done()` has run. -/
  | exited
  deriving DecidableEq, Repr

/-- A goroutine started by the Coordinator. -/
structure Task where
  kind : LoopKind
  stage : Stage
  deriving DecidableEq, Repr

/-- The goroutines, the wait group counter and the progress of `safeClose`
through lines 269-271: `pc = 0` before `wg.Wait()` returns, then 1, 2 after
`close(inpCh)`, 3 after `close(stsCh)`. -/
structure Sys where
  tasks : List Task
  wg : Nat
  pc : Nat
  panic : Option String
  deriving DecidableEq, Repr

/-- One atomic step of one goroutine. -/
inductive Move where
  /-- Goroutine `i` executes its first statement, `wg.Add(1)`. -/
  | add (i : Nat)
  /-- Goroutine `i` sends on the caller-facing channel its function sends on:
  `stsCh` for `connect` (lines 130, 133, 137), `inpCh` for `read` (line 221). -/
  | send (i : Nat)
  /-- Goroutine `i` returns and its deferred `wg.Done()` runs. -/
  | done (i : Nat)
  /-- The call `wg.Wait()` of line 269 returns. -/
  | wait
  /-- Line 270, `close(inpCh)`. -/
  | closeInp
  /-- Line 271, `close(stsCh)`. -/
  | closeSts
  deriving DecidableEq, Repr

/-- Whether the caller-facing channel the function sends on has been closed. -/
def targetClosed (s : Sys) : LoopKind → Option Bool
  | LoopKind.connect => some (decide (3 ≤ s.pc))
  | LoopKind.read => some (decide (2 ≤ s.pc))
  | LoopKind.write => none
  | LoopKind.keepAlive => none

/-- The step relation as a function: `none` when the move cannot be made in the
state.  `wg.Wait()` returns only when the counter is zero; a send on a closed
channel panics. -/
def move (s : Sys) : Move → Option Sys
  | Move.add i =>
      match s.tasks.get? i with
      | some ⟨k, Stage.started⟩ =>
          some { s with tasks := s.tasks.set i ⟨k, Stage.running⟩, wg := s.wg + 1 }
      | _ => none
  | Move.send i =>
      match s.tasks.get? i with
      | some ⟨k, Stage.running⟩ =>
          match targetClosed s k with
          | some true => some { s with panic := some "send on closed channel" }
          | some false => some s
          | none => none
      | _ => none
  | Move.done i =>
      match s.tasks.get? i with
      | some ⟨k, Stage.running⟩ =>
          some { s with tasks := s.tasks.set i ⟨k, Stage.exited⟩, wg := s.wg - 1 }
      | _ => none
  | Move.wait => if s.pc = 0 ∧ s.wg = 0 then some { s with pc := 1 } else none
  | Move.closeInp => if s.pc = 1 then some { s with pc := 2 } else none
  | Move.closeSts => if s.pc = 2 then some { s with pc := 3 } else none

/-- A schedule of moves, run from a state; nothing runs after a panic. -/
def moves (s : Sys) : List Move → Option Sys
  | [] => some s
  | m :: ms =>
      if s.panic.isSome then none
      else
        match move s m with
        | some s1 => moves s1 ms
        | none => none

/-- The goroutines a trace of the Coordinator has started, in order, none of
them having run yet. -/
def startedTasks : List Action → List Task
  | [] => []
  | Action.goKeepAlive :: as => ⟨LoopKind.keepAlive, Stage.started⟩ :: startedTasks as
  | Action.goConnect :: as => ⟨LoopKind.connect, Stage.started⟩ :: startedTasks as
  | Action.goRead _ :: as => ⟨LoopKind.read, Stage.started⟩ :: startedTasks as
  | Action.goWrite _ _ :: as => ⟨LoopKind.write, Stage.started⟩ :: startedTasks as
  | _ :: as => startedTasks as

/-- The system when `safeClose` reaches line 269 and no started goroutine has
been scheduled yet. -/
def sysAtWait (trace : List Action) : Sys :=
  { tasks := startedTasks trace, wg := 0, pc := 0, panic := none }

/-! ## The Connector (`connect`, lines 120-141) -/

/-- The case of the `select` at line 134 that fires after a failed dial. -/
inductive Wait where
  /-- Case `<-time.After(30 * time.Second)`. -/
  | timer
  /-- Case `<-conCancelCh`. -/
  | cancel
  deriving DecidableEq, Repr

/-- What one pass through the loop of `connect` meets: the result of
`dialer.Dial` and, after a failure, the case of the `select` that fires. -/
inductive Attempt where
  | ok (conn : Conn)
  | fail (err : Err) (w : Wait)
  deriving DecidableEq, Repr

/-- The effects of `connect`. -/
inductive CAction where
  /-- Call `wg.Add(1)`. -/
  | wgAdd
  /-- Call `dialer.Dial(url, headers)`. -/
  | dial
  /-- Call `conn.SetPongHandler(...)`. -/
  | setPongHandler (conn : Conn)
  /-- Send `conReturnCh <- conn`. -/
  | sendConReturn (conn : Conn)
  /-- Send `stsCh <- status`. -/
  | sendStatus (s : Status)
  /-- The deferred `wg.Done()`. -/
  | wgDone
  deriving DecidableEq, Repr

/-- The loop of lines 124-140 on the attempts it meets: its effects and whether
it has returned (it is waiting in `Dial` when the attempts are used up). -/
def connectLoop : List Attempt → List CAction × Bool
  | [] => ([], false)
  | Attempt.ok c :: _ =>
      ([CAction.dial, CAction.setPongHandler c, CAction.sendConReturn c,
        CAction.sendStatus ⟨State.CONNECTED, none⟩], true)
  | Attempt.fail e Wait.timer :: rest =>
      let r := connectLoop rest
      ([CAction.dial, CAction.sendStatus ⟨State.DISCONNECTED, some e⟩] ++ r.1, r.2)
  | Attempt.fail e Wait.cancel :: _ =>
      ([CAction.dial, CAction.sendStatus ⟨State.DISCONNECTED, some e⟩,
        CAction.sendStatus ⟨State.DISCONNECTED, some "cancelled"⟩], true)

/-- The function `connect` (lines 120-141). -/
def connect (atts : List Attempt) : List CAction × Bool :=
  let r := connectLoop atts
  (CAction.wgAdd :: r.1 ++ (if r.2 then [CAction.wgDone] else []), r.2)

/-- The statuses sent on `stsCh`, in order. -/
def statusesOf : List CAction → List Status
  | [] => []
  | CAction.sendStatus s :: as => s :: statusesOf as
  | _ :: as => statusesOf as

/-- The connections sent on `conReturnCh`, in order. -/
def deliveredOf : List CAction → List Conn
  | [] => []
  | CAction.sendConReturn c :: as => c :: deliveredOf as
  | _ :: as => deliveredOf as

/-- The number of calls of `dialer.Dial`. -/
def dialsOf (as : List CAction) : Nat := as.count CAction.dial

/-! ## The Writer (`write`, lines 169-212) -/

/-- What one pass through the `select` of `write` meets: the case that fires
with the value received, whether `ioEventCh` is still open when the case sends
on it, and the results of the transport calls the case makes (`none` for a nil
error). -/
inductive WInput where
  /-- Case `msg, ok := <-outCh`, with the state of `ioEventCh` at the send of
  line 181 (`false` once `safeClose` has closed it) and the results of
  `SetWriteDeadline` and `WriteMessage`. -/
  | out (msg : Bytes) (ok : Bool) (ioOpen : Bool) (deadlineErr writeErr : Option Err)
  /-- Case `cmd, ok := <-controlCh`, with the result of `WriteControl`. -/
  | control (cmd : Command) (ok : Bool) (pingErr : Option Err)
  deriving DecidableEq, Repr

/-- The effects of `write`. -/
inductive WAction where
  /-- Call `wg.Add(1)`. -/
  | wgAdd
  /-- Send `ioEventCh <- true`. -/
  | ioEvent
  /-- Call `conn.SetWriteDeadline(time.Now().Add(3 * time.Second))`. -/
  | setWriteDeadline
  /-- Call `conn.WriteMessage(msgType, msg)`. -/
  | writeMessage (msgType : Nat) (msg : Bytes)
  /-- Call `conn.SetWriteDeadline(time.Time{})`. -/
  | clearWriteDeadline
  /-- Call `conn.WriteControl(websocket.PingMessage, ...)`. -/
  | writeControl
  /-- Send `wErrorCh <- err`. -/
  | sendWError (err : Err)
  /-- A run-time panic with the message, here of the send `ioEventCh <- true`
  on the closed channel. -/
  | panic (msg : String)
  /-- The deferred `wg.Done()`. -/
  | wgDone
  deriving DecidableEq, Repr

/-- The loop of lines 174-211 with the current `msgType`, on the inputs it
meets: its effects and whether it has left the loop.  The send of line 181 on
the closed `ioEventCh` panics: the goroutine leaves the loop there, before any
transport call and without a report. -/
def writeLoop (msgType : Nat) : List WInput → List WAction × Bool
  | [] => ([], false)
  | WInput.out msg ok ioOpen deadlineErr writeErr :: rest =>
      if !ok then ([WAction.sendWError "outCh closed"], true)
      else if !ioOpen then ([WAction.panic "send on closed channel"], true)
      else
        match deadlineErr with
        | some err =>
            ([WAction.ioEvent, WAction.setWriteDeadline, WAction.sendWError err], true)
        | none =>
            match writeErr with
            | some err =>
                ([WAction.ioEvent, WAction.setWriteDeadline, WAction.writeMessage msgType msg,
                  WAction.sendWError err], true)
            | none =>
                let r := writeLoop msgType rest
                ([WAction.ioEvent, WAction.setWriteDeadline, WAction.writeMessage msgType msg,
                  WAction.clearWriteDeadline] ++ r.1, r.2)
  | WInput.control cmd ok pingErr :: rest =>
      if !ok then ([WAction.sendWError "controlCh closed"], true)
      else if cmd = QUIT then ([WAction.sendWError "cancelled"], true)
      else if cmd = PING then
        match pingErr with
        | some _ => ([WAction.writeControl, WAction.sendWError "cancelled"], true)
        | none =>
            let r := writeLoop msgType rest
            (WAction.writeControl :: r.1, r.2)
      else if cmd = USETEXT then writeLoop TextMessage rest
      else if cmd = USEBINARY then writeLoop BinaryMessage rest
      else writeLoop msgType rest

/-- The function `write` (lines 169-212) started with `msgType`.  The deferred
`wg.Done()` runs when the function returns and also when it panics. -/
def write (msgType : Nat) (inputs : List WInput) : List WAction × Bool :=
  let r := writeLoop msgType inputs
  (WAction.wgAdd :: r.1 ++ (if r.2 then [WAction.wgDone] else []), r.2)

/-- The frames handed to `conn.WriteMessage`, in order, each with its type. -/
def framesOf : List WAction → List (Nat × Bytes)
  | [] => []
  | WAction.writeMessage t m :: as => (t, m) :: framesOf as
  | _ :: as => framesOf as

/-! ## The Reader (`read`, lines 214-227) -/

/-- The result of one call of `conn.ReadMessage()`: a payload, together with
the state of `ioEventCh` at the send of line 220 (`false` once `safeClose` has
closed it), or an error. -/
inductive Recv where
  | msg (payload : Bytes) (ioOpen : Bool)
  | fail (err : Err)
  deriving DecidableEq, Repr

/-- The effects a goroutine holding the session can perform; `read` performs
all but the last. -/
inductive RAction where
  /-- Call `wg.Add(1)`. -/
  | wgAdd
  /-- Call `conn.ReadMessage()`. -/
  | readMessage
  /-- Send `ioEventCh <- true`. -/
  | ioEvent
  /-- Send `inpCh <- msg`. -/
  | sendInp (msg : Bytes)
  /-- Send `rErrorCh <- err`. -/
  | sendRError (err : Err)
  /-- A run-time panic with the message, here of the send `ioEventCh <- true`
  on the closed channel. -/
  | panic (msg : String)
  /-- The deferred `wg.Done()`. -/
  | wgDone
  /-- Call `conn.Close()`. -/
  | connClose
  deriving DecidableEq, Repr

/-- The loop of lines 218-226 on the results its receives meet: its effects and
whether it has left the loop (it is waiting in `ReadMessage` when the results
are used up).  The send of line 220 on the closed `ioEventCh` panics: the
goroutine leaves the loop there, before the delivery and without a report. -/
def readLoop : List Recv → List RAction × Bool
  | [] => ([], false)
  | Recv.msg m ioOpen :: rest =>
      if !ioOpen then ([RAction.readMessage, RAction.panic "send on closed channel"], true)
      else
        let r := readLoop rest
        ([RAction.readMessage, RAction.ioEvent, RAction.sendInp m] ++ r.1, r.2)
  | Recv.fail e :: _ => ([RAction.readMessage, RAction.sendRError e], true)

/-- The function `read` (lines 214-227).  The deferred `wg.Done()` runs when the
function returns and also when it panics. -/
def read (recvs : List Recv) : List RAction × Bool :=
  let r := readLoop recvs
  (RAction.wgAdd :: r.1 ++ (if r.2 then [RAction.wgDone] else []), r.2)

/-! ## The Keepalive Monitor (`keepAlive`, lines 143-167) -/

/-- What the send `controlCh <- PING` of the inner `select` (lines 161-164) finds:
room in the channel (or a receiver waiting), a full channel, or a closed one. -/
inductive Ctl where
  | room
  | full
  | closed
  deriving DecidableEq, Repr

/-- The case of the `select` at line 152 that fires. -/
inductive KInput where
  /-- Case `_, ok := <-ioEventCh`. -/
  | pulse (ok : Bool)
  /-- Case `<-timer.C`, with the state of `controlCh` at the inner `select`. -/
  | expiry (ctl : Ctl)
  deriving DecidableEq, Repr

/-- The effects of `keepAlive`. -/
inductive KAction where
  /-- Call `wg.Add(1)`. -/
  | wgAdd
  /-- Call `time.NewTimer(dur)`. -/
  | newTimer
  /-- Call `timer.Stop()`. -/
  | timerStop
  /-- Call `timer.Reset(dur)`. -/
  | timerReset
  /-- Send `controlCh <- PING`, taken by the inner `select`. -/
  | sendControl (c : Command)
  /-- The deferred `wg.Done()`. -/
  | wgDone
  deriving DecidableEq, Repr

/-- How far a run of `keepAlive` has got. -/
inductive KEnd where
  /-- Waiting in the `select` of line 152. -/
  | running
  /-- Left the loop and returned. -/
  | returned
  /-- Panicked: send on the closed `controlCh`. -/
  | panicked
  deriving DecidableEq, Repr

/-- The loop of lines 151-166; `armed` tells whether the timer is running, so
that `timer.C` can deliver.  The result is `none` when an input cannot occur:
the case `<-timer.C` does not fire while the timer is stopped. -/
def keepAliveLoop (armed : Bool) : List KInput → Option (List KAction × KEnd)
  | [] => some ([], KEnd.running)
  | KInput.pulse false :: _ => some ([KAction.timerStop], KEnd.returned)
  | KInput.pulse true :: rest =>
      match keepAliveLoop true rest with
      | some r => some (KAction.timerReset :: r.1, r.2)
      | none => none
  | KInput.expiry ctl :: rest =>
      if !armed then none
      else
        match ctl with
        | Ctl.closed => some ([KAction.timerReset], KEnd.panicked)
        | Ctl.room =>
            match keepAliveLoop true rest with
            | some r => some (KAction.timerReset :: KAction.sendControl PING :: r.1, r.2)
            | none => none
        | Ctl.full =>
            match keepAliveLoop true rest with
            | some r => some (KAction.timerReset :: r.1, r.2)
            | none => none

/-- The function `keepAlive` (lines 143-167): the timer is made and stopped
before the loop. -/
def keepAlive (inputs : List KInput) : Option (List KAction × KEnd) :=
  match keepAliveLoop false inputs with
  | some r =>
      some ([KAction.wgAdd, KAction.newTimer, KAction.timerStop] ++ r.1 ++
        (if r.2 = KEnd.returned then [KAction.wgDone] else []), r.2)
  | none => none

/-! ## The control channel (`controlCh`, line 47) -/

/-- The capacity of `controlCh`, `make(chan Command, 1)`. -/
def controlCap : Nat := 1

/-- The sends `controlCh <- cmd` of a trace of the Coordinator, run in order on
the channel holding `queued` values while the Writer receives none: a send
proceeds when the buffer has room and blocks otherwise.  The result is the
number of values queued after the trace, or `none` when a send blocks. -/
def sendsControl (queued : Nat) : List Action → Option Nat
  | [] => some queued
  | Action.sendControl _ :: as =>
      if queued < controlCap then sendsControl (queued + 1) as else none
  | _ :: as => sendsControl queued as

/-! ## Observations on traces and states, used in the statements -/

/-- The statuses a trace of the Coordinator sends on `stsCh`, in order. -/
def statusesSent : List Action → List Status
  | [] => []
  | Action.sendStatus s :: as => s :: statusesSent as
  | _ :: as => statusesSent as

/-- The number of times a trace of the Coordinator calls `safeClose`. -/
def shutdowns : List Action → Nat
  | [] => 0
  | Action.safeClose _ :: as => shutdowns as + 1
  | _ :: as => shutdowns as

/-- A caller command other than `Quit` received from the open command channel:
`Ping`, `UseText`, `UseBinary`, or a byte that is none of the four commands. -/
def isRelayed : Event → Bool
  | Event.cmd c ok => ok && c != QUIT
  | _ => false

/-- The payloads the Writer takes from the outbound queue, in order. -/
def payloadsOf : List WInput → List Bytes
  | [] => []
  | WInput.out msg _ _ _ _ :: rest => msg :: payloadsOf rest
  | WInput.control _ _ _ :: rest => payloadsOf rest

/-- An input on which the Writer neither fails nor is told to stop: a payload
from the open outbound queue, taken while `ioEventCh` is open, whose calls
succeed, or a control other than `Quit` from the open control channel whose
heartbeat, if any, succeeds. -/
def succeeds : WInput → Bool
  | WInput.out _ ok io d w => ok && io && d.isNone && w.isNone
  | WInput.control c ok p => ok && c != QUIT && (c != PING || p.isNone)

/-- The number of values the drain loop can still receive: for every non-nil
channel variable its waiting values, plus one for the close of `outCh`,
`conReturnCh`, `rErrorCh` or `wErrorCh`, which the loop answers by setting the
variable to nil. -/
def drainMeasure (d : Drain) : Nat :=
  (match d.outCh with
    | some c => c.buf.length + (if c.closed then 1 else 0)
    | none => 0) +
  (match d.cmdCh with
    | some c => c.buf.length
    | none => 0) +
  (match d.conReturnCh with
    | some c => c.buf.length + (if c.closed then 1 else 0)
    | none => 0) +
  (match d.rErrorCh with
    | some c => c.buf.length + (if c.closed then 1 else 0)
    | none => 0) +
  (match d.wErrorCh with
    | some c => c.buf.length + (if c.closed then 1 else 0)
    | none => 0)

/-- The goroutines still owing the Coordinator a message are determined by its
two flags: one Reader exactly while `reading`, one Writer exactly while
`writing`, one Connector exactly while both are false. -/
def WorldInv (w : World) : Prop :=
  w.readers = (if w.coord.reading then 1 else 0) ∧
  w.writers = (if w.coord.writing then 1 else 0) ∧
  w.connectors = (if w.coord.reading || w.coord.writing then 0 else 1)

/-- An open channel on which nothing is waiting. -/
def idleChan {α : Type} : Chan α := { buf := [], closed := false }

/-- A closed channel on which nothing is waiting. -/
def closedChan {α : Type} : Chan α := { buf := [], closed := true }

/-- The channels at shutdown after `Quit`: all open, nothing waiting. -/
def drainAfterQuit : Drain := mkDrain idleChan idleChan idleChan idleChan idleChan

/-- The channels at shutdown after the caller closed `Command`: the same,
except that `cmdCh` is closed. -/
def drainAfterClose : Drain := mkDrain idleChan closedChan idleChan idleChan idleChan

/-- The command channel variable is nil or holds a channel that is not closed. -/
def CmdOpen (d : Drain) : Prop := ∀ c, d.cmdCh = some c → c.closed = false

/-- The arguments `conn` of the calls of `safeClose` in a trace, in order. -/
def shutdownArgs : List Action → List (Option Conn)
  | [] => []
  | Action.safeClose conn :: as => conn :: shutdownArgs as
  | _ :: as => shutdownArgs as

/-- The client right after `New` when the caller sends `Quit` at once. -/
def quitAtOnce : List Action := New [Event.cmd QUIT true]

/-- Attempts that all fail and are each followed by the full backoff wait. -/
def failing (errs : List Err) : List Attempt :=
  errs.map fun e => Attempt.fail e Wait.timer

/-- The status `Disconnected` with an error. -/
def disconnected (e : Err) : Status := ⟨State.DISCONNECTED, some e⟩

/-- The errors a trace of the Writer sends on `wErrorCh`, in order. -/
def errorsOf : List WAction → List Err
  | [] => []
  | WAction.sendWError e :: as => e :: errorsOf as
  | _ :: as => errorsOf as

/-- The effects of `read` for payloads received in order: one call of
`ReadMessage`, one activity pulse and one delivery each. -/
def deliveriesOf : List Bytes → List RAction
  | [] => []
  | p :: ps => [RAction.readMessage, RAction.ioEvent, RAction.sendInp p] ++ deliveriesOf ps

/-- The payloads received in order, each meeting the open `ioEventCh`. -/
def received (ps : List Bytes) : List Recv := ps.map fun p => Recv.msg p true

/-- The panics of a trace of the Writer, in order. -/
def panicsOf : List WAction → List String
  | [] => []
  | WAction.panic m :: as => m :: panicsOf as
  | _ :: as => panicsOf as

/-- The effects of a trace the Coordinator gets to perform when its sends
`controlCh <- cmd` run on the channel holding `queued` values while the Writer
receives none: the effects before the first send that blocks, all of them when
no send blocks. -/
def performed (queued : Nat) : List Action → List Action
  | [] => []
  | Action.sendControl c :: as =>
      if queued < controlCap then Action.sendControl c :: performed (queued + 1) as else []
  | a :: as => a :: performed queued as

/-- A loop of the session terminating with a report: `read` puts its error on
`rErrorCh` (line 223), `write` puts its error on `wErrorCh` (lines 178-202). -/
inductive Exit where
  | reader (err : Err)
  | writer (err : Err)
  deriving DecidableEq, Repr

/-- The values waiting on `rErrorCh` and on `wErrorCh` after the loops of a
session terminated in the given order, the Coordinator having received none:
each channel has capacity 1 (lines 43-44), so the report of a loop does not
wait for the Coordinator. -/
def reported : List Exit → List Err × List Err
  | [] => ([], [])
  | Exit.reader e :: xs => (e :: (reported xs).1, (reported xs).2)
  | Exit.writer e :: xs => ((reported xs).1, e :: (reported xs).2)

/-- The cases `err := <-rErrorCh` and `err := <-wErrorCh` of the `select` at line
60 that can proceed on these channels; Go chooses among the cases that can
proceed, not by the age of the values. -/
def readyReports (chs : List Err × List Err) : List Event :=
  (match chs.1 with
    | e :: _ => [Event.rError e]
    | [] => []) ++
  (match chs.2 with
    | e :: _ => [Event.wError e]
    | [] => [])

/-! ## Reference definitions, in the words of the specification -/

/-- The frame mode a caller command selects, if it is `UseText` or `UseBinary`. -/
def selectsMode : Event → Option Nat
  | Event.cmd c true =>
      if c = USETEXT then some TextMessage
      else if c = USEBINARY then some BinaryMessage
      else none
  | _ => none

/-- The mode selected by the most recent `UseText`/`UseBinary` command among the
events, binary if there is none. -/
def specMode (evs : List Event) : Nat :=
  ((evs.reverse.filterMap selectsMode).head?).getD BinaryMessage

/-- The frame mode a Writer control selects, if it is `UseText` or `UseBinary`. -/
def controlMode : WInput → Option Nat
  | WInput.control c _ _ =>
      if c = USETEXT then some TextMessage
      else if c = USEBINARY then some BinaryMessage
      else none
  | _ => none

/-- The mode set by the most recent `UseText`/`UseBinary` control among the
inputs `pre`, the starting mode if there is none. -/
def modeBefore (start : Nat) (pre : List WInput) : Nat :=
  ((pre.reverse.filterMap controlMode).head?).getD start

/-- The frames the specification expects for the inputs that follow `pre`: one
per payload, in order, each with the mode set before it. -/
def specFramesFrom (start : Nat) (pre : List WInput) : List WInput → List (Nat × Bytes)
  | [] => []
  | WInput.out msg ok io d w :: rest =>
      (modeBefore start pre, msg) ::
        specFramesFrom start (pre ++ [WInput.out msg ok io d w]) rest
  | WInput.control c ok p :: rest =>
      specFramesFrom start (pre ++ [WInput.control c ok p]) rest

/-- The frames the specification expects of a Writer started with mode `start`. -/
def specFrames (start : Nat) (inputs : List WInput) : List (Nat × Bytes) :=
  specFramesFrom start [] inputs

/-- The inputs on which the specification has the Writer terminate: a closed
outbound-payload channel or a failed send of a payload (the deadline call is
part of the send; the send is attempted only after the pulse on the open
`ioEventCh`), a closed control channel, a `Quit` control, or a failed send of
a heartbeat. -/
def stopsWriter : WInput → Bool
  | WInput.out _ ok io d w => !ok || (io && (d.isSome || w.isSome))
  | WInput.control c ok p => !ok || c == QUIT || (c == PING && p.isSome)

/-- An input of the Monitor that is an activity pulse or a timer expiry that
finds the control path with room or full. -/
def isSteady : KInput → Bool
  | KInput.pulse ok => ok
  | KInput.expiry Ctl.room => true
  | KInput.expiry Ctl.full => true
  | KInput.expiry Ctl.closed => false

/-- What the specification has the Monitor do on each such input: re-arm the
timer, and on an expiry that finds room enqueue one `Ping`. -/
def specKeepAlive : List KInput → List KAction
  | [] => []
  | KInput.expiry Ctl.room :: rest =>
      [KAction.timerReset, KAction.sendControl PING] ++ specKeepAlive rest
  | _ :: rest => KAction.timerReset :: specKeepAlive rest

end Ws

/-!
# The ID generator (`genid/genid.go`)

Values of type `int64` are integers kept in range by `wrap64`; the clock is the
list of the readings `time.Now().UnixNano() / 1e6` that successive calls meet.
-/

namespace Genid

/-- The value an `int64` computation keeps of the exact result `x`. -/
def wrap64 (x : Int) : Int := (x + 2 ^ 63) % 2 ^ 64 - 2 ^ 63

/-- The shift `x << n` on `int64`. -/
def shl64 (x : Int) (n : Nat) : Int := wrap64 (x * 2 ^ n)

/-- The constant `generateBits uint8 = 10`. -/
def generateBits : Nat := 10

/-- The constant `numberBits uint8 = 12`. -/
def numberBits : Nat := 12

/-- The constant `generateMax int64 = -1 ^ (-1 << generateBits)`. -/
def generateMax : Int := Int.xor (-1) (shl64 (-1) generateBits)

/-- The constant `numberMax int64 = -1 ^ (-1 << numberBits)`. -/
def numberMax : Int := Int.xor (-1) (shl64 (-1) numberBits)

/-- The constant `timeShift = generateBits + numberBits`. -/
def timeShift : Nat := generateBits + numberBits

/-- The constant `generateShift = numberBits`. -/
def generateShift : Nat := numberBits

/-- The constant `epoch int64 = 1525705533000`. -/
def epoch : Int := 1525705533000

/-- The fields of `type Generate struct` other than the mutex. -/
structure Generate where
  number : Int
  timestamp : Int
  generateId : Int
  deriving DecidableEq, Repr

/-- The function `newGenerate` (lines 73-83); `none` is the nil pointer. -/
def newGenerate (generateId : Int) : Option Generate :=
  if generateId < 0 ∨ generateId > generateMax then none
  else some { number := 0, timestamp := 0, generateId := generateId }

/-- The expression
`int64((now-epoch)<<timeShift | (g.generateId << generateShift) | (g.number))`
of lines 53, 59 and 66. -/
def makeId (now : Int) (g : Generate) : Int :=
  Int.lor (Int.lor (shl64 (wrap64 (now - epoch)) timeShift) (shl64 g.generateId generateShift))
    g.number

/-- The loop `for now <= g.timestamp { now = time.Now().UnixNano() / 1e6 }` of
lines 63-65 on the readings the clock gives: the value of `now` when the loop
is left and the readings not used, or `none` when the readings run out first. -/
def spin (timestamp : Int) : Int → List Int → Option (Int × List Int)
  | now, [] => if now ≤ timestamp then none else some (now, [])
  | now, r :: rs => if now ≤ timestamp then spin timestamp r rs else some (now, r :: rs)

/-- The method `getId` (lines 43-68) on the clock readings it meets: the ID,
the generator after the call and the readings not used; `none` when the
readings run out before the call returns. -/
def getId (g : Generate) : List Int → Option (Int × Generate × List Int)
  | [] => none
  | now :: clock =>
      if g.timestamp ≠ now then
        let g1 := { g with number := 0, timestamp := now }
        some (makeId now g1, g1, clock)
      else
        let g1 := { g with number := wrap64 (g.number + 1) }
        if g1.number ≤ numberMax then some (makeId now g1, g1, clock)
        else
          match spin g1.timestamp now clock with
          | none => none
          | some r => some (makeId r.1 g1, g1, r.2)

/-- Successive calls of `getId` on one generator, `n` of them: the IDs in order,
the generator after the last call and the readings not used. -/
def getIds : Nat → Generate → List Int → Option (List Int × Generate × List Int)
  | 0, g, clock => some ([], g, clock)
  | n + 1, g, clock =>
      match getId g clock with
      | none => none
      | some r =>
          match getIds n r.2.1 r.2.2 with
          | none => none
          | some r2 => some (r.1 :: r2.1, r2.2.1, r2.2.2)

/-- Bits 22 and up of an ID. -/
def timeField (id : Int) : Int := id / 2 ^ 22

/-- Bits 12 to 21 of an ID. -/
def nodeField (id : Int) : Int := id / 2 ^ 12 % 2 ^ 10

/-- Bits 0 to 11 of an ID. -/
def numberField (id : Int) : Int := id % 2 ^ 12

/-- A clock reading: 14 November 2023, in milliseconds since 1970. -/
def sampleMs : Int := 1700000000000

/-- The clock of the failing run: 4097 readings in the millisecond `sampleMs`,
then two in the next millisecond. -/
def busyClock : List Int := List.replicate 4097 sampleMs ++ [sampleMs + 1, sampleMs + 1]

end Genid

/-!
# Random values (`algorithm/random/random.go`, `algorithm/sha/sha.go`)

A Go string is a Lean string; the strings sliced and measured here consist of
one-byte characters, so that lengths in bytes and in characters agree.  The
calls `rand.Intn(n)` take their values from a stream `draw`, reduced modulo `n`.
-/

namespace Random

/-- The two functions of the Go standard library behind `sha.Sha256`:
`sha256` digest of the bytes of a string, and `base64.StdEncoding.EncodeToString`. -/
structure Lib where
  sum256 : String → List Nat
  stdEncode : List Nat → String

/-- The library's contract: a digest has 32 bytes, and the encoding of `n` bytes
has `(n + 2) / 3 * 4` characters. -/
def Lib.Lawful (lib : Lib) : Prop :=
  (∀ d, (lib.sum256 d).length = 32) ∧
  (∀ b, (lib.stdEncode b).length = (b.length + 2) / 3 * 4)

/-- The function `sha.SHA256Binary`. -/
def SHA256Binary (lib : Lib) (data : String) : List Nat := lib.sum256 data

/-- The function `base64.Encode` of the repository. -/
def Encode (lib : Lib) (data : List Nat) : String := lib.stdEncode data

/-- The function `sha.Sha256`: `b64.Encode(SHA256Binary(data))`. -/
def Sha256 (lib : Lib) (data : String) : String := Encode lib (SHA256Binary lib data)

/-- The constant `letterBytes`. -/
def letterBytes : String := "abcdefghijklmnopqrstuvwxyzABCDEFGHIJKLMNOPQRSTUVWXYZ"

/-- The table `letters`, a `[62]string`, in index order. -/
def letters : List String :=
  [
   "H", "f", "W", "a", "P", "X", "y", "z", "Q", "I", "l", "R", "A", "B", "S", "T",
   "J", "m", "C", "U", "q", "r", "N", "n", "D", "g", "s", "t", "w", "K", "b", "h",
   "Y", "O", "c", "x", "u", "i", "L", "v", "E", "M", "V", "Z", "j", "G", "k", "e",
   "F", "o", "p", "d", "7", "8", "0", "1", "9", "3", "4", "5", "6", "2"]

/-- The function `increaseNum` on the package variable `num` (a `uint32`): the
string returned and the new value of `num`. -/
def increaseNum (num : Nat) : String × Nat :=
  let num1 := if num ≥ 4294967295 then 0 else num
  (toString (num1 + 1), num1 + 1)

/-- The slice expression `s[:n]`; `none` is the panic for bounds out of range. -/
def sliceTo (s : String) (n : Int) : Option String :=
  if 0 ≤ n ∧ n ≤ s.length then some ⟨s.data.take n.toNat⟩ else none

/-- The six random letters of lines 59-62: `letterBytes[rand.Intn(len(letterBytes))]`. -/
def sixLetters (draw : Nat → Nat) : String :=
  ⟨(List.range 6).map fun i => letterBytes.data.getD (draw i % letterBytes.length) 'a'⟩

/-- The function `RanValLen` (lines 55-76) at Unix time `now`, with the random
stream `draw` and the counter `num`: the string returned (`none` for a panic)
and the new counter. -/
def RanValLen (lib : Lib) (now : Int) (draw : Nat → Nat) (num : Nat) (lens : Int) :
    Option String × Nat :=
  let st := toString now
  let st := st ++ sixLetters draw
  let s2 := Sha256 lib st
  let inc := increaseNum num
  let st := s2 ++ inc.1
  let st := Sha256 lib st
  (if lens ≤ 44 then sliceTo st lens else sliceTo (st ++ s2) lens, inc.2)

/-- The fields of `time.Now()` that `RanValPar` reads: `Year()`, `int(Month())`,
`Day()`, `Hour()`, `Minute()`. -/
structure Date where
  year : Int
  month : Int
  day : Int
  hour : Int
  minute : Int
  deriving DecidableEq, Repr

/-- The index expression `letters[i]`; `none` is the panic for an index out of
range. -/
def lettersAt (i : Int) : Option String :=
  if 0 ≤ i ∧ i < 62 then letters.get? i.toNat else none

/-- The concatenation `letters[i1] + letters[i2] + ...` for the indices given. -/
def lookupAll : List Int → Option String
  | [] => some ""
  | i :: rest =>
      match lettersAt i, lookupAll rest with
      | some a, some b => some (a ++ b)
      | _, _ => none

/-- The package variable `randMap`, a `map[string][2]int`. -/
abbrev RandMap := String → Option (Int × Int)

/-- The map when the package is loaded: `make(map[string][2]int)`. -/
def emptyMap : RandMap := fun _ => none

/-- Lines 129-138: the next value of the pair `v` of counters. -/
def nextPair (lens : Int) (v : Int × Int) : Int × Int :=
  if v.2 ≥ lens - 1 then
    if v.1 ≥ lens - 1 then (0, 0) else (v.1 + 1, 0)
  else (v.1, v.2 + 1)

/-- The name under which the counters are kept (lines 121-123). -/
def keyOf (par : String) : String := if par = "" then "def" else par

/-- The counters after the call (lines 124-139). -/
def pairOf (par : String) (randMap : RandMap) : Int × Int :=
  nextPair 62 (match randMap (keyOf par) with
    | some v => v
    | none => (0, 0))

/-- The indices of line 118, for the draw `ran = rand.Intn(10)`. -/
def dateIndices (ran : Int) (t : Date) : List Int :=
  [t.year - 2018, t.month + 12 * (ran % 5), t.day + 31 * (ran % 2) - 1,
   t.hour + 24 * (ran % 2), t.minute]

/-- The indices `rand.Intn(lens)` of the loop of lines 145-147. -/
def loopIndices (lenth : Int) (draw : Nat → Nat) : List Int :=
  (List.range (lenth - 7).toNat).map fun i => ((draw (i + 1) % 62 : Nat) : Int)

/-- Every index into `letters` that a call with `lenth >= 6` uses, in order. -/
def indicesUsed (par : String) (lenth : Int) (draw : Nat → Nat) (t : Date)
    (randMap : RandMap) : List Int :=
  dateIndices ((draw 0 % 10 : Nat) : Int) t ++
    [(pairOf par randMap).1, (pairOf par randMap).2] ++ loopIndices lenth draw

/-- The function `RanValPar` (lines 92-152) at the time `t`, with the random
stream `draw` and the map `randMap`: the string and the error returned and the
map after the call; `none` is a panic. -/
def RanValPar (par : String) (lenth : Int) (draw : Nat → Nat) (t : Date)
    (randMap : RandMap) : Option (String × Option String × RandMap) :=
  if lenth < 6 then some ("", some "位数少于6", randMap)
  else
    let ran : Int := ((draw 0 % 10 : Nat) : Int)
    match lookupAll (dateIndices ran t) with
    | none => none
    | some head =>
        let v := pairOf par randMap
        let randMap1 : RandMap := fun k => if k = keyOf par then some v else randMap k
        match lookupAll [v.1, v.2] with
        | none => none
        | some pair =>
            match lookupAll (loopIndices lenth draw) with
            | none => none
            | some tail =>
                let result := head ++ pair ++ tail
                if lenth = 6 then
                  match sliceTo result 6 with
                  | none => none
                  | some r => some (r, none, randMap1)
                else some (result, none, randMap1)

/-- The times the library can report: month 1 to 12, day 1 to 31, hour 0 to 23,
minute 0 to 59. -/
def validDate (t : Date) : Prop :=
  1 ≤ t.month ∧ t.month ≤ 12 ∧ 1 ≤ t.day ∧ t.day ≤ 31 ∧ 0 ≤ t.hour ∧ t.hour ≤ 23 ∧
  0 ≤ t.minute ∧ t.minute ≤ 59

/-- Every pair of counters kept in the map lies in 0..61. -/
def MapOk (randMap : RandMap) : Prop :=
  ∀ k v, randMap k = some v → 0 ≤ v.1 ∧ v.1 ≤ 61 ∧ 0 ≤ v.2 ∧ v.2 ≤ 61

/-- A library whose digests are 32 zero bytes and whose encodings are runs of
the character `A` of the length the real encoding has. -/
def stubLib : Lib :=
  { sum256 := fun _ => List.replicate 32 0
    stdEncode := fun b => ⟨List.replicate ((b.length + 2) / 3 * 4) 'A'⟩ }

/-- A date inside the 62 years: 4 November 2026, 12:30. -/
def sampleDate : Date := { year := 2026, month := 11, day := 4, hour := 12, minute := 30 }

end Random

/-!
# The Redis wrapper (`cache/redis.go`)

A call of `Set` is described by the commands it passes to `Do`, in order.
-/

namespace Cache

/-- A command passed to `Do`: its name and its arguments as the client library
writes them, numbers in decimal and a nil value as the empty text. -/
structure Cmd where
  name : String
  args : List String
  deriving DecidableEq, Repr

/-- The dynamic type of the argument `val` of `Set`, as its type switch sees it. -/
inductive Val where
  /-- A `string`, an integer, a float or a `bool`, with its text. -/
  | scalar (text : String)
  /-- A `[]string`. -/
  | list (xs : List String)
  /-- A `map[string]string`, its entries in the order `range` yields them. -/
  | hash (entries : List (String × String))
  /-- Any other type, with the result of `json.Marshal` (`none` for an error). -/
  | other (json : Option String)
  deriving DecidableEq, Repr

/-- The expiry passed to `EXPIRE`: `expire[0]` when given, else the default. -/
def ttl (expire : List Int) (dflt : Int) : String :=
  match expire with
  | [] => toString dflt
  | e :: _ => toString e

/-- The loop of lines 40-50 over a `[]string`. -/
def listLoop (key : String) (expire : List Int) : List String → List Cmd
  | [] => []
  | v :: rest =>
      [⟨"LPUSH", [key, v]⟩, ⟨"EXPIRE", [key, ttl expire 600000]⟩] ++ listLoop key expire rest

/-- The loop of lines 54-64 over a `map[string]string`: the commands issued when
the body returns from `Set` (lines 59 and 63), or `none` when the loop ends
without having returned. -/
def hashLoop (key : String) (expire : List Int) : List (String × String) → Option (List Cmd)
  | [] => none
  | (k, v) :: _ => some [⟨"HSET", [key, k, v]⟩, ⟨"EXPIRE", [key, ttl expire 600000]⟩]

/-- Lines 72-81: the `SETEX` of the value left in `value`. -/
def setex (key : String) (expire : List Int) (value : String) : List Cmd :=
  [⟨"SETEX", [key, ttl expire 6000, value]⟩]

/-- The function `Set` (lines 30-82): the commands it passes to `Do`, the `PING`
of `ping` first; `none` when `ping` panics.  After the loop over an empty map
`value` is still nil. -/
def Set (pingOk : Bool) (key : String) (val : Val) (expire : List Int) : Option (List Cmd) :=
  if !pingOk then none
  else
    some (⟨"PING", []⟩ ::
      match val with
      | Val.scalar text => setex key expire text
      | Val.list xs => listLoop key expire xs
      | Val.hash entries =>
          match hashLoop key expire entries with
          | some cmds => cmds
          | none => setex key expire ""
      | Val.other (some json) => setex key expire json
      | Val.other none => [])

/-- The fields and values that a trace stores under `key` with `HSET`, in order. -/
def hsetsOf (key : String) : List Cmd → List (String × String)
  | [] => []
  | ⟨"HSET", [k0, k, v]⟩ :: rest =>
      if k0 = key then (k, v) :: hsetsOf key rest else hsetsOf key rest
  | _ :: rest => hsetsOf key rest

/-- The values that a trace pushes on the list `key` with `LPUSH`, in order. -/
def lpushesOf (key : String) : List Cmd → List String
  | [] => []
  | ⟨"LPUSH", [k0, v]⟩ :: rest =>
      if k0 = key then v :: lpushesOf key rest else lpushesOf key rest
  | _ :: rest => lpushesOf key rest

end Cache

/-!
# The HTTP client (`http/httpclient.go`)
-/

namespace Http

/-- The field of `http.Response` that `send` reads. -/
structure Response where
  StatusCode : Int
  deriving DecidableEq, Repr

/-- The result of one call `h.client.Do(request)`: a response with a nil error,
or an error (with the response the library returns beside it, normally nil). -/
inductive Outcome where
  | ok (response : Response)
  | fail (response : Option Response) (err : String)
  deriving DecidableEq, Repr

/-- The constant `http.StatusInternalServerError`. -/
def StatusInternalServerError : Int := 500

/-- The loop of lines 111-120 with `fuel` passes left, `i` the loop variable and
`last` the current values of `response` and `err`; `outcome i` is the result
of the call made in the pass with loop variable `i`.  The result is the number
of calls made and the values returned. -/
def sendLoop (outcome : Nat → Outcome) :
    Nat → Nat → Option Response × Option String → Nat × Option Response × Option String
  | 0, i, last => (i, last)
  | fuel + 1, i, _ =>
      match outcome i with
      | Outcome.fail r e => sendLoop outcome fuel (i + 1) (r, some e)
      | Outcome.ok r =>
          if r.StatusCode ≥ StatusInternalServerError then
            sendLoop outcome fuel (i + 1) (some r, none)
          else (i + 1, some r, none)

/-- The method `send` (lines 110-122) of a client with `retryCount`: the loop
runs for `i` from 0 while `i <= retryCount`. -/
def send (retryCount : Int) (outcome : Nat → Outcome) :
    Nat × Option Response × Option String :=
  sendLoop outcome (retryCount + 1).toNat 0 (none, none)

/-- An attempt after which `send` tries again: a transport error, or a status
code of 500 or more. -/
def isRetried : Outcome → Bool
  | Outcome.fail _ _ => true
  | Outcome.ok r => decide (r.StatusCode ≥ 500)

end Http

/-!
# ECIES string helpers (`algorithm/ecc/ecies.go`)

A Go string and a `[]byte` are both lists of bytes.
-/

namespace Ecies

/-- A `[]byte`, and the bytes of a Go string. -/
abbrev Bytes := List Nat

/-- The value of a hexadecimal digit, as `encoding/hex` reads it: `0`-`9`,
`a`-`f`, `A`-`F`. -/
def fromHexChar (c : Nat) : Option Nat :=
  if 48 ≤ c ∧ c ≤ 57 then some (c - 48)
  else if 97 ≤ c ∧ c ≤ 102 then some (c - 87)
  else if 65 ≤ c ∧ c ≤ 70 then some (c - 55)
  else none

/-- The library function `hex.DecodeString`: the bytes decoded before an error,
and the error (`none` for nil): an invalid byte, or an odd length. -/
def hexDecode : Bytes → Bytes × Option String
  | [] => ([], none)
  | [p] =>
      match fromHexChar p with
      | none => ([], some "encoding/hex: invalid byte")
      | some _ => ([], some "encoding/hex: odd length hex string")
  | p :: q :: rest =>
      match fromHexChar p, fromHexChar q with
      | some a, some b => ((a * 16 + b) :: (hexDecode rest).1, (hexDecode rest).2)
      | _, _ => ([], some "encoding/hex: invalid byte")

/-- Lines 92-100 of `EncryptStr`: the seed `s1` computed from `sstr` (`none` is
nil), or the error returned. -/
def encryptSeed (sstr : Bytes) : Except String (Option Bytes) :=
  if sstr = [] then Except.ok none
  else
    match hexDecode sstr with
    | (b, none) => Except.ok (some b)
    | (_, some e) => Except.error ("sstr need hex code, error: " ++ e)

/-- Lines 111-116 of `DecryptStr`: the seed `s1` computed from `sstr`. -/
def decryptSeed (sstr : Bytes) : Option Bytes :=
  if sstr = [] then none else some sstr

/-- Lines 454-456 of `concatKDF`: the bytes it writes to the hash for `s1`. -/
def kdfSeed (s1 : Option Bytes) : Bytes :=
  match s1 with
  | none => []
  | some b => b

/-- The method `PublicKey.EncryptStr` (lines 90-106); `Encrypt` stands for
`pub.Encrypt(pri, rand, m, s1)`, which passes `s1` on to `concatKDF`. -/
def EncryptStr (Encrypt : Bytes → Option Bytes → Except String Bytes) (mstr sstr : Bytes) :
    Except String Bytes :=
  match encryptSeed sstr with
  | Except.error e => Except.error e
  | Except.ok s1 => Encrypt mstr s1

/-- The method `PrivateKey.DecryptStr` (lines 109-122); `Decrypt` stands for
`pri.Decrypt(pub, c, s1)`, which passes `s1` on to `concatKDF`. -/
def DecryptStr (Decrypt : Bytes → Option Bytes → Except String Bytes) (cstr sstr : Bytes) :
    Except String Bytes :=
  Decrypt cstr (decryptSeed sstr)

/-- The bytes of a text of one-byte characters. -/
def bytesOf (s : String) : Bytes := s.data.map Char.toNat

end Ecies

/-!
# Tokens (`token/token.go`)

The functions `json.Unmarshal`, `json.Marshal`, `sha.Sha256` and `rsa.Verify`
enter as the fields of `Lib`; the base64 decoding is modelled in full.
-/

namespace Tokens

/-- The struct `Body`; `Data` holds the JSON text of the `interface{}`. -/
structure Body where
  Id : String
  IP : String
  Timestamp : Int
  Timeout : Int
  Data : String
  deriving DecidableEq, Repr

/-- The struct `Signature`. -/
structure Signature where
  Hash : String
  Value : String
  deriving DecidableEq, Repr

/-- The struct `Header`; `Typ` is its field `Type`. -/
structure Header where
  Typ : String
  ALG : String
  deriving DecidableEq, Repr

/-- The struct `Token`. -/
structure Token where
  Header : Header
  Body : Body
  Sign : Signature
  deriving DecidableEq, Repr

/-- The functions `Verify` calls besides the decoding: `json.Unmarshal` into a
`Token` (`none` for an error), `json.Marshal` of a `Body`, `sha.Sha256`, and
`rsa.Verify` with the configured public key (`none` for a nil error). -/
structure Lib where
  unmarshal : List Nat → Option Token
  marshal : Body → String
  sha256 : String → String
  rsaVerify : String → String → Option String

/-- The value of a character of the URL-safe base64 alphabet. -/
def sextet (c : Char) : Option Nat :=
  if 'A' ≤ c ∧ c ≤ 'Z' then some (c.toNat - 65)
  else if 'a' ≤ c ∧ c ≤ 'z' then some (c.toNat - 71)
  else if '0' ≤ c ∧ c ≤ '9' then some (c.toNat + 4)
  else if c = '-' then some 62
  else if c = '_' then some 63
  else none

/-- The library's decoding of padded URL-safe base64, four characters at a
time: as the library documents, on malformed input it returns the data decoded
so far together with the error. -/
def decodeQuanta : List Char → List Nat × Option String
  | [] => ([], none)
  | a :: b :: c :: d :: rest =>
      match sextet a, sextet b with
      | some x, some y =>
          match sextet c, sextet d with
          | some z, some w =>
              ([x * 4 + y / 16, y % 16 * 16 + z / 4, z % 4 * 64 + w] ++ (decodeQuanta rest).1,
               (decodeQuanta rest).2)
          | some z, none =>
              if d = '=' then
                ([x * 4 + y / 16, y % 16 * 16 + z / 4],
                 if rest = [] then none else some "illegal base64 data")
              else ([], some "illegal base64 data")
          | none, _ =>
              if c = '=' ∧ d = '=' then
                ([x * 4 + y / 16], if rest = [] then none else some "illegal base64 data")
              else ([], some "illegal base64 data")
      | _, _ => ([], some "illegal base64 data")
  | _ => ([], some "illegal base64 data")

/-- The library function `base64.URLEncoding.DecodeString`; line breaks in the
input are skipped. -/
def stdDecodeString (s : String) : List Nat × Option String :=
  decodeQuanta (s.data.filter fun c => c ≠ '\n' ∧ c ≠ '\r')

/-- The function `base64.URLDecode` of the repository (lines 42-44). -/
def URLDecode (data : String) : List Nat × Option String :=
  stdDecodeString data

/-- The method `Body.valid` (lines 96-103) at Unix time `now`: `none` for nil,
and the error as the number of seconds `delta` its text reports. -/
def Body.valid (body : Body) (now : Int) : Option Int :=
  if ¬ (now ≤ body.Timeout) then some (now - body.Timeout) else none

/-- The function `Verify` (lines 72-91) at Unix time `now`: `success` and `body`
(`none` is nil).  Line 74 keeps the data of `URLDecode` and drops its error. -/
def Verify (lib : Lib) (now : Int) (str : String) : Bool × Option Body :=
  let b := (URLDecode str).1
  match lib.unmarshal b with
  | none => (false, none)
  | some token =>
      let m := lib.marshal token.Body
      let hash := lib.sha256 m
      if hash ≠ token.Sign.Hash then (false, none)
      else if (token.Body.valid now).isSome then (false, none)
      else if (lib.rsaVerify hash token.Sign.Value).isSome then (false, none)
      else (true, some token.Body)

/-- The body of the sample token: `Body{Id: "abc", Timeout: 4102444800}`, which
expires with the year 2099. -/
def sampleBody : Body :=
  { Id := "abc", IP := "", Timestamp := 0, Timeout := 4102444800, Data := "" }

/-- The text `json.Marshal` gives for `sampleBody`. -/
def sampleBodyJson : String := "\x7b\"id\":\"abc\",\"timeout\":4102444800\x7d"

/-- The value of `sha.Sha256` on `sampleBodyJson`: the SHA-256 digest in
standard base64. -/
def sampleHash : String := "SX1fMXnddvfOHgXgc0aPp9L13QTV3eoPfuuYqpmsdsY="

/-- The value of `rsa.Sign` on `sampleHash` under the default private key of
`token.go` (line 20): the PKCS #1 v1.5 signature in standard base64. -/
def sampleSignature : String :=
  "YjEkbLl5dMbzpbiNQ+u+7Dd91PeGAlq55BmSFVibxNE1WaRhhz/Mkg74oBTqkpJs0IHZdt20G5GQ75Sr" ++
  "pMT0E1mvEmWyIqHpybLaYtv968ynQUndMhJORATUytNQcxTExW/vev1W1XBSuJd5pBGWzv+oai3S6voT" ++
  "1iSukKpi0jo="

/-- The sample token, as `NewToken` builds it for `sampleBody`. -/
def sampleToken : Token :=
  { Header := { Typ := "TOKEN", ALG := "RSA" }, Body := sampleBody,
    Sign := { Hash := sampleHash, Value := sampleSignature } }

/-- The JSON text of the sample token. -/
def sampleJson : String :=
  "\x7b\"Header\":\x7b\"Type\":\"TOKEN\",\"ALG\":\"RSA\"\x7d,\"Body\":" ++ sampleBodyJson ++
  ",\"Sign\":\x7b\"hash\":\"" ++ sampleHash ++ "\",\"signature\":\"" ++
  sampleSignature ++ "\"\x7d\x7d"

/-- The string `NewToken` returns for `sampleBody` with the default keys: the
URL-safe base64 encoding of `sampleJson`. -/
def sampleString : String :=
  "eyJIZWFkZXIiOnsiVHlwZSI6IlRPS0VOIiwiQUxHIjoiUlNBIn0sIkJvZHkiOnsiaWQiOiJhYmMiLCJ0" ++
  "aW1lb3V0Ijo0MTAyNDQ0ODAwfSwiU2lnbiI6eyJoYXNoIjoiU1gxZk1YbmRkdmZPSGdYZ2MwYVBwOUwx" ++
  "M1FUVjNlb1BmdXVZcXBtc2RzWT0iLCJzaWduYXR1cmUiOiJZakVrYkxsNWRNYnpwYmlOUSt1KzdEZDkx" ++
  "UGVHQWxxNTVCbVNGVmlieE5FMVdhUmhoei9Na2c3NG9CVHFrcEpzMElIWmR0MjBHNUdRNzVTcnBNVDBF" ++
  "MW12RW1XeUlxSHB5YkxhWXR2OTY4eW5RVW5kTWhKT1JBVFV5dE5RY3hURXhXL3ZldjFXMVhCU3VKZDVw" ++
  "QkdXenYrb2FpM1M2dm9UMWlTdWtLcGkwam89In19"

/-- The four functions at the sample: each field returns what the function it
stands for returns on the sample values, computed with the default key pair,
and rejects everything else. -/
def sampleLib : Lib :=
  { unmarshal := fun b => if b = sampleJson.data.map Char.toNat then some sampleToken else none
    marshal := fun body => if body = sampleBody then sampleBodyJson else ""
    sha256 := fun m => if m = sampleBodyJson then sampleHash else ""
    rsaVerify := fun hash sig =>
      if hash = sampleHash ∧ sig = sampleSignature then none
      else some "crypto/rsa: verification error" }

end Tokens

namespace Ws

/-! ## Basic facts about the Coordinator loop -/

theorem loop_nil (s : Coord) : loop s [] = (s, [], false) := rfl

theorem loop_cons (s : Coord) (e : Event) (es : List Event) :
    loop s (e :: es) =
      if (loopBody s e).2.2 then ((loopBody s e).1, (loopBody s e).2.1, true)
      else ((loop (loopBody s e).1 es).1,
            (loopBody s e).2.1 ++ (loop (loopBody s e).1 es).2.1,
            (loop (loopBody s e).1 es).2.2) := rfl

theorem loop_append (s : Coord) (a b : List Event) :
    loop s (a ++ b) =
      if (loop s a).2.2 then loop s a
      else ((loop (loop s a).1 b).1, (loop s a).2.1 ++ (loop (loop s a).1 b).2.1,
            (loop (loop s a).1 b).2.2) := by
  induction a generalizing s with
  | nil => simp [loop_nil]
  | cons e es ih =>
      simp only [List.cons_append, loop_cons]
      by_cases h : (loopBody s e).2.2 = true
      · simp [h]
      · simp only [h, if_false, Bool.false_eq_true]
        rw [ih]
        by_cases h2 : (loop (loopBody s e).1 es).2.2 = true
        · simp [h2]
        · simp [h2, List.append_assoc]

/-! ## Session close on reconnect (C1) -/

/-- C1 fails on the code.  From any state of its variables, when a session `c`
is delivered and its Reader reports first and its Writer second, the
Coordinator performs exactly the effects listed: it relaunches the Connector
without ever calling `c.Close()`, and still holds the reference `c`.  In the
other order the sibling path closes `c` once before the relaunch.  Run to the
end, the session of the first order is closed by nobody: the trace of a whole
client life contains no `Close` of it. -/
theorem reader_first_session_never_closed (s : Coord) (c : Conn) (e1 e2 : Err) :
    (loop s [Event.conReturn (some c), Event.rError e1, Event.wError e2]).2.1 =
        [Action.goRead c, Action.goWrite c s.msgType, Action.sendControl QUIT,
         Action.sendStatus ⟨State.DISCONNECTED, some e1⟩, Action.goConnect]
    ∧ (loop s [Event.conReturn (some c), Event.rError e1, Event.wError e2]).1.conn = some c
    ∧ (loop s [Event.conReturn (some c), Event.wError e2, Event.rError e1]).2.1 =
        [Action.goRead c, Action.goWrite c s.msgType, Action.connClose c,
         Action.sendStatus ⟨State.DISCONNECTED, some e2⟩, Action.goConnect]
    ∧ New [Event.conReturn (some 1), Event.rError "EOF", Event.wError "cancelled",
           Event.conReturn (some 2), Event.cmd QUIT true] =
        [Action.goKeepAlive, Action.goConnect, Action.goRead 1, Action.goWrite 1 BinaryMessage,
         Action.sendControl QUIT, Action.sendStatus ⟨State.DISCONNECTED, some "EOF"⟩,
         Action.goConnect, Action.goRead 2, Action.goWrite 2 BinaryMessage,
         Action.sendStatus ⟨State.DISCONNECTED, none⟩, Action.safeClose none] := by
  refine ⟨?_, ?_, ?_, ?_⟩
  · simp [loop, loopBody]
  · simp [loop, loopBody]
  · simp [loop, loopBody, closeAndClear]
  · rfl

/-! ## Relaunch of the Connector (C2) -/

theorem loopBody_cmd (s : Coord) (c : Command) (ok : Bool) :
    (loopBody s (Event.cmd c ok)).1.reading = s.reading ∧
    (loopBody s (Event.cmd c ok)).1.writing = s.writing ∧
    (loopBody s (Event.cmd c ok)).1.conn = s.conn ∧
    connectsStarted (loopBody s (Event.cmd c ok)).2.1 = 0 ∧
    readsStarted (loopBody s (Event.cmd c ok)).2.1 = 0 ∧
    writesStarted (loopBody s (Event.cmd c ok)).2.1 = 0 := by
  simp only [loopBody]
  split_ifs <;> simp [connectsStarted, readsStarted, writesStarted]

theorem wstep_inv (w w1 : World) (e : Event) (hi : WorldInv w) (h : wstep w e = some w1) :
    WorldInv w1 := by
  cases e with
  | cmd c ok =>
      obtain ⟨h1, h2, h3, h4, h5, h6⟩ := loopBody_cmd w.coord c ok
      simp only [wstep, enabled, consume, if_true] at h
      split_ifs at h
      simp only [Option.some.injEq] at h
      subst h
      simp only [WorldInv, h1, h2, h4, h5, h6, Nat.add_zero]
      exact hi
  | conReturn c =>
      obtain ⟨⟨r, wr, cn, mt⟩, k, rd, wt⟩ := w
      cases c with
      | none => simp [wstep, enabled] at h
      | some c =>
          cases r <;> cases wr <;> simp [WorldInv] at hi <;> obtain ⟨rfl, rfl, rfl⟩ := hi <;>
            simp [wstep, enabled, loopBody, consume] at h
          subst h
          simp [WorldInv, connectsStarted, readsStarted, writesStarted]
  | rError err =>
      obtain ⟨⟨r, wr, cn, mt⟩, k, rd, wt⟩ := w
      cases r <;> cases wr <;> simp [WorldInv] at hi <;> obtain ⟨rfl, rfl, rfl⟩ := hi <;>
        cases cn <;>
        simp [wstep, enabled, loopBody, consume, closeAndClear] at h <;>
        subst h <;> simp [WorldInv, connectsStarted, readsStarted, writesStarted]
  | wError err =>
      obtain ⟨⟨r, wr, cn, mt⟩, k, rd, wt⟩ := w
      cases r <;> cases wr <;> simp [WorldInv] at hi <;> obtain ⟨rfl, rfl, rfl⟩ := hi <;>
        cases cn <;>
        simp [wstep, enabled, loopBody, consume, closeAndClear] at h <;>
        subst h <;> simp [WorldInv, connectsStarted, readsStarted, writesStarted]

theorem reachable_inv (w : World) (h : Reachable w) : WorldInv w := by
  induction h with
  | init => simp [WorldInv, initWorld, initCoord]
  | step w w1 e _ hs ih => exact wstep_inv w w1 e ih hs

/-- C2: in every reachable state of the Coordinator and its goroutines, at most
one Connector, one Reader and one Writer are outstanding, and no Reader or
Writer is outstanding while a Connector is dialing.  A pass through the
`select` that executes `go connect` is the receipt of a Reader error or of a
Writer error, it leaves both flags false, and at that point the Reader and the
Writer of the previous session have both reported and no other Connector is
outstanding.  The session reference is the single variable `conn`. -/
theorem connector_relaunch_needs_both_reports (w : World) (e : Event)
    (hw : Reachable w) (he : enabled w e = true) :
    w.connectors ≤ 1 ∧ w.readers ≤ 1 ∧ w.writers ≤ 1 ∧
    (0 < w.connectors → w.readers = 0 ∧ w.writers = 0) ∧
    (Action.goConnect ∈ (loopBody w.coord e).2.1 →
      ((∃ err, e = Event.rError err) ∨ (∃ err, e = Event.wError err)) ∧
      (loopBody w.coord e).1.reading = false ∧ (loopBody w.coord e).1.writing = false ∧
      (consume w e).readers = 0 ∧ (consume w e).writers = 0 ∧ w.connectors = 0 ∧
      connectsStarted (loopBody w.coord e).2.1 = 1) := by
  have hi := reachable_inv w hw
  obtain ⟨⟨r, wr, cn, mt⟩, k, rd, wt⟩ := w
  cases r <;> cases wr <;> simp [WorldInv] at hi <;> obtain ⟨rfl, rfl, rfl⟩ := hi <;>
  (cases e with
  | cmd c ok =>
      simp only [loopBody]
      split_ifs <;> simp
  | conReturn c =>
      cases c <;> simp [loopBody]
  | rError err =>
      cases cn <;> simp [enabled] at he <;>
        simp [loopBody, consume, closeAndClear, connectsStarted]
  | wError err =>
      cases cn <;> simp [enabled] at he <;>
        simp [loopBody, consume, closeAndClear, connectsStarted])

/-- The relaunch after a Reader report followed by the Writer report, on session 1. -/
theorem connector_relaunch_needs_both_reports_witness :
    enabled ⟨⟨false, true, some 1, 2⟩, 0, 0, 1⟩ (Event.wError "cancelled") = true ∧
    Action.goConnect ∈ (loopBody ⟨false, true, some 1, 2⟩ (Event.wError "cancelled")).2.1 ∧
    (loopBody ⟨false, true, some 1, 2⟩ (Event.wError "cancelled")).1.writing = false := by
  have hr : Reachable ⟨⟨false, true, some 1, 2⟩, 0, 0, 1⟩ :=
    Reachable.step _ _ (Event.rError "EOF")
      (Reachable.step _ _ (Event.conReturn (some 1)) Reachable.init rfl) rfl
  have h := connector_relaunch_needs_both_reports _ (Event.wError "cancelled") hr rfl
  exact ⟨rfl, by simp [loopBody], (h.2.2.2.2 (by simp [loopBody])).2.2.1⟩

/-! ## Disconnect status per session (C3) -/

theorem statusesSent_append (a b : List Action) :
    statusesSent (a ++ b) = statusesSent a ++ statusesSent b := by
  induction a with
  | nil => rfl
  | cons x xs ih => cases x <;> simp [statusesSent, ih]

theorem connectsStarted_append (a b : List Action) :
    connectsStarted (a ++ b) = connectsStarted a + connectsStarted b := by
  induction a with
  | nil => simp [connectsStarted]
  | cons x xs ih =>
      cases x <;> simp [connectsStarted, ih]
      omega

theorem loopBody_relayed (s : Coord) (e : Event) (h : isRelayed e = true) :
    (loopBody s e).1.reading = s.reading ∧ (loopBody s e).1.writing = s.writing ∧
    (loopBody s e).1.conn = s.conn ∧ (loopBody s e).2.2 = false ∧
    statusesSent (loopBody s e).2.1 = [] ∧ connectsStarted (loopBody s e).2.1 = 0 := by
  cases e with
  | cmd c ok =>
      simp only [isRelayed, Bool.and_eq_true, bne_iff_ne, ne_eq] at h
      obtain ⟨rfl, hc⟩ := h
      simp only [loopBody, Bool.not_true, Bool.false_or, beq_iff_eq, hc, if_false,
        Bool.false_eq_true]
      split_ifs <;> simp [statusesSent, connectsStarted]
  | conReturn c => simp [isRelayed] at h
  | rError err => simp [isRelayed] at h
  | wError err => simp [isRelayed] at h

theorem loop_relayed (s : Coord) (cmds : List Event) (h : ∀ e ∈ cmds, isRelayed e = true) :
    (loop s cmds).1.reading = s.reading ∧ (loop s cmds).1.writing = s.writing ∧
    (loop s cmds).1.conn = s.conn ∧ (loop s cmds).2.2 = false ∧
    statusesSent (loop s cmds).2.1 = [] ∧ connectsStarted (loop s cmds).2.1 = 0 := by
  induction cmds generalizing s with
  | nil => simp [loop_nil, statusesSent, connectsStarted]
  | cons e es ih =>
      obtain ⟨h1, h2, h3, h4, h5, h6⟩ := loopBody_relayed s e (h e (List.mem_cons_self e es))
      obtain ⟨i1, i2, i3, i4, i5, i6⟩ :=
        ih (loopBody s e).1 (fun x hx => h x (List.mem_cons_of_mem e hx))
      rw [loop_cons]
      simp only [h4, if_false, Bool.false_eq_true, statusesSent_append, connectsStarted_append]
      simp [i1, i2, i3, i4, i5, i6, h1, h2, h3, h5, h6]

theorem loop_relayed_then (s : Coord) (cmds rest : List Event)
    (h : ∀ e ∈ cmds, isRelayed e = true) :
    loop s (cmds ++ rest) =
      ((loop (loop s cmds).1 rest).1, (loop s cmds).2.1 ++ (loop (loop s cmds).1 rest).2.1,
       (loop (loop s cmds).1 rest).2.2) := by
  rw [loop_append]
  simp [(loop_relayed s cmds h).2.2.2.1]

theorem reader_then_writer (t : Coord) (e1 e2 : Err) (cmds : List Event)
    (hw : t.writing = true)
    (h : ∀ e ∈ cmds, isRelayed e = true) :
    statusesSent (loop t (Event.rError e1 :: (cmds ++ [Event.wError e2]))).2.1 =
        [⟨State.DISCONNECTED, some e1⟩] ∧
    connectsStarted (loop t (Event.rError e1 :: (cmds ++ [Event.wError e2]))).2.1 = 1 ∧
    (loop t (Event.rError e1 :: (cmds ++ [Event.wError e2]))).2.2 = false ∧
    (loopBody (loop t (Event.rError e1 :: cmds)).1 (Event.wError e2)).2.1 =
        [Action.goConnect] := by
  obtain ⟨i1, i2, _, i4, i5, i6⟩ := loop_relayed (loopBody t (Event.rError e1)).1 cmds h
  have hb : loopBody t (Event.rError e1) =
      ({ t with reading := false },
       [Action.sendControl QUIT, Action.sendStatus ⟨State.DISCONNECTED, some e1⟩], false) := by
    simp [loopBody, hw]
  have hlast : ∀ u : Coord, u.reading = false →
      loopBody u (Event.wError e2) = ({ u with writing := false }, [Action.goConnect], false) := by
    intro u hu
    simp [loopBody, hu]
  rw [hb] at i1 i2 i4 i5 i6
  simp only at i1 i2 i4 i5 i6
  rw [loop_cons, loop_cons, hb, loop_relayed_then _ _ _ h]
  simp only [Bool.false_eq_true, if_false, loop_cons, loop_nil, hlast _ i1,
    statusesSent_append, connectsStarted_append, i4, i5, i6]
  simp [statusesSent, connectsStarted]

theorem writer_then_reader (t : Coord) (e1 e2 : Err) (cmds : List Event)
    (hr : t.reading = true)
    (h : ∀ e ∈ cmds, isRelayed e = true) :
    statusesSent (loop t (Event.wError e2 :: (cmds ++ [Event.rError e1]))).2.1 =
        [⟨State.DISCONNECTED, some e2⟩] ∧
    connectsStarted (loop t (Event.wError e2 :: (cmds ++ [Event.rError e1]))).2.1 = 1 ∧
    (loop t (Event.wError e2 :: (cmds ++ [Event.rError e1]))).2.2 = false ∧
    (loopBody (loop t (Event.wError e2 :: cmds)).1 (Event.rError e1)).2.1 =
        [Action.goConnect] := by
  obtain ⟨_, i2, i3, i4, i5, i6⟩ := loop_relayed (loopBody t (Event.wError e2)).1 cmds h
  have hb : loopBody t (Event.wError e2) =
      ((closeAndClear { t with writing := false }).1,
       (closeAndClear { t with writing := false }).2 ++
         [Action.sendStatus ⟨State.DISCONNECTED, some e2⟩], false) := by
    simp [loopBody, hr]
  have hc : (closeAndClear { t with writing := false }).1.writing = false ∧
      (closeAndClear { t with writing := false }).1.conn = none ∧
      statusesSent (closeAndClear { t with writing := false }).2 = [] ∧
      connectsStarted (closeAndClear { t with writing := false }).2 = 0 := by
    cases hcn : t.conn <;> simp [closeAndClear, hcn, statusesSent, connectsStarted]
  have hlast : ∀ u : Coord, u.writing = false → u.conn = none →
      loopBody u (Event.rError e1) = ({ u with reading := false }, [Action.goConnect], false) := by
    intro u hu hn
    simp [loopBody, hu, closeAndClear, hn]
  rw [hb] at i2 i3 i4 i5 i6
  simp only at i2 i3 i4 i5 i6
  rw [loop_cons, loop_cons, hb, loop_relayed_then _ _ _ h]
  simp only [Bool.false_eq_true, if_false, loop_cons, loop_nil,
    hlast _ (i2.trans hc.1) (i3.trans hc.2.1),
    statusesSent_append, connectsStarted_append, i4, i5, i6, hc.2.2.1, hc.2.2.2]
  simp [statusesSent, connectsStarted]

/-- While every send of the Coordinator completes: after a session `c` is
delivered (and any relayed caller commands), let its Reader and its Writer both
report, in either order of receipt, with only relayed caller commands other
than `Quit` received in between.  The Coordinator then sends exactly one
status, `Disconnected` with the error of the report it received first; the
pass that receives the second report performs the single effect `go connect`,
and that is the only Connector launched. -/
theorem one_status_when_sends_complete (s : Coord) (c : Conn) (e1 e2 : Err)
    (cmds0 cmds : List Event)
    (h0 : ∀ e ∈ cmds0, isRelayed e = true) (h : ∀ e ∈ cmds, isRelayed e = true) :
    (statusesSent (loop (loop s (Event.conReturn (some c) :: cmds0)).1
        (Event.rError e1 :: (cmds ++ [Event.wError e2]))).2.1 = [⟨State.DISCONNECTED, some e1⟩] ∧
     connectsStarted (loop (loop s (Event.conReturn (some c) :: cmds0)).1
        (Event.rError e1 :: (cmds ++ [Event.wError e2]))).2.1 = 1 ∧
     (loopBody (loop (loop s (Event.conReturn (some c) :: cmds0)).1 (Event.rError e1 :: cmds)).1
        (Event.wError e2)).2.1 = [Action.goConnect]) ∧
    (statusesSent (loop (loop s (Event.conReturn (some c) :: cmds0)).1
        (Event.wError e2 :: (cmds ++ [Event.rError e1]))).2.1 = [⟨State.DISCONNECTED, some e2⟩] ∧
     connectsStarted (loop (loop s (Event.conReturn (some c) :: cmds0)).1
        (Event.wError e2 :: (cmds ++ [Event.rError e1]))).2.1 = 1 ∧
     (loopBody (loop (loop s (Event.conReturn (some c) :: cmds0)).1 (Event.wError e2 :: cmds)).1
        (Event.rError e1)).2.1 = [Action.goConnect]) := by
  have hlive : (loop s (Event.conReturn (some c) :: cmds0)).1.reading = true ∧
      (loop s (Event.conReturn (some c) :: cmds0)).1.writing = true := by
    obtain ⟨i1, i2, _, _, _, _⟩ :=
      loop_relayed (loopBody s (Event.conReturn (some c))).1 cmds0 h0
    rw [loop_cons]
    simp only [loopBody, Bool.false_eq_true, if_false] at i1 i2 ⊢
    exact ⟨i1, i2⟩
  obtain ⟨a1, a2, _, a4⟩ := reader_then_writer _ e1 e2 cmds hlive.2 h
  obtain ⟨b1, b2, _, b4⟩ := writer_then_reader _ e1 e2 cmds hlive.1 h
  exact ⟨⟨a1, a2, a4⟩, ⟨b1, b2, b4⟩⟩

/-- C3 fails on the code.  Session 1 is live; the Writer is busy sending the
payload `a` when the Coordinator relays a `Ping`, which stays in `controlCh`
(capacity 1); the send fails, so the Writer reports `broken pipe` and returns
without receiving the `Ping`; then the Reader fails and reports `EOF`.  Both
reports are waiting and the `select` may take either.  When it takes the
Reader's, `writing` is still true and the pass starts with the plain send
`controlCh <- QUIT` (line 72) on the full channel that nobody receives from:
the Coordinator blocks there, having sent no status and started no Connector,
although both loops have terminated.  This holds from every state with
`writing` true.  When the channel has room the status carries the error of the
report received first, here the Reader's, although the Writer terminated
first. -/
theorem reader_report_blocks_on_full_controlCh :
    write BinaryMessage [WInput.out [97] true true none (some "broken pipe")] =
      ([WAction.wgAdd, WAction.ioEvent, WAction.setWriteDeadline,
        WAction.writeMessage BinaryMessage [97], WAction.sendWError "broken pipe",
        WAction.wgDone], true) ∧
    read [Recv.fail "EOF"] =
      ([RAction.wgAdd, RAction.readMessage, RAction.sendRError "EOF", RAction.wgDone], true) ∧
    readyReports (reported [Exit.writer "broken pipe", Exit.reader "EOF"]) =
      [Event.rError "EOF", Event.wError "broken pipe"] ∧
    (loop initCoord [Event.conReturn (some 1), Event.cmd PING true,
        Event.rError "EOF"]).2.1 =
      [Action.goRead 1, Action.goWrite 1 BinaryMessage, Action.sendControl PING,
       Action.sendControl QUIT, Action.sendStatus ⟨State.DISCONNECTED, some "EOF"⟩] ∧
    sendsControl 0 (loop initCoord [Event.conReturn (some 1), Event.cmd PING true,
        Event.rError "EOF"]).2.1 = none ∧
    performed 0 (loop initCoord [Event.conReturn (some 1), Event.cmd PING true,
        Event.rError "EOF"]).2.1 =
      [Action.goRead 1, Action.goWrite 1 BinaryMessage, Action.sendControl PING] ∧
    statusesSent (performed 0 (loop initCoord [Event.conReturn (some 1), Event.cmd PING true,
        Event.rError "EOF"]).2.1) = [] ∧
    connectsStarted (performed 0 (loop initCoord [Event.conReturn (some 1),
        Event.cmd PING true, Event.rError "EOF"]).2.1) = 0 ∧
    (∀ (s : Coord) (e : Err), s.writing = true →
      sendsControl controlCap (loopBody s (Event.rError e)).2.1 = none ∧
      performed controlCap (loopBody s (Event.rError e)).2.1 = []) ∧
    statusesSent (loop initCoord [Event.conReturn (some 1), Event.rError "EOF",
        Event.wError "broken pipe"]).2.1 = [⟨State.DISCONNECTED, some "EOF"⟩] := by
  refine ⟨rfl, rfl, rfl, rfl, rfl, rfl, rfl, rfl, ?_, rfl⟩
  intro s e hw
  simp [loopBody, hw, sendsControl, performed, controlCap]

/-! ## Quit (C4) -/

theorem shutdowns_append (a b : List Action) :
    shutdowns (a ++ b) = shutdowns a + shutdowns b := by
  induction a with
  | nil => simp [shutdowns]
  | cons x xs ih =>
      cases x <;> simp [shutdowns, ih]
      omega

theorem shutdowns_loopBody (s : Coord) (e : Event) : shutdowns (loopBody s e).2.1 = 0 := by
  cases e with
  | conReturn c => cases c <;> simp [loopBody, shutdowns]
  | rError err =>
      cases hc : s.conn <;> cases hw : s.writing <;>
        simp [loopBody, closeAndClear, shutdowns, hc, hw]
  | wError err =>
      cases hc : s.conn <;> cases hr : s.reading <;>
        simp [loopBody, closeAndClear, shutdowns, hc, hr]
  | cmd c ok =>
      simp only [loopBody]
      split_ifs <;> simp [shutdowns]

theorem shutdowns_loop (s : Coord) (evs : List Event) : shutdowns (loop s evs).2.1 = 0 := by
  induction evs generalizing s with
  | nil => simp [loop_nil, shutdowns]
  | cons e es ih =>
      rw [loop_cons]
      split_ifs
      · exact shutdowns_loopBody s e
      · simp [shutdowns_append, shutdowns_loopBody, ih]

theorem loopBody_quit (s : Coord) (c : Command) (ok : Bool) (hq : ok = false ∨ c = QUIT) :
    loopBody s (Event.cmd c ok) =
      (s, if s.reading || s.writing || s.conn.isSome
            then [Action.sendStatus ⟨State.DISCONNECTED, none⟩] else [], true) := by
  rcases hq with rfl | rfl <;> simp [loopBody]

/-- C4: a pass that receives `Quit`, or finds the command channel closed, in any
state sends `Status{Disconnected}` with a nil error exactly when `reading`,
`writing` or a non-nil `conn` holds, changes no variable and leaves the loop.
Events that follow it are not received: the Coordinator's trace is the one of
the events up to it, which ends in the single call of `safeClose`; hence no
`go connect` comes after the first `Quit` and any later `Quit` has no effect. -/
theorem quit_leaves_loop_once (s : Coord) (c : Command) (ok : Bool) (pre post : List Event)
    (hq : ok = false ∨ c = QUIT) :
    loopBody s (Event.cmd c ok) =
      (s, if s.reading || s.writing || s.conn.isSome
            then [Action.sendStatus ⟨State.DISCONNECTED, none⟩] else [], true) ∧
    loop s (pre ++ Event.cmd c ok :: post) = loop s (pre ++ [Event.cmd c ok]) ∧
    (loop s (pre ++ [Event.cmd c ok])).2.2 = true ∧
    New (pre ++ Event.cmd c ok :: post) = New (pre ++ [Event.cmd c ok]) ∧
    New (pre ++ Event.cmd c ok :: post) =
      [Action.goKeepAlive, Action.goConnect] ++ (loop initCoord pre).2.1 ++
        (if (loop initCoord pre).2.2 then []
         else if (loop initCoord pre).1.reading || (loop initCoord pre).1.writing ||
                 (loop initCoord pre).1.conn.isSome
           then [Action.sendStatus ⟨State.DISCONNECTED, none⟩] else []) ++
        [Action.safeClose none] ∧
    shutdowns (New (pre ++ Event.cmd c ok :: post)) = 1 := by
  have hb := fun t => loopBody_quit t c ok hq
  have hl : ∀ t rest, loop t (pre ++ Event.cmd c ok :: rest) =
      if (loop t pre).2.2 then loop t pre
      else ((loop t pre).1,
            (loop t pre).2.1 ++
              (if (loop t pre).1.reading || (loop t pre).1.writing || (loop t pre).1.conn.isSome
                then [Action.sendStatus ⟨State.DISCONNECTED, none⟩] else []), true) := by
    intro t rest
    rw [loop_append, loop_cons, hb]
    simp
  have hex : ∀ t rest, (loop t (pre ++ Event.cmd c ok :: rest)).2.2 = true := by
    intro t rest
    rw [hl]
    by_cases h : (loop t pre).2.2 = true <;> simp [h]
  have hnew : ∀ rest, New (pre ++ Event.cmd c ok :: rest) =
      [Action.goKeepAlive, Action.goConnect] ++ (loop initCoord pre).2.1 ++
        (if (loop initCoord pre).2.2 then []
         else if (loop initCoord pre).1.reading || (loop initCoord pre).1.writing ||
                 (loop initCoord pre).1.conn.isSome
           then [Action.sendStatus ⟨State.DISCONNECTED, none⟩] else []) ++
        [Action.safeClose none] := by
    intro rest
    have hc : initCoord.conn = none := rfl
    simp only [New, hex, if_true, hc]
    rw [hl]
    by_cases h : (loop initCoord pre).2.2 = true <;> simp [h]
  refine ⟨hb s, ?_, hex s [], ?_, hnew post, ?_⟩
  · rw [hl, hl]
  · rw [hnew, hnew]
  · rw [hnew]
    simp only [shutdowns_append, shutdowns_loop]
    by_cases h : (loop initCoord pre).2.2 = true <;> simp [h, shutdowns]
    split_ifs <;> simp [shutdowns]

/-- A second `Quit` and two error reports after the first `Quit` change nothing. -/
theorem quit_leaves_loop_once_witness :
    New ([Event.conReturn (some 1)] ++ Event.cmd QUIT true ::
        [Event.cmd QUIT true, Event.rError "EOF", Event.wError "cancelled"]) =
      New ([Event.conReturn (some 1)] ++ [Event.cmd QUIT true]) ∧
    shutdowns (New ([Event.conReturn (some 1)] ++ Event.cmd QUIT true ::
        [Event.cmd QUIT true, Event.rError "EOF", Event.wError "cancelled"])) = 1 :=
  ⟨(quit_leaves_loop_once initCoord QUIT true [Event.conReturn (some 1)]
      [Event.cmd QUIT true, Event.rError "EOF", Event.wError "cancelled"] (Or.inr rfl)).2.2.2.1,
   (quit_leaves_loop_once initCoord QUIT true [Event.conReturn (some 1)]
      [Event.cmd QUIT true, Event.rError "EOF", Event.wError "cancelled"] (Or.inr rfl)).2.2.2.2.2⟩

/-! ## The session at shutdown (C5) -/

theorem shutdownArgs_append (a b : List Action) :
    shutdownArgs (a ++ b) = shutdownArgs a ++ shutdownArgs b := by
  induction a with
  | nil => rfl
  | cons x xs ih => cases x <;> simp [shutdownArgs, ih]

theorem shutdownArgs_loopBody (s : Coord) (e : Event) : shutdownArgs (loopBody s e).2.1 = [] := by
  cases e with
  | conReturn c => cases c <;> simp [loopBody, shutdownArgs]
  | rError err =>
      cases hc : s.conn <;> cases hw : s.writing <;>
        simp [loopBody, closeAndClear, shutdownArgs, hc, hw]
  | wError err =>
      cases hc : s.conn <;> cases hr : s.reading <;>
        simp [loopBody, closeAndClear, shutdownArgs, hc, hr]
  | cmd c ok =>
      simp only [loopBody]
      split_ifs <;> simp [shutdownArgs]

theorem shutdownArgs_loop (s : Coord) (evs : List Event) :
    shutdownArgs (loop s evs).2.1 = [] := by
  induction evs generalizing s with
  | nil => simp [loop_nil, shutdownArgs]
  | cons e es ih =>
      rw [loop_cons]
      split_ifs
      · exact shutdownArgs_loopBody s e
      · simp [shutdownArgs_append, shutdownArgs_loopBody, ih]

/-- C5 fails on the code.  The `defer` statement evaluates `conn` when it
executes, before the loop, so on every sequence of events the call of
`safeClose` the Coordinator makes when it leaves the loop carries a nil `conn`.
When a session 1 is delivered and `Quit` follows, the loop is left holding
`conn = 1`, the call is `safeClose(nil)`, and the call goes straight to closing
the internal channels: no `Close` of the session occurs, neither in the
Coordinator's trace nor among the effects of `safeClose`, while `safeClose`
called with the held session would close it first. -/
theorem safeClose_gets_nil_session :
    (∀ evs : List Event,
      shutdownArgs (New evs) = if (loop initCoord evs).2.2 then [none] else []) ∧
    (loop initCoord [Event.conReturn (some 1), Event.cmd QUIT true]).1.conn = some 1 ∧
    (loop initCoord [Event.conReturn (some 1), Event.cmd QUIT true]).2.2 = true ∧
    New [Event.conReturn (some 1), Event.cmd QUIT true] =
      [Action.goKeepAlive, Action.goConnect, Action.goRead 1, Action.goWrite 1 BinaryMessage,
       Action.sendStatus ⟨State.DISCONNECTED, none⟩, Action.safeClose none] ∧
    (∀ picks : Nat → Nat, safeClose 1 picks none drainAfterQuit =
      some (Outcome.returned
        [Effect.close ChanName.ioEventCh, Effect.close ChanName.controlCh,
         Effect.close ChanName.conCancelCh, Effect.sleep, Effect.wgWait,
         Effect.close ChanName.inpCh, Effect.close ChanName.stsCh])) ∧
    (∀ picks : Nat → Nat, safeClose 1 picks (some 1) drainAfterQuit =
      some (Outcome.returned
        [Effect.connClose 1, Effect.close ChanName.ioEventCh, Effect.close ChanName.controlCh,
         Effect.close ChanName.conCancelCh, Effect.sleep, Effect.wgWait,
         Effect.close ChanName.inpCh, Effect.close ChanName.stsCh])) := by
  refine ⟨?_, rfl, rfl, rfl, fun _ => rfl, fun _ => rfl⟩
  intro evs
  have hc : initCoord.conn = none := rfl
  simp only [New, shutdownArgs_append, shutdownArgs_loop, hc]
  split_ifs <;> simp [shutdownArgs]

/-! ## The drain loop of `safeClose` (C6) -/

theorem recv_closed {α : Type} (c : Chan α) : c.recv.2.2.closed = c.closed := by
  unfold Chan.recv
  split <;> rfl

theorem drainCase_cmdCh (d : Drain) (k : Nat) :
    (drainCase d k).1.cmdCh =
      if k = 1 then d.cmdCh.map (fun c => c.recv.2.2) else d.cmdCh := by
  unfold drainCase
  split
  · cases d.outCh <;> simp
    split_ifs <;> rfl
  · cases h : d.cmdCh <;> simp [h]
    split_ifs <;> rfl
  · cases d.conReturnCh <;> simp
    split_ifs <;> rfl
  · cases d.rErrorCh <;> simp
    split_ifs <;> rfl
  · rename_i h0 h1 h2 h3
    have : ¬ k = 1 := fun h => h1 h
    cases d.wErrorCh <;> simp [this]
    split_ifs <;> rfl

theorem drainCase_cmdCh_closed (d : Drain) (k : Nat) (c : Chan Command)
    (h : d.cmdCh = some c) (hc : c.closed = true) :
    ∃ c1, (drainCase d k).1.cmdCh = some c1 ∧ c1.closed = true := by
  rw [drainCase_cmdCh, h]
  split_ifs
  · exact ⟨_, rfl, by rw [recv_closed]; exact hc⟩
  · exact ⟨c, rfl, hc⟩

theorem readyCases_cmdCh_closed (d : Drain) (c : Chan Command)
    (h : d.cmdCh = some c) (hc : c.closed = true) : 1 ∈ readyCases d := by
  simp [readyCases, h, Chan.ready, hc]

theorem drainStep_cmdCh_closed (d : Drain) (pick : Nat) (c : Chan Command)
    (h : d.cmdCh = some c) (hc : c.closed = true) :
    ∃ r c1, drainStep pick d = some r ∧ r.1.cmdCh = some c1 ∧ c1.closed = true := by
  have hm := readyCases_cmdCh_closed d c h hc
  unfold drainStep
  cases hr : readyCases d with
  | nil => rw [hr] at hm; simp at hm
  | cons k ks =>
      obtain ⟨c1, h1, h2⟩ := drainCase_cmdCh_closed d ((k :: ks).getD (pick % (k :: ks).length) k) c h hc
      exact ⟨_, c1, rfl, h1, h2⟩

theorem drainLoop_cmdCh_closed (fuel : Nat) (picks : Nat → Nat) (d : Drain) (c : Chan Command)
    (h : d.cmdCh = some c) (hc : c.closed = true) : drainLoop fuel picks d = none := by
  induction fuel generalizing picks d c with
  | zero => rfl
  | succ n ih =>
      obtain ⟨r, c1, hs, h1, h2⟩ := drainStep_cmdCh_closed d (picks 0) c h hc
      simp only [drainLoop, hs]
      rw [ih (fun i => picks (i + 1)) r.1 c1 h1 h2]

theorem drainCase_decreases (d : Drain) (k : Nat) (hk : k ∈ readyCases d) (ho : CmdOpen d) :
    drainMeasure (drainCase d k).1 < drainMeasure d ∧ CmdOpen (drainCase d k).1 ∧
    (drainCase d k).1.inpCh = d.inpCh := by
  obtain ⟨o, cm, cr, re, we, ip⟩ := d
  simp only [readyCases, List.mem_append] at hk
  rcases hk with (((h | h) | h) | h) | h
  · split_ifs at h with hr
    · simp only [List.mem_singleton] at h
      subst h
      rcases o with _ | ⟨buf, cl⟩
      · simp [Chan.ready] at hr
      · cases buf <;> cases cl <;> simp [Chan.ready] at hr <;>
          simp [drainCase, Chan.recv, drainMeasure, CmdOpen] at ho ⊢ <;> exact ho
    · simp at h
  · split_ifs at h with hr
    · simp only [List.mem_singleton] at h
      subst h
      rcases cm with _ | ⟨buf, cl⟩
      · simp [Chan.ready] at hr
      · have hcl : cl = false := ho ⟨buf, cl⟩ rfl
        subst hcl
        cases buf <;> simp [Chan.ready] at hr
        simp [drainCase, Chan.recv, drainMeasure, CmdOpen] at ho ⊢
    · simp at h
  · split_ifs at h with hr
    · simp only [List.mem_singleton] at h
      subst h
      rcases cr with _ | ⟨buf, cl⟩
      · simp [Chan.ready] at hr
      · cases buf <;> cases cl <;> simp [Chan.ready] at hr <;>
          simp [drainCase, Chan.recv, drainMeasure, CmdOpen] at ho ⊢ <;> exact ho
    · simp at h
  · split_ifs at h with hr
    · simp only [List.mem_singleton] at h
      subst h
      rcases re with _ | ⟨buf, cl⟩
      · simp [Chan.ready] at hr
      · cases buf <;> cases cl <;> simp [Chan.ready] at hr <;>
          simp [drainCase, Chan.recv, drainMeasure, CmdOpen] at ho ⊢ <;> exact ho
    · simp at h
  · split_ifs at h with hr
    · simp only [List.mem_singleton] at h
      subst h
      rcases we with _ | ⟨buf, cl⟩
      · simp [Chan.ready] at hr
      · cases buf <;> cases cl <;> simp [Chan.ready] at hr <;>
          simp [drainCase, Chan.recv, drainMeasure, CmdOpen] at ho ⊢ <;> exact ho
    · simp at h

theorem drainStep_decreases (d : Drain) (pick : Nat) (r : Drain × List Effect)
    (hs : drainStep pick d = some r) (ho : CmdOpen d) :
    drainMeasure r.1 < drainMeasure d ∧ CmdOpen r.1 ∧ r.1.inpCh = d.inpCh := by
  unfold drainStep at hs
  cases hr : readyCases d with
  | nil => rw [hr] at hs; simp at hs
  | cons k ks =>
      rw [hr] at hs
      simp only [Option.some.injEq] at hs
      subst hs
      apply drainCase_decreases d _ _ ho
      rw [hr, List.getD_eq_getElem?_getD]
      have hlt : pick % (k :: ks).length < (k :: ks).length := Nat.mod_lt _ (by simp)
      rw [List.getElem?_eq_getElem hlt]
      exact List.getElem_mem _

theorem drainLoop_ends (fuel : Nat) (picks : Nat → Nat) (d : Drain) (ho : CmdOpen d)
    (hf : drainMeasure d < fuel) :
    ∃ r, drainLoop fuel picks d = some r ∧ r.1.inpCh = d.inpCh := by
  induction fuel generalizing picks d with
  | zero => omega
  | succ n ih =>
      cases hs : drainStep (picks 0) d with
      | none => exact ⟨(d, []), by simp [drainLoop, hs], rfl⟩
      | some r =>
          obtain ⟨h1, h2, h3⟩ := drainStep_decreases d (picks 0) r hs ho
          obtain ⟨r2, hr2, hi2⟩ := ih (fun i => picks (i + 1)) r.1 h2 (by omega)
          exact ⟨(r2.1, r.2 ++ r2.2), by simp [drainLoop, hs, hr2], by simp [hi2, h3]⟩

/-- After `Quit` the command channel is open: the drain loop ends within as many
passes as there are values to receive, and `safeClose` goes on to close
`inpCh` and `stsCh`. -/
theorem safeClose_returns_when_cmdCh_open (d : Drain) (conn : Option Conn) (fuel : Nat)
    (picks : Nat → Nat) (ho : CmdOpen d) (hi : d.inpCh = some ChanName.inpCh)
    (hf : drainMeasure d < fuel) :
    ∃ eff, safeClose fuel picks conn d =
      some (Outcome.returned (safeCloseHead conn ++ eff ++
        [Effect.wgWait, Effect.close ChanName.inpCh, Effect.close ChanName.stsCh])) := by
  obtain ⟨r, hr, hri⟩ := drainLoop_ends fuel picks d ho hf
  refine ⟨r.2, ?_⟩
  simp [safeClose, hr, safeCloseTail, hri, hi]

/-- C6 fails on the code.  When the command channel is closed, the receive
`<-cmdCh` of the drain loop can always proceed and the loop never assigns nil
to `cmdCh` (it assigns nil to `inpCh` instead), so the `default` case is never
taken: whatever the other channels hold and whatever the scheduler chooses,
the drain loop is still running after any number of passes and `safeClose`
never reaches `wg.Wait()`, `close(inpCh)` and `close(stsCh)`. -/
theorem safeClose_spins_when_cmdCh_closed (d : Drain) (c : Chan Command) (conn : Option Conn)
    (fuel : Nat) (picks : Nat → Nat) (h : d.cmdCh = some c) (hc : c.closed = true) :
    drainLoop fuel picks d = none ∧ safeClose fuel picks conn d = none := by
  have hd := drainLoop_cmdCh_closed fuel picks d c h hc
  exact ⟨hd, by simp [safeClose, hd]⟩

/-- The channels after the caller closed `Command`: the first pass assigns nil to
`inpCh`, and a thousand passes later the loop is still running. -/
theorem safeClose_spins_when_cmdCh_closed_witness :
    drainAfterClose.cmdCh = some closedChan ∧
    (closedChan : Chan Command).closed = true ∧
    drainStep 0 drainAfterClose = some ({ drainAfterClose with inpCh := none }, []) ∧
    safeCloseTail { drainAfterClose with inpCh := none } =
      Outcome.panicked "close of nil channel" [Effect.wgWait] ∧
    drainLoop 1000 (fun _ => 0) drainAfterClose = none ∧
    safeClose 1000 (fun _ => 0) none drainAfterClose = none :=
  ⟨rfl, rfl, rfl, rfl,
   safeClose_spins_when_cmdCh_closed drainAfterClose closedChan none 1000 (fun _ => 0) rfl rfl⟩

/-! ## Closing the caller-facing channels (C7) -/

/-- C7 fails on the code.  Every loop registers with the wait group by
`wg.Add(1)` as its own first statement, after the `go` statement that started
it, so `wg.Wait()` does not wait for a goroutine that has been started and has
not yet run.  With `Quit` sent right after `New`, the Coordinator has started
`keepAlive` and `connect` and calls `safeClose`; in the schedule in which
`keepAlive` runs and exits and `connect` has not yet run, the counter is zero,
`wg.Wait()` returns and `inpCh` and `stsCh` are closed while `connect` has not
exited; `connect` then registers and its send on `stsCh` panics. -/
theorem channels_closed_before_connect_registers :
    quitAtOnce = [Action.goKeepAlive, Action.goConnect, Action.safeClose none] ∧
    sysAtWait quitAtOnce =
      ⟨[⟨LoopKind.keepAlive, Stage.started⟩, ⟨LoopKind.connect, Stage.started⟩], 0, 0, none⟩ ∧
    moves (sysAtWait quitAtOnce)
        [Move.add 0, Move.done 0, Move.wait, Move.closeInp, Move.closeSts] =
      some ⟨[⟨LoopKind.keepAlive, Stage.exited⟩, ⟨LoopKind.connect, Stage.started⟩], 0, 3, none⟩ ∧
    moves (sysAtWait quitAtOnce)
        [Move.add 0, Move.done 0, Move.wait, Move.closeInp, Move.closeSts, Move.add 1,
         Move.send 1] =
      some ⟨[⟨LoopKind.keepAlive, Stage.exited⟩, ⟨LoopKind.connect, Stage.running⟩], 1, 3,
            some "send on closed channel"⟩ :=
  ⟨rfl, rfl, rfl, rfl⟩

/-! ## Frame mode across reconnects (C8) -/

theorem loopBody_msgType (s : Coord) (e : Event) :
    (loopBody s e).1.msgType = (selectsMode e).getD s.msgType := by
  cases e with
  | conReturn c => cases c <;> simp [loopBody, selectsMode]
  | rError err =>
      cases hc : s.conn <;> cases hw : s.writing <;>
        simp [loopBody, closeAndClear, selectsMode, hc, hw]
  | wError err =>
      cases hc : s.conn <;> cases hr : s.reading <;>
        simp [loopBody, closeAndClear, selectsMode, hc, hr]
  | cmd c ok =>
      cases ok
      · simp [loopBody, selectsMode]
      · by_cases h0 : c = QUIT
        · subst h0
          simp [loopBody, selectsMode, QUIT, USETEXT, USEBINARY]
        · by_cases h1 : c = PING
          · subst h1
            simp [loopBody, selectsMode, QUIT, PING, USETEXT, USEBINARY]
          · by_cases h2 : c = USETEXT
            · subst h2
              simp [loopBody, selectsMode, QUIT, PING, USETEXT, USEBINARY]
            · by_cases h3 : c = USEBINARY
              · subst h3
                simp [loopBody, selectsMode, QUIT, PING, USETEXT, USEBINARY]
              · simp [loopBody, selectsMode, h0, h1, h2, h3]

theorem head_filterMap_snoc (f : Event → Option Nat) (e : Event) (es : List Event) (m : Nat) :
    (((e :: es).reverse.filterMap f).head?).getD m =
      ((es.reverse.filterMap f).head?).getD ((f e).getD m) := by
  rw [List.reverse_cons, List.filterMap_append]
  cases h : es.reverse.filterMap f with
  | nil => cases hf : f e <;> simp [hf]
  | cons a as => simp

theorem loop_msgType (s : Coord) (evs : List Event) (h : (loop s evs).2.2 = false) :
    (loop s evs).1.msgType = ((evs.reverse.filterMap selectsMode).head?).getD s.msgType := by
  induction evs generalizing s with
  | nil => simp [loop_nil]
  | cons e es ih =>
      rw [loop_cons] at h ⊢
      by_cases hb : (loopBody s e).2.2 = true
      · simp [hb] at h
      · simp only [hb, if_false, Bool.false_eq_true] at h ⊢
        rw [ih _ h, loopBody_msgType, head_filterMap_snoc]

/-- C8: after any events that have not ended the loop, the Coordinator's frame
mode is the one selected by the most recent `UseText`/`UseBinary` command among
them, binary if there is none, and a session delivered next starts its Writer
with that mode.  Every pass sets the mode to the one the event selects and
leaves it unchanged when the event selects none; in particular deliveries,
Reader errors, Writer errors (with the reconnects they cause) and `Ping` leave
it unchanged. -/
theorem writer_starts_with_last_selected_mode (evs : List Event) (c : Conn)
    (h : (loop initCoord evs).2.2 = false) :
    (loop initCoord evs).1.msgType = specMode evs ∧
    (loopBody (loop initCoord evs).1 (Event.conReturn (some c))).2.1 =
      [Action.goRead c, Action.goWrite c (specMode evs)] ∧
    (∀ (s : Coord) (e : Event), (loopBody s e).1.msgType = (selectsMode e).getD s.msgType) ∧
    (∀ (s : Coord) (conn : Option Conn) (err : Err),
      (loopBody s (Event.conReturn conn)).1.msgType = s.msgType ∧
      (loopBody s (Event.rError err)).1.msgType = s.msgType ∧
      (loopBody s (Event.wError err)).1.msgType = s.msgType ∧
      (loopBody s (Event.cmd PING true)).1.msgType = s.msgType) := by
  have hm : (loop initCoord evs).1.msgType = specMode evs := by
    rw [loop_msgType _ _ h]
    rfl
  refine ⟨hm, ?_, loopBody_msgType, ?_⟩
  · simp [loopBody, hm]
  · intro s conn err
    exact ⟨by rw [loopBody_msgType]; rfl, by rw [loopBody_msgType]; rfl,
      by rw [loopBody_msgType]; rfl, by rw [loopBody_msgType]; rfl⟩

/-- The property P5: `UseText`, then a disconnect and a reconnect. -/
theorem writer_starts_with_last_selected_mode_witness :
    (loop initCoord [Event.cmd USETEXT true, Event.conReturn (some 1), Event.rError "EOF",
        Event.wError "cancelled"]).2.2 = false ∧
    (loopBody (loop initCoord [Event.cmd USETEXT true, Event.conReturn (some 1),
        Event.rError "EOF", Event.wError "cancelled"]).1 (Event.conReturn (some 2))).2.1 =
      [Action.goRead 2, Action.goWrite 2 TextMessage] :=
  ⟨rfl, (writer_starts_with_last_selected_mode [Event.cmd USETEXT true,
      Event.conReturn (some 1), Event.rError "EOF", Event.wError "cancelled"] 2 rfl).2.1.trans
      rfl⟩

/-! ## The Connector's statuses (C9) -/

theorem statusesOf_append (a b : List CAction) :
    statusesOf (a ++ b) = statusesOf a ++ statusesOf b := by
  induction a with
  | nil => rfl
  | cons x xs ih => cases x <;> simp [statusesOf, ih]

theorem deliveredOf_append (a b : List CAction) :
    deliveredOf (a ++ b) = deliveredOf a ++ deliveredOf b := by
  induction a with
  | nil => rfl
  | cons x xs ih => cases x <;> simp [deliveredOf, ih]

theorem connectLoop_timer (e : Err) (tail : List Attempt) :
    connectLoop (Attempt.fail e Wait.timer :: tail) =
      ([CAction.dial, CAction.sendStatus ⟨State.DISCONNECTED, some e⟩] ++ (connectLoop tail).1,
       (connectLoop tail).2) := rfl

theorem failing_cons (e : Err) (es : List Err) :
    failing (e :: es) = Attempt.fail e Wait.timer :: failing es := rfl

theorem dialsOf_cons_dial (as : List CAction) : dialsOf (CAction.dial :: as) = dialsOf as + 1 := by
  simp [dialsOf]

theorem dialsOf_cons_status (s : Status) (as : List CAction) :
    dialsOf (CAction.sendStatus s :: as) = dialsOf as := by
  simp [dialsOf]

theorem connectLoop_failing (errs : List Err) (tail : List Attempt) :
    (connectLoop (failing errs ++ tail)).2 = (connectLoop tail).2 ∧
    statusesOf (connectLoop (failing errs ++ tail)).1 =
      errs.map disconnected ++ statusesOf (connectLoop tail).1 ∧
    deliveredOf (connectLoop (failing errs ++ tail)).1 = deliveredOf (connectLoop tail).1 ∧
    dialsOf (connectLoop (failing errs ++ tail)).1 =
      errs.length + dialsOf (connectLoop tail).1 := by
  induction errs with
  | nil => simp [failing]
  | cons e es ih =>
      obtain ⟨h1, h2, h3, h4⟩ := ih
      rw [failing_cons, List.cons_append, connectLoop_timer]
      refine ⟨h1, ?_, ?_, ?_⟩
      · simp [statusesOf, h2, disconnected]
      · simp [deliveredOf, h3]
      · simp only [List.cons_append, List.nil_append, dialsOf_cons_dial, dialsOf_cons_status, h4,
          List.length_cons]
        omega

theorem connect_shape (atts : List Attempt) :
    (∃ errs, atts = failing errs) ∨
    (∃ errs c rest, atts = failing errs ++ Attempt.ok c :: rest) ∨
    (∃ errs e rest, atts = failing errs ++ Attempt.fail e Wait.cancel :: rest) := by
  induction atts with
  | nil => exact Or.inl ⟨[], rfl⟩
  | cons a as ih =>
      cases a with
      | ok c => exact Or.inr (Or.inl ⟨[], c, as, rfl⟩)
      | fail e w =>
          cases w with
          | cancel => exact Or.inr (Or.inr ⟨[], e, as, rfl⟩)
          | timer =>
              rcases ih with ⟨errs, h⟩ | ⟨errs, c, rest, h⟩ | ⟨errs, e1, rest, h⟩
              · exact Or.inl ⟨e :: errs, by simp [failing, h]⟩
              · exact Or.inr (Or.inl ⟨e :: errs, c, rest, by simp [failing, h]⟩)
              · exact Or.inr (Or.inr ⟨e :: errs, e1, rest, by simp [failing, h]⟩)

/-- C9: a run of `connect` in which the dials with errors `errs` fail, each
followed by the full backoff wait, and the next dial succeeds with `c`, sends
the statuses `Disconnected(e)` for each `e` of `errs` in order and then
`Connected`, delivers `c` exactly once, makes one dial more than there were
failures and returns.  A run in which cancellation arrives in the backoff wait
after the failure `e` sends `Disconnected` for each failure including `e`, then
`Disconnected(cancelled)`, delivers nothing, makes no further dial and returns.
A run that has not met either is still going and has sent only the statuses of
its failures.  Every run is of one of the three forms.  Two failures and a
success send `Disconnected(err), Disconnected(err), Connected`. -/
theorem connect_statuses :
    (∀ (errs : List Err) (c : Conn) (rest : List Attempt),
      statusesOf (connect (failing errs ++ Attempt.ok c :: rest)).1 =
        errs.map disconnected ++ [⟨State.CONNECTED, none⟩] ∧
      deliveredOf (connect (failing errs ++ Attempt.ok c :: rest)).1 = [c] ∧
      dialsOf (connect (failing errs ++ Attempt.ok c :: rest)).1 = errs.length + 1 ∧
      (connect (failing errs ++ Attempt.ok c :: rest)).2 = true) ∧
    (∀ (errs : List Err) (e : Err) (rest : List Attempt),
      statusesOf (connect (failing errs ++ Attempt.fail e Wait.cancel :: rest)).1 =
        (errs ++ [e]).map disconnected ++ [disconnected "cancelled"] ∧
      deliveredOf (connect (failing errs ++ Attempt.fail e Wait.cancel :: rest)).1 = [] ∧
      dialsOf (connect (failing errs ++ Attempt.fail e Wait.cancel :: rest)).1 =
        errs.length + 1 ∧
      (connect (failing errs ++ Attempt.fail e Wait.cancel :: rest)).2 = true) ∧
    (∀ errs : List Err,
      statusesOf (connect (failing errs)).1 = errs.map disconnected ∧
      deliveredOf (connect (failing errs)).1 = [] ∧
      (connect (failing errs)).2 = false) ∧
    (∀ atts : List Attempt,
      (∃ errs, atts = failing errs) ∨
      (∃ errs c rest, atts = failing errs ++ Attempt.ok c :: rest) ∨
      (∃ errs e rest, atts = failing errs ++ Attempt.fail e Wait.cancel :: rest)) ∧
    statusesOf (connect [Attempt.fail "refused" Wait.timer, Attempt.fail "refused" Wait.timer,
        Attempt.ok 7]).1 =
      [⟨State.DISCONNECTED, some "refused"⟩, ⟨State.DISCONNECTED, some "refused"⟩,
       ⟨State.CONNECTED, none⟩] := by
  refine ⟨?_, ?_, ?_, connect_shape, rfl⟩
  · intro errs c rest
    obtain ⟨h1, h2, h3, h4⟩ := connectLoop_failing errs (Attempt.ok c :: rest)
    simp only [connect, h1, connectLoop, if_true]
    refine ⟨?_, ?_, ?_, trivial⟩
    · simp [statusesOf, statusesOf_append, h2]
    · simp [deliveredOf, deliveredOf_append, h3]
    · simp only [dialsOf] at h4 ⊢
      simp [h4, connectLoop]
  · intro errs e rest
    obtain ⟨h1, h2, h3, h4⟩ := connectLoop_failing errs (Attempt.fail e Wait.cancel :: rest)
    simp only [connect, h1, connectLoop, if_true]
    refine ⟨?_, ?_, ?_, trivial⟩
    · simp [statusesOf, statusesOf_append, h2, disconnected]
    · simp [deliveredOf, deliveredOf_append, h3]
    · simp only [dialsOf] at h4 ⊢
      simp [h4, connectLoop]
  · intro errs
    obtain ⟨h1, h2, h3, _⟩ := connectLoop_failing errs []
    simp only [List.append_nil] at h1 h2 h3
    simp only [connect, h1, connectLoop]
    simp [statusesOf, deliveredOf, h2, h3]

/-! ## Frame order and frame mode in the Writer (C10) -/

theorem modeBefore_snoc (start : Nat) (pre : List WInput) (x : WInput) :
    modeBefore start (pre ++ [x]) = (controlMode x).getD (modeBefore start pre) := by
  cases h : controlMode x <;> simp [modeBefore, List.reverse_append, List.filterMap_cons, h]

theorem framesOf_append (a b : List WAction) : framesOf (a ++ b) = framesOf a ++ framesOf b := by
  induction a with
  | nil => rfl
  | cons x xs ih => cases x <;> simp [framesOf, ih]

theorem writeLoop_out (m : Nat) (msg : Bytes) (rest : List WInput) :
    writeLoop m (WInput.out msg true true none none :: rest) =
      ([WAction.ioEvent, WAction.setWriteDeadline, WAction.writeMessage m msg,
        WAction.clearWriteDeadline] ++ (writeLoop m rest).1, (writeLoop m rest).2) := rfl

theorem writeLoop_ping (m : Nat) (rest : List WInput) :
    writeLoop m (WInput.control PING true none :: rest) =
      (WAction.writeControl :: (writeLoop m rest).1, (writeLoop m rest).2) := rfl

theorem writeLoop_useText (m : Nat) (p : Option Err) (rest : List WInput) :
    writeLoop m (WInput.control USETEXT true p :: rest) = writeLoop TextMessage rest := rfl

theorem writeLoop_useBinary (m : Nat) (p : Option Err) (rest : List WInput) :
    writeLoop m (WInput.control USEBINARY true p :: rest) = writeLoop BinaryMessage rest := rfl

theorem writeLoop_other (m : Nat) (c : Command) (p : Option Err) (rest : List WInput)
    (hq : c ≠ QUIT) (h1 : c ≠ PING) (h2 : c ≠ USETEXT) (h3 : c ≠ USEBINARY) :
    writeLoop m (WInput.control c true p :: rest) = writeLoop m rest := by
  simp [writeLoop, hq, h1, h2, h3]

theorem writeLoop_succeeds (start : Nat) (rest : List WInput) :
    ∀ pre : List WInput, (∀ x ∈ rest, succeeds x = true) →
      framesOf (writeLoop (modeBefore start pre) rest).1 = specFramesFrom start pre rest ∧
      (framesOf (writeLoop (modeBefore start pre) rest).1).map Prod.snd = payloadsOf rest ∧
      (writeLoop (modeBefore start pre) rest).2 = false := by
  induction rest with
  | nil => intro pre _; simp [writeLoop, framesOf, specFramesFrom, payloadsOf]
  | cons x xs ih =>
      intro pre h
      have hx := h x (List.mem_cons_self x xs)
      have hxs : ∀ y ∈ xs, succeeds y = true := fun y hy => h y (List.mem_cons_of_mem x hy)
      obtain ⟨i1, i2, i3⟩ := ih (pre ++ [x]) hxs
      rw [modeBefore_snoc] at i1 i2 i3
      cases x with
      | out msg ok io d w =>
          simp only [succeeds, Bool.and_eq_true, Option.isNone_iff_eq_none] at hx
          obtain ⟨⟨⟨rfl, rfl⟩, rfl⟩, rfl⟩ := hx
          simp only [controlMode, Option.getD_none] at i1 i2 i3
          rw [writeLoop_out]
          exact ⟨by simp [framesOf, specFramesFrom, i1], by simp [framesOf, payloadsOf, i2],
            by simp [i3]⟩
      | control c ok p =>
          simp only [succeeds, Bool.and_eq_true, Bool.or_eq_true, bne_iff_ne, ne_eq,
            Option.isNone_iff_eq_none] at hx
          obtain ⟨⟨rfl, hq⟩, hp⟩ := hx
          by_cases h1 : c = PING
          · have hp2 : p = none := by
              rcases hp with hp | hp
              · exact absurd h1 hp
              · exact hp
            subst hp2 h1
            have hcm : controlMode (WInput.control PING true none) = none := rfl
            simp only [hcm, Option.getD_none] at i1 i2 i3
            rw [writeLoop_ping]
            exact ⟨by simp [framesOf, specFramesFrom, i1], by simp [framesOf, payloadsOf, i2],
            by simp [i3]⟩
          · by_cases h2 : c = USETEXT
            · subst h2
              have hcm : controlMode (WInput.control USETEXT true p) = some TextMessage := rfl
              simp only [hcm, Option.getD_some] at i1 i2 i3
              rw [writeLoop_useText]
              exact ⟨by simp [specFramesFrom, i1], by simp [payloadsOf, i2], by simp [i3]⟩
            · by_cases h3 : c = USEBINARY
              · subst h3
                have hcm : controlMode (WInput.control USEBINARY true p) = some BinaryMessage :=
                  rfl
                simp only [hcm, Option.getD_some] at i1 i2 i3
                rw [writeLoop_useBinary]
                exact ⟨by simp [specFramesFrom, i1], by simp [payloadsOf, i2], by simp [i3]⟩
              · have hcm : controlMode (WInput.control c true p) = none := by
                  simp [controlMode, h2, h3]
                simp only [hcm, Option.getD_none] at i1 i2 i3
                rw [writeLoop_other _ _ _ _ hq h1 h2 h3]
                exact ⟨by simp [specFramesFrom, i1], by simp [payloadsOf, i2], by simp [i3]⟩

/-- While `ioEventCh` is open: on inputs none of which fails or stops the Writer
(payloads from the open outbound queue whose pulse, deadline and send calls
succeed, and controls other than `Quit` from the open control channel, a
`Ping` succeeding), `write` hands to `WriteMessage` exactly one frame per
payload, in the order the payloads were taken, each with the mode set by the
most recent preceding `UseText`/`UseBinary` control, or the starting mode if
there is none; and it is still running. -/
theorem write_frames_while_running (start : Nat) (inputs : List WInput)
    (h : ∀ x ∈ inputs, succeeds x = true) :
    framesOf (write start inputs).1 = specFrames start inputs ∧
    (framesOf (write start inputs).1).map Prod.snd = payloadsOf inputs ∧
    (write start inputs).2 = false := by
  obtain ⟨i1, i2, i3⟩ := writeLoop_succeeds start inputs [] h
  have hs : modeBefore start [] = start := rfl
  rw [hs] at i1 i2 i3
  simp only [write, i3, specFrames]
  exact ⟨by simp [framesOf, i1], by simp [framesOf, i2], trivial⟩

/-! ## Errors reported by the Writer (C11, C12) -/

theorem modeBefore_cons (m : Nat) (x : WInput) (xs : List WInput) :
    modeBefore m (x :: xs) = modeBefore ((controlMode x).getD m) xs := by
  unfold modeBefore
  rw [List.reverse_cons, List.filterMap_append]
  cases h : xs.reverse.filterMap controlMode with
  | nil => cases hf : controlMode x <;> simp [hf]
  | cons a as => simp

theorem errorsOf_append (a b : List WAction) : errorsOf (a ++ b) = errorsOf a ++ errorsOf b := by
  induction a with
  | nil => rfl
  | cons x xs ih => cases x <;> simp [errorsOf, ih]

theorem writeLoop_prefix (pre : List WInput) :
    ∀ (m : Nat) (tail : List WInput), (∀ y ∈ pre, succeeds y = true) →
      writeLoop m (pre ++ tail) =
        ((writeLoop m pre).1 ++ (writeLoop (modeBefore m pre) tail).1,
         (writeLoop (modeBefore m pre) tail).2) ∧
      errorsOf (writeLoop m pre).1 = [] ∧ (writeLoop m pre).2 = false := by
  induction pre with
  | nil => intro m tail _; simp [writeLoop, errorsOf, modeBefore]
  | cons x xs ih =>
      intro m tail h
      have hx := h x (List.mem_cons_self x xs)
      have hxs : ∀ y ∈ xs, succeeds y = true := fun y hy => h y (List.mem_cons_of_mem x hy)
      rw [modeBefore_cons, List.cons_append]
      cases x with
      | out msg ok io d w =>
          simp only [succeeds, Bool.and_eq_true, Option.isNone_iff_eq_none] at hx
          obtain ⟨⟨⟨rfl, rfl⟩, rfl⟩, rfl⟩ := hx
          obtain ⟨i1, i2, i3⟩ := ih m tail hxs
          simp only [controlMode, Option.getD_none, writeLoop_out, i1]
          exact ⟨by simp, by simp [errorsOf, i2], i3⟩
      | control c ok p =>
          simp only [succeeds, Bool.and_eq_true, Bool.or_eq_true, bne_iff_ne, ne_eq,
            Option.isNone_iff_eq_none] at hx
          obtain ⟨⟨rfl, hq⟩, hp⟩ := hx
          by_cases h1 : c = PING
          · have hp2 : p = none := by
              rcases hp with hp | hp
              · exact absurd h1 hp
              · exact hp
            subst hp2 h1
            obtain ⟨i1, i2, i3⟩ := ih m tail hxs
            have hcm : controlMode (WInput.control PING true none) = none := rfl
            simp only [hcm, Option.getD_none, writeLoop_ping, i1]
            exact ⟨by simp, by simp [errorsOf, i2], i3⟩
          · by_cases h2 : c = USETEXT
            · subst h2
              obtain ⟨i1, i2, i3⟩ := ih TextMessage tail hxs
              have hcm : controlMode (WInput.control USETEXT true p) = some TextMessage := rfl
              simp only [hcm, Option.getD_some, writeLoop_useText]
              exact ⟨i1, i2, i3⟩
            · by_cases h3 : c = USEBINARY
              · subst h3
                obtain ⟨i1, i2, i3⟩ := ih BinaryMessage tail hxs
                have hcm : controlMode (WInput.control USEBINARY true p) = some BinaryMessage :=
                  rfl
                simp only [hcm, Option.getD_some, writeLoop_useBinary]
                exact ⟨i1, i2, i3⟩
              · obtain ⟨i1, i2, i3⟩ := ih m tail hxs
                have hcm : controlMode (WInput.control c true p) = none := by
                  simp [controlMode, h2, h3]
                simp only [hcm, Option.getD_none, writeLoop_other _ _ _ _ hq h1 h2 h3]
                exact ⟨i1, i2, i3⟩

theorem stopsWriter_of_succeeds (x : WInput) (h : succeeds x = true) :
    stopsWriter x = false := by
  cases x with
  | out msg ok io d w =>
      cases ok <;> cases io <;> cases d <;> cases w <;> first | rfl | simp [succeeds] at h
  | control c ok p =>
      cases hq : (c == QUIT) <;> cases hp : (c == PING) <;> cases ok <;> cases p <;>
        simp [stopsWriter, succeeds, bne, hq, hp] at h ⊢

theorem writeLoop_stop (m : Nat) (x : WInput) (rest : List WInput)
    (hx : stopsWriter x = true) :
    ∃ acts e, writeLoop m (x :: rest) = (acts ++ [WAction.sendWError e], true) ∧
      errorsOf acts = [] ∧
      (∀ c p, x = WInput.control c true p → c = QUIT → e = "cancelled") ∧
      (∀ c p, x = WInput.control c false p → e = "controlCh closed") ∧
      (∀ msg io d w, x = WInput.out msg false io d w → e = "outCh closed") := by
  cases x with
  | out msg ok io d w =>
      cases ok
      · exact ⟨[], "outCh closed", by simp [writeLoop], rfl, by simp, by simp, by simp⟩
      · cases io
        · simp [stopsWriter] at hx
        · cases d with
          | some err =>
              exact ⟨[WAction.ioEvent, WAction.setWriteDeadline], err, by simp [writeLoop],
                rfl, by simp, by simp, by simp⟩
          | none =>
              cases w with
              | some err =>
                  exact ⟨[WAction.ioEvent, WAction.setWriteDeadline,
                    WAction.writeMessage m msg], err, by simp [writeLoop], rfl, by simp,
                    by simp, by simp⟩
              | none => simp [stopsWriter] at hx
  | control c ok p =>
      cases ok
      · exact ⟨[], "controlCh closed", by simp [writeLoop], rfl, by simp, by simp, by simp⟩
      · by_cases hq : c = QUIT
        · exact ⟨[], "cancelled", by simp [writeLoop, hq], rfl, by simp, by simp, by simp⟩
        · simp only [stopsWriter, Bool.not_true, Bool.false_or, Bool.or_eq_true, beq_iff_eq,
            Bool.and_eq_true, Option.isSome_iff_exists] at hx
          rcases hx with hx | ⟨hp, err, rfl⟩
          · exact absurd hx hq
          · subst hp
            exact ⟨[WAction.writeControl], "cancelled", rfl, rfl,
              by simp [PING, QUIT], by simp, by simp⟩

/-- C11 fails on the code.  After any inputs on which the Writer keeps running,
a heartbeat whose `WriteControl` fails with the error `e` makes the Writer
report the error `cancelled` on `wErrorCh`, whatever `e` is, and return; a
payload whose `WriteMessage` fails with `e` makes it report `e` itself.  In
both cases the report is the only one and nothing is sent after it. -/
theorem failed_ping_reports_cancelled (m : Nat) (pre rest : List WInput) (msg : Bytes)
    (e : Err) (h : ∀ y ∈ pre, succeeds y = true) :
    write m (pre ++ WInput.control PING true (some e) :: rest) =
      (WAction.wgAdd :: (writeLoop m pre).1 ++
        [WAction.writeControl, WAction.sendWError "cancelled", WAction.wgDone], true) ∧
    errorsOf (write m (pre ++ WInput.control PING true (some e) :: rest)).1 = ["cancelled"] ∧
    write m (pre ++ WInput.out msg true true none (some e) :: rest) =
      (WAction.wgAdd :: (writeLoop m pre).1 ++
        [WAction.ioEvent, WAction.setWriteDeadline,
         WAction.writeMessage (modeBefore m pre) msg, WAction.sendWError e, WAction.wgDone],
       true) ∧
    errorsOf (write m (pre ++ WInput.out msg true true none (some e) :: rest)).1 = [e] := by
  obtain ⟨a1, a2, _⟩ := writeLoop_prefix pre m (WInput.control PING true (some e) :: rest) h
  obtain ⟨b1, _, _⟩ := writeLoop_prefix pre m (WInput.out msg true true none (some e) :: rest) h
  have hp : ∀ k, writeLoop k (WInput.control PING true (some e) :: rest) =
      ([WAction.writeControl, WAction.sendWError "cancelled"], true) := fun _ => rfl
  have ho : ∀ k, writeLoop k (WInput.out msg true true none (some e) :: rest) =
      ([WAction.ioEvent, WAction.setWriteDeadline, WAction.writeMessage k msg,
        WAction.sendWError e], true) := fun _ => rfl
  rw [hp] at a1
  rw [ho] at b1
  refine ⟨?_, ?_, ?_, ?_⟩
  · simp [write, a1]
  · simp [write, a1, errorsOf, errorsOf_append, a2]
  · simp [write, b1]
  · simp [write, b1, errorsOf, errorsOf_append, a2]

/-- A heartbeat that fails with `i/o timeout` right after the Writer starts. -/
theorem failed_ping_reports_cancelled_witness :
    write BinaryMessage [WInput.control PING true (some "i/o timeout")] =
      ([WAction.wgAdd, WAction.writeControl, WAction.sendWError "cancelled", WAction.wgDone],
       true) ∧
    write BinaryMessage [WInput.out [97] true true none (some "i/o timeout")] =
      ([WAction.wgAdd, WAction.ioEvent, WAction.setWriteDeadline,
        WAction.writeMessage BinaryMessage [97], WAction.sendWError "i/o timeout",
        WAction.wgDone], true) :=
  ⟨(failed_ping_reports_cancelled BinaryMessage [] [] [97] "i/o timeout" (by simp)).1,
   (failed_ping_reports_cancelled BinaryMessage [] [] [97] "i/o timeout" (by simp)).2.2.1⟩

/-- While `ioEventCh` is open: let the Writer meet inputs `pre` on which it
neither fails nor is told to stop, and then an input `x` that is a `Quit`
control, a closed control channel, a closed outbound channel or a failed send.
On `pre` alone it is still running and has put nothing on `wErrorCh`.  On `x`
it puts exactly one error there as its last effect before it returns, and
receives nothing of `rest`.  The error is `cancelled` for `Quit`,
`controlCh closed` for a closed control channel and `outCh closed` for a closed
outbound channel. -/
theorem write_reports_once_on_stop (m : Nat) (pre rest : List WInput) (x : WInput)
    (hs : ∀ y ∈ pre, succeeds y = true) (hx : stopsWriter x = true) :
    (write m pre).2 = false ∧ errorsOf (write m pre).1 = [] ∧
    (write m (pre ++ x :: rest)).2 = true ∧
    write m (pre ++ x :: rest) = write m (pre ++ [x]) ∧
    (∃ acts e, (write m (pre ++ x :: rest)).1 =
        WAction.wgAdd :: (writeLoop m pre).1 ++ acts ++ [WAction.sendWError e, WAction.wgDone] ∧
      errorsOf acts = [] ∧
      errorsOf (write m (pre ++ x :: rest)).1 = [e] ∧
      (∀ c p, x = WInput.control c true p → c = QUIT → e = "cancelled") ∧
      (∀ c p, x = WInput.control c false p → e = "controlCh closed") ∧
      (∀ msg io d w, x = WInput.out msg false io d w → e = "outCh closed")) := by
  obtain ⟨a1, a2, a3⟩ := writeLoop_prefix pre m (x :: rest) hs
  obtain ⟨b1, _, _⟩ := writeLoop_prefix pre m [x] hs
  obtain ⟨acts, e, c1, c2, c3, c4, c5⟩ := writeLoop_stop (modeBefore m pre) x rest hx
  obtain ⟨acts1, e1, d1, _⟩ := writeLoop_stop (modeBefore m pre) x [] hx
  have hsame : writeLoop (modeBefore m pre) (x :: rest) = writeLoop (modeBefore m pre) [x] := by
    cases x with
    | out msg ok io d w =>
        cases ok <;> cases io <;> cases d <;> cases w <;> first | rfl | simp [stopsWriter] at hx
    | control c ok p =>
        cases ok
        · rfl
        · by_cases hq : c = QUIT
          · simp [writeLoop, hq]
          · simp only [stopsWriter, Bool.not_true, Bool.false_or, Bool.or_eq_true, beq_iff_eq,
              Bool.and_eq_true, Option.isSome_iff_exists] at hx
            rcases hx with hx | ⟨hp, err, rfl⟩
            · exact absurd hx hq
            · subst hp
              rfl
  refine ⟨by simp [write, a3], by simp [write, a3, errorsOf, a2], by simp [write, a1, c1],
    by simp [write, a1, b1, hsame], acts, e, ?_, c2, ?_, c3, c4, c5⟩
  · simp [write, a1, c1]
  · simp [write, a1, c1, errorsOf, errorsOf_append, a2, c2]

theorem panicsOf_append (a b : List WAction) : panicsOf (a ++ b) = panicsOf a ++ panicsOf b := by
  induction a with
  | nil => rfl
  | cons x xs ih => cases x <;> simp [panicsOf, ih]

/-- The Writer after inputs on which it keeps running, taking a payload from the
open `outCh` when `ioEventCh` has been closed: the send of line 181 panics,
nothing of the payload reaches the transport and nothing is put on `wErrorCh`. -/
theorem write_panics_on_closed_ioEventCh (m : Nat) (pre rest : List WInput) (msg : Bytes)
    (d w : Option Err) (h : ∀ y ∈ pre, succeeds y = true) :
    write m (pre ++ WInput.out msg true false d w :: rest) =
      (WAction.wgAdd :: (writeLoop m pre).1 ++
        [WAction.panic "send on closed channel", WAction.wgDone], true) ∧
    framesOf (write m (pre ++ WInput.out msg true false d w :: rest)).1 = specFrames m pre ∧
    errorsOf (write m (pre ++ WInput.out msg true false d w :: rest)).1 = [] := by
  obtain ⟨a1, a2, _⟩ := writeLoop_prefix pre m (WInput.out msg true false d w :: rest) h
  obtain ⟨f1, _, _⟩ := writeLoop_succeeds m pre [] h
  have hs : modeBefore m [] = m := rfl
  rw [hs] at f1
  have hp : ∀ k, writeLoop k (WInput.out msg true false d w :: rest) =
      ([WAction.panic "send on closed channel"], true) := fun _ => rfl
  rw [hp] at a1
  refine ⟨?_, ?_, ?_⟩
  · simp [write, a1]
  · simp [write, a1, framesOf, framesOf_append, f1, specFrames]
  · simp [write, a1, errorsOf, errorsOf_append, a2]

/-- C10 fails on the code.  `safeClose` closes `ioEventCh` (line 235) before it
waits for the Writer, and after `Quit` it is called with a nil session while
the Writer of session 1 has been started and has not been told to stop.  A
Writer that has sent the payloads of `pre`, no send failing, and then takes the
payload `msg` from the outbound queue panics in the send of the activity pulse
(line 181): the frames handed to the transport are those of `pre` only, so the
payload `msg`, taken from the queue, is dropped, and no error is reported. -/
theorem writer_drops_payload_after_shutdown (m : Nat) (pre rest : List WInput) (msg : Bytes)
    (h : ∀ y ∈ pre, succeeds y = true) :
    New [Event.conReturn (some 1), Event.cmd QUIT true] =
      [Action.goKeepAlive, Action.goConnect, Action.goRead 1, Action.goWrite 1 BinaryMessage,
       Action.sendStatus ⟨State.DISCONNECTED, none⟩, Action.safeClose none] ∧
    safeCloseHead none =
      [Effect.close ChanName.ioEventCh, Effect.close ChanName.controlCh,
       Effect.close ChanName.conCancelCh, Effect.sleep] ∧
    (write m (pre ++ WInput.out msg true false none none :: rest)).2 = true ∧
    framesOf (write m (pre ++ WInput.out msg true false none none :: rest)).1 =
      specFrames m pre ∧
    (framesOf (write m (pre ++ WInput.out msg true false none none :: rest)).1).map Prod.snd =
      payloadsOf pre ∧
    payloadsOf (pre ++ [WInput.out msg true false none none]) = payloadsOf pre ++ [msg] ∧
    panicsOf (write m (pre ++ WInput.out msg true false none none :: rest)).1 =
      ["send on closed channel"] ∧
    errorsOf (write m (pre ++ WInput.out msg true false none none :: rest)).1 = [] := by
  obtain ⟨p1, p2, p3⟩ := write_panics_on_closed_ioEventCh m pre rest msg none none h
  obtain ⟨f1, f2, _⟩ := write_frames_while_running m pre h
  obtain ⟨_, _, a3⟩ := writeLoop_prefix pre m [] h
  have hpan : panicsOf (writeLoop m pre).1 = [] := by
    have key : ∀ (xs : List WInput) (k : Nat), (∀ y ∈ xs, succeeds y = true) →
        panicsOf (writeLoop k xs).1 = [] := by
      intro xs
      induction xs with
      | nil => intro k _; rfl
      | cons x xs ih =>
          intro k hx
          have hxs : ∀ y ∈ xs, succeeds y = true := fun y hy => hx y (List.mem_cons_of_mem x hy)
          obtain ⟨q1, _, _⟩ := writeLoop_prefix [x] k xs
            (fun y hy => hx y (by simp only [List.mem_singleton] at hy; simp [hy]))
          have hone : panicsOf (writeLoop k [x]).1 = [] := by
            have hsx := hx x (List.mem_cons_self x xs)
            cases x with
            | out msg2 ok io d w =>
                simp only [succeeds, Bool.and_eq_true, Option.isNone_iff_eq_none] at hsx
                obtain ⟨⟨⟨rfl, rfl⟩, rfl⟩, rfl⟩ := hsx
                rfl
            | control c ok p =>
                simp only [succeeds, Bool.and_eq_true, Bool.or_eq_true, bne_iff_ne, ne_eq,
                  Option.isNone_iff_eq_none] at hsx
                obtain ⟨⟨rfl, hq⟩, hp⟩ := hsx
                by_cases h1 : c = PING
                · have hp2 : p = none := by
                    rcases hp with hp | hp
                    · exact absurd h1 hp
                    · exact hp
                  subst hp2 h1
                  rfl
                · by_cases h2 : c = USETEXT
                  · subst h2; rfl
                  · by_cases h3 : c = USEBINARY
                    · subst h3; rfl
                    · rw [writeLoop_other _ _ _ _ hq h1 h2 h3]; rfl
          have hq1 : writeLoop k (x :: xs) = writeLoop k ([x] ++ xs) := rfl
          rw [hq1, q1, panicsOf_append, hone, ih _ hxs]
          rfl
    exact key pre m h
  refine ⟨rfl, rfl, ?_, p2, ?_, ?_, ?_, p3⟩
  · rw [p1]
  · rw [p2]
    have hf : framesOf (write m pre).1 = specFrames m pre := f1
    rw [← hf]
    exact f2
  · have key : ∀ (xs ys : List WInput), payloadsOf (xs ++ ys) = payloadsOf xs ++ payloadsOf ys := by
      intro xs ys
      induction xs with
      | nil => rfl
      | cons x xs ih => cases x <;> simp [payloadsOf, ih]
    rw [key]
    rfl
  · rw [p1]
    simp [panicsOf, panicsOf_append, hpan]

/-- Payload `a` is sent, then shutdown closes `ioEventCh`, then payload `b` is
taken: only the frame of `a` reaches the transport. -/
theorem writer_drops_payload_after_shutdown_witness :
    write BinaryMessage [WInput.out [97] true true none none,
        WInput.out [98] true false none none] =
      ([WAction.wgAdd, WAction.ioEvent, WAction.setWriteDeadline,
        WAction.writeMessage BinaryMessage [97], WAction.clearWriteDeadline,
        WAction.panic "send on closed channel", WAction.wgDone], true) ∧
    framesOf (write BinaryMessage [WInput.out [97] true true none none,
        WInput.out [98] true false none none]).1 = [(BinaryMessage, [97])] ∧
    payloadsOf [WInput.out [97] true true none none,
        WInput.out [98] true false none none] = [[97], [98]] :=
  ⟨rfl,
   (writer_drops_payload_after_shutdown BinaryMessage [WInput.out [97] true true none none] []
      [98] (by decide)).2.2.2.1.trans rfl,
   (writer_drops_payload_after_shutdown BinaryMessage [WInput.out [97] true true none none] []
      [98] (by decide)).2.2.2.2.2.1.trans rfl⟩

/-- C12 fails on the code.  Besides the four terminations the claim lists,
the Writer terminates when it takes a payload from the open outbound queue
after `safeClose` has closed `ioEventCh`: the send of line 181 panics.  That
input is none of the four, no send has failed, and on this terminating path
nothing is put on `wErrorCh`.  On a closed control channel the Writer reports
`controlCh closed`, which is not the error `cancelled` it reports on `Quit`. -/
theorem writer_panic_leaves_no_report (m : Nat) (pre rest : List WInput) (msg : Bytes)
    (c : Command) (p : Option Err) (h : ∀ y ∈ pre, succeeds y = true) :
    stopsWriter (WInput.out msg true false none none) = false ∧
    (write m (pre ++ WInput.out msg true false none none :: rest)).2 = true ∧
    write m (pre ++ WInput.out msg true false none none :: rest) =
      (WAction.wgAdd :: (writeLoop m pre).1 ++
        [WAction.panic "send on closed channel", WAction.wgDone], true) ∧
    errorsOf (write m (pre ++ WInput.out msg true false none none :: rest)).1 = [] ∧
    errorsOf (write m (pre ++ WInput.control c false p :: rest)).1 = ["controlCh closed"] ∧
    errorsOf (write m (pre ++ WInput.control QUIT true p :: rest)).1 = ["cancelled"] ∧
    "controlCh closed" ≠ "cancelled" := by
  obtain ⟨p1, _, p3⟩ := write_panics_on_closed_ioEventCh m pre rest msg none none h
  obtain ⟨_, _, _, _, a1, e1, _, _, he1, _, hc1, _⟩ :=
    write_reports_once_on_stop m pre rest (WInput.control c false p) h rfl
  obtain ⟨_, _, _, _, a2, e2, _, _, he2, hq2, _, _⟩ :=
    write_reports_once_on_stop m pre rest (WInput.control QUIT true p) h rfl
  refine ⟨rfl, ?_, p1, p3, ?_, ?_, by decide⟩
  · rw [p1]
  · rw [he1, hc1 c p rfl]
  · rw [he2, hq2 QUIT p rfl rfl]

/-- A Writer just started takes a payload after `ioEventCh` has been closed. -/
theorem writer_panic_leaves_no_report_witness :
    write TextMessage [WInput.out [97] true false none none] =
      ([WAction.wgAdd, WAction.panic "send on closed channel", WAction.wgDone], true) ∧
    errorsOf (write TextMessage [WInput.out [97] true false none none]).1 = [] ∧
    errorsOf (write TextMessage [WInput.control QUIT false none]).1 = ["controlCh closed"] :=
  ⟨(writer_panic_leaves_no_report TextMessage [] [] [97] QUIT none (by simp)).2.2.1,
   (writer_panic_leaves_no_report TextMessage [] [] [97] QUIT none (by simp)).2.2.2.1,
   (writer_panic_leaves_no_report TextMessage [] [] [97] QUIT none (by simp)).2.2.2.2.1⟩

/-! ## The Reader (C13) -/

theorem readLoop_msg (m : Bytes) (rest : List Recv) :
    readLoop (Recv.msg m true :: rest) =
      ([RAction.readMessage, RAction.ioEvent, RAction.sendInp m] ++ (readLoop rest).1,
       (readLoop rest).2) := rfl

theorem readLoop_msgs (ps : List Bytes) (tail : List Recv) :
    readLoop (received ps ++ tail) =
      (deliveriesOf ps ++ (readLoop tail).1, (readLoop tail).2) := by
  induction ps with
  | nil => simp [received, deliveriesOf]
  | cons p ps ih =>
      have hc : received (p :: ps) = Recv.msg p true :: received ps := rfl
      rw [hc, List.cons_append, readLoop_msg, ih]
      simp [deliveriesOf]

theorem connClose_not_mem_readLoop (recvs : List Recv) :
    RAction.connClose ∉ (readLoop recvs).1 := by
  induction recvs with
  | nil => simp [readLoop]
  | cons r rs ih =>
      cases r with
      | msg m io =>
          cases io
          · simp [readLoop]
          · simpa [readLoop] using ih
      | fail e => simp [readLoop]

/-- While `ioEventCh` is open: on the payloads `ps` received in order followed
by the receive error `e`, `read` performs, for each payload in arrival order,
one call of `ReadMessage`, one activity pulse and then the delivery on `inpCh`;
after the failing call it sends `e` once on `rErrorCh` and returns, receiving
nothing more.  While only payloads arrive it keeps running and reports nothing.
On no input at all does it call `Close` on the session. -/
theorem read_delivers_while_ioEventCh_open (ps : List Bytes) (e : Err) (rest : List Recv) :
    read (received ps ++ Recv.fail e :: rest) =
      (RAction.wgAdd :: deliveriesOf ps ++
        [RAction.readMessage, RAction.sendRError e, RAction.wgDone], true) ∧
    read (received ps) = (RAction.wgAdd :: deliveriesOf ps, false) ∧
    (∀ recvs : List Recv, RAction.connClose ∉ (read recvs).1) := by
  refine ⟨?_, ?_, ?_⟩
  · simp [read, readLoop_msgs, readLoop]
  · have h := readLoop_msgs ps []
    simp only [List.append_nil] at h
    simp [read, h, readLoop]
  · intro recvs
    have h := connClose_not_mem_readLoop recvs
    by_cases hr : (readLoop recvs).2 = true <;> simp [read, hr, h]

/-- C13 fails on the code.  After `Quit` with session 1 live the Coordinator
calls `safeClose` with a nil session: it closes `ioEventCh` (line 235) and does
not close the session, so the Reader it started is still waiting in
`ReadMessage`.  A Reader that has delivered the payloads `ps` and then receives
the payload `p` panics in the send of the activity pulse (line 220): `p` is
not delivered to the inbound queue, and whatever the later receive results are,
a receive error among them included, nothing is reported on `rErrorCh`. -/
theorem reader_panics_after_shutdown :
    New [Event.conReturn (some 1), Event.cmd QUIT true] =
      [Action.goKeepAlive, Action.goConnect, Action.goRead 1, Action.goWrite 1 BinaryMessage,
       Action.sendStatus ⟨State.DISCONNECTED, none⟩, Action.safeClose none] ∧
    safeCloseHead none =
      [Effect.close ChanName.ioEventCh, Effect.close ChanName.controlCh,
       Effect.close ChanName.conCancelCh, Effect.sleep] ∧
    read [] = ([RAction.wgAdd], false) ∧
    (∀ (ps : List Bytes) (p : Bytes) (rest : List Recv),
      read (received ps ++ Recv.msg p false :: rest) =
        (RAction.wgAdd :: deliveriesOf ps ++
          [RAction.readMessage, RAction.panic "send on closed channel", RAction.wgDone],
         true)) ∧
    (∀ (ps : List Bytes) (p : Bytes) (rest : List Recv) (e : Err),
      RAction.sendInp p ∉ deliveriesOf ps →
      RAction.sendInp p ∉ (read (received ps ++ Recv.msg p false :: rest)).1 ∧
      RAction.sendRError e ∉ (read (received ps ++ Recv.msg p false :: rest)).1) ∧
    read [Recv.msg [112] false, Recv.fail "EOF"] =
      ([RAction.wgAdd, RAction.readMessage, RAction.panic "send on closed channel",
        RAction.wgDone], true) := by
  have hrun : ∀ (ps : List Bytes) (p : Bytes) (rest : List Recv),
      read (received ps ++ Recv.msg p false :: rest) =
        (RAction.wgAdd :: deliveriesOf ps ++
          [RAction.readMessage, RAction.panic "send on closed channel", RAction.wgDone],
         true) := by
    intro ps p rest
    simp [read, readLoop_msgs, readLoop]
  have hnoerr : ∀ (ps : List Bytes) (e : Err), RAction.sendRError e ∉ deliveriesOf ps := by
    intro ps e
    induction ps with
    | nil => simp [deliveriesOf]
    | cons q qs ih => simp [deliveriesOf, ih]
  refine ⟨rfl, rfl, rfl, hrun, ?_, rfl⟩
  intro ps p rest e hp
  rw [hrun]
  exact ⟨by simp [hp], by simp [hnoerr ps e]⟩

/-! ## The Keepalive Monitor (C14) -/

theorem keepAliveLoop_pulse (armed : Bool) (rest : List KInput) :
    keepAliveLoop armed (KInput.pulse true :: rest) =
      (keepAliveLoop true rest).map fun r => (KAction.timerReset :: r.1, r.2) := by
  simp only [keepAliveLoop]
  cases keepAliveLoop true rest <;> rfl

theorem keepAliveLoop_room (rest : List KInput) :
    keepAliveLoop true (KInput.expiry Ctl.room :: rest) =
      (keepAliveLoop true rest).map fun r =>
        (KAction.timerReset :: KAction.sendControl PING :: r.1, r.2) := by
  simp only [keepAliveLoop]
  cases keepAliveLoop true rest <;> rfl

theorem keepAliveLoop_full (rest : List KInput) :
    keepAliveLoop true (KInput.expiry Ctl.full :: rest) =
      (keepAliveLoop true rest).map fun r => (KAction.timerReset :: r.1, r.2) := by
  simp only [keepAliveLoop]
  cases keepAliveLoop true rest <;> rfl

theorem keepAliveLoop_steady (evs : List KInput) (tail : List KInput)
    (h : ∀ x ∈ evs, isSteady x = true) :
    keepAliveLoop true (evs ++ tail) =
      (keepAliveLoop true tail).map fun r => (specKeepAlive evs ++ r.1, r.2) := by
  induction evs with
  | nil => cases ht : keepAliveLoop true tail <;> simp [specKeepAlive, ht]
  | cons x xs ih =>
      have hx := h x (List.mem_cons_self x xs)
      have ih2 := ih (fun y hy => h y (List.mem_cons_of_mem x hy))
      cases x with
      | pulse ok =>
          simp only [isSteady] at hx
          subst hx
          rw [List.cons_append, keepAliveLoop_pulse, ih2]
          cases ht : keepAliveLoop true tail <;> simp [specKeepAlive, ht]
      | expiry ctl =>
          cases ctl with
          | closed => simp [isSteady] at hx
          | room =>
              rw [List.cons_append, keepAliveLoop_room, ih2]
              cases ht : keepAliveLoop true tail <;> simp [specKeepAlive, ht]
          | full =>
              rw [List.cons_append, keepAliveLoop_full, ih2]
              cases ht : keepAliveLoop true tail <;> simp [specKeepAlive, ht]

/-- C14: `keepAlive` makes its timer and stops it, and the timer case cannot
fire before the first activity pulse.  After a first pulse, on activity pulses
and timer expiries that find the control path with room or full, it re-arms
the timer each time and enqueues exactly one `Ping` on an expiry that finds
room and nothing on one that finds the path full, and it is still running.
When it then finds the activity-pulse channel closed it stops the timer and
returns.  It returns on no other input: on steady inputs alone it never does. -/
theorem keepAlive_pings_when_idle (evs rest : List KInput)
    (h : ∀ x ∈ evs, isSteady x = true) :
    (∀ (c : Ctl) (tail : List KInput), keepAlive (KInput.expiry c :: tail) = none) ∧
    keepAlive (KInput.pulse true :: evs) =
      some ([KAction.wgAdd, KAction.newTimer, KAction.timerStop, KAction.timerReset] ++
        specKeepAlive evs, KEnd.running) ∧
    keepAlive (KInput.pulse true :: (evs ++ KInput.pulse false :: rest)) =
      some ([KAction.wgAdd, KAction.newTimer, KAction.timerStop, KAction.timerReset] ++
        specKeepAlive evs ++ [KAction.timerStop, KAction.wgDone], KEnd.returned) ∧
    keepAlive (KInput.pulse false :: rest) =
      some ([KAction.wgAdd, KAction.newTimer, KAction.timerStop, KAction.timerStop,
        KAction.wgDone], KEnd.returned) := by
  refine ⟨fun c tail => by simp [keepAlive, keepAliveLoop], ?_, ?_, rfl⟩
  · have h1 := keepAliveLoop_steady evs [] h
    simp only [List.append_nil] at h1
    simp [keepAlive, keepAliveLoop_pulse, h1, keepAliveLoop]
  · have h1 := keepAliveLoop_steady evs (KInput.pulse false :: rest) h
    simp [keepAlive, keepAliveLoop_pulse, h1, keepAliveLoop]

/-- A pulse, an expiry that finds room, an expiry that finds the path full, a
pulse, then the close of the pulse channel. -/
theorem keepAlive_pings_when_idle_witness :
    keepAlive [KInput.pulse true, KInput.expiry Ctl.room, KInput.expiry Ctl.full,
        KInput.pulse true, KInput.pulse false] =
      some ([KAction.wgAdd, KAction.newTimer, KAction.timerStop, KAction.timerReset,
        KAction.timerReset, KAction.sendControl PING, KAction.timerReset, KAction.timerReset,
        KAction.timerStop, KAction.wgDone], KEnd.returned) :=
  (keepAlive_pings_when_idle [KInput.expiry Ctl.room, KInput.expiry Ctl.full,
    KInput.pulse true] [] (by decide)).2.2.1.trans rfl

/-! ## Relaying caller commands (C15) -/

theorem wstep_writing_conn (w w1 : World) (e : Event)
    (hi : w.coord.writing = true → w.coord.conn.isSome = true) (h : wstep w e = some w1) :
    w1.coord.writing = true → w1.coord.conn.isSome = true := by
  obtain ⟨⟨r, wr, cn, mt⟩, k, rd, wt⟩ := w
  simp only at hi
  cases e with
  | cmd c ok =>
      obtain ⟨_, h2, h3, _, _, _⟩ := loopBody_cmd ⟨r, wr, cn, mt⟩ c ok
      simp only [wstep, enabled, consume, if_true] at h
      split_ifs at h
      simp only [Option.some.injEq] at h
      subst h
      simp only [h2, h3]
      exact hi
  | conReturn c =>
      cases c with
      | none => simp [wstep, enabled] at h
      | some c =>
          simp only [wstep, enabled, loopBody] at h
          split_ifs at h
          simp only [Option.some.injEq] at h
          subst h
          simp
  | rError err =>
      cases wr <;> cases cn <;>
        simp [wstep, enabled, loopBody, consume, closeAndClear] at h hi ⊢ <;>
        obtain ⟨_, rfl⟩ := h <;> simp
  | wError err =>
      cases r <;> cases cn <;>
        simp [wstep, enabled, loopBody, consume, closeAndClear] at h hi ⊢ <;>
        obtain ⟨_, rfl⟩ := h <;> simp

theorem reachable_writing_conn (w : World) (h : Reachable w) :
    w.coord.writing = true → w.coord.conn.isSome = true := by
  induction h with
  | init => simp [initWorld, initCoord]
  | step w w1 e _ hs ih => exact wstep_writing_conn w w1 e ih hs

/-- C15: in every reachable state, a pass that receives `Ping`, `UseText` or
`UseBinary` from the open command channel sends that command on `controlCh`
when `writing` is true and sends nothing when it is false, and it stays in the
loop.  In such a state `writing` implies a non-nil `conn`, so the extra test
`conn != nil` of the `Ping` case withholds nothing, and `writing` is true
exactly while one Writer has not yet reported. -/
theorem commands_relayed_iff_writing (w : World) (c : Command) (hw : Reachable w)
    (hc : c = PING ∨ c = USETEXT ∨ c = USEBINARY) :
    (loopBody w.coord (Event.cmd c true)).2.1 =
      (if w.coord.writing then [Action.sendControl c] else []) ∧
    (loopBody w.coord (Event.cmd c true)).2.2 = false ∧
    (w.coord.writing = true → w.coord.conn.isSome = true) ∧
    (w.coord.writing = true ↔ w.writers = 1) := by
  have hconn := reachable_writing_conn w hw
  have hinv := reachable_inv w hw
  obtain ⟨⟨r, wr, cn, mt⟩, k, rd, wt⟩ := w
  simp only at hconn
  refine ⟨?_, ?_, hconn, ?_⟩
  · rcases hc with rfl | rfl | rfl
    · cases wr
      · simp [loopBody, PING, QUIT]
      · simp [loopBody, PING, QUIT, hconn rfl]
    · cases wr <;> simp [loopBody, PING, QUIT, USETEXT]
    · cases wr <;> simp [loopBody, PING, QUIT, USETEXT, USEBINARY]
  · rcases hc with rfl | rfl | rfl <;> simp [loopBody, PING, QUIT, USETEXT, USEBINARY]
  · cases wr <;> simp [WorldInv] at hinv ⊢ <;> simp [hinv.2.1]

/-- A `Ping` received while session 1 is live is sent on to the Writer. -/
theorem commands_relayed_iff_writing_witness :
    (loopBody (⟨⟨true, true, some 1, 2⟩, 0, 1, 1⟩ : World).coord (Event.cmd PING true)).2.1 =
      [Action.sendControl PING] :=
  (commands_relayed_iff_writing ⟨⟨true, true, some 1, 2⟩, 0, 1, 1⟩ PING
    (Reachable.step _ _ (Event.conReturn (some 1)) Reachable.init rfl) (Or.inl rfl)).1.trans rfl

/-! ## Blocking on the control channel (C16) -/

/-- C16 fails on the code.  The Coordinator relays a command by the plain send
`controlCh <- cmd` on a channel of capacity 1.  With session 1 live and the
Writer not receiving (busy in a send, or returned with its report still
unread), the first relayed command fills the channel and the pass that relays
the next one blocks in its send: it does not complete.  From any state with
`writing` true and a non-nil `conn`, a relayed `Ping`, `UseText` or `UseBinary`
completes when the channel is empty and blocks when it is full.  The Monitor's
send of `Ping` on the same channel does not block: it gives up when the channel
is full. -/
theorem relay_blocks_on_full_controlCh :
    (loop initCoord [Event.conReturn (some 1), Event.cmd PING true,
        Event.cmd USETEXT true]).2.1 =
      [Action.goRead 1, Action.goWrite 1 BinaryMessage, Action.sendControl PING,
       Action.sendControl USETEXT] ∧
    sendsControl 0 (loop initCoord [Event.conReturn (some 1), Event.cmd PING true]).2.1 =
      some 1 ∧
    sendsControl 0 (loop initCoord [Event.conReturn (some 1), Event.cmd PING true,
        Event.cmd USETEXT true]).2.1 = none ∧
    (∀ (s : Coord) (k : Conn) (c : Command), s.writing = true → s.conn = some k →
      c = PING ∨ c = USETEXT ∨ c = USEBINARY →
      sendsControl 0 (loopBody s (Event.cmd c true)).2.1 = some 1 ∧
      sendsControl controlCap (loopBody s (Event.cmd c true)).2.1 = none) ∧
    keepAlive [KInput.pulse true, KInput.expiry Ctl.full] =
      some ([KAction.wgAdd, KAction.newTimer, KAction.timerStop, KAction.timerReset,
        KAction.timerReset], KEnd.running) := by
  refine ⟨rfl, rfl, rfl, ?_, rfl⟩
  intro s k c hw hk hc
  rcases hc with rfl | rfl | rfl <;>
    simp [loopBody, PING, QUIT, USETEXT, USEBINARY, hw, hk, sendsControl, controlCap]

end Ws

namespace Genid

/-! ## Constants and construction (C18) -/

theorem generateMax_eq : generateMax = 1023 := by decide

theorem numberMax_eq : numberMax = 4095 := by decide

/-- C18: `generateMax` is 1023 and `numberMax` is 4095; `newGenerate(id)` returns
nil exactly when `id < 0` or `id > 1023`, and for every other `id` a generator
with sequence number 0, timestamp 0 and node id `id`. -/
theorem newGenerate_checks_range (id : Int) :
    generateMax = 2 ^ 10 - 1 ∧ generateMax = 1023 ∧ numberMax = 2 ^ 12 - 1 ∧ numberMax = 4095 ∧
    (newGenerate id = none ↔ id < 0 ∨ id > 1023) ∧
    newGenerate id =
      if id < 0 ∨ id > 1023 then none
      else some { number := 0, timestamp := 0, generateId := id } := by
  have h : newGenerate id =
      if id < 0 ∨ id > 1023 then none
      else some { number := 0, timestamp := 0, generateId := id } := by
    simp only [newGenerate, generateMax_eq]
  refine ⟨by decide, generateMax_eq, by decide, numberMax_eq, ?_, h⟩
  rw [h]
  by_cases hc : id < 0 ∨ id > 1023 <;> simp [hc]

/-! ## Distinct IDs (C17) -/

theorem wrap64_small (x : Int) (h0 : 0 ≤ x) (h1 : x < 2 ^ 63) : wrap64 x = x := by
  unfold wrap64
  norm_num at h1 ⊢
  omega

theorem getId_same_ms (g : Generate) (t : Int) (clock : List Int) (ht : g.timestamp = t)
    (h0 : 0 ≤ g.number) (h1 : g.number < 4095) :
    getId g (t :: clock) =
      some (makeId t { g with number := g.number + 1 }, { g with number := g.number + 1 },
        clock) := by
  have hw : wrap64 (g.number + 1) = g.number + 1 :=
    wrap64_small _ (by omega) (by norm_num; omega)
  have hle : g.number + 1 ≤ numberMax := by rw [numberMax_eq]; omega
  simp [getId, ht, hw, hle]

theorem getIds_same_ms (t : Int) (rest : List Int) (k : Nat) :
    ∀ g : Generate, g.timestamp = t → 0 ≤ g.number → g.number + k ≤ 4095 →
      ∃ ids, getIds k g (List.replicate k t ++ rest) =
        some (ids, { g with number := g.number + k }, rest) ∧ ids.length = k := by
  induction k with
  | zero => intro g _ _ _; exact ⟨[], by simp [getIds], rfl⟩
  | succ n ih =>
      intro g ht h0 h1
      have hstep := getId_same_ms g t (List.replicate n t ++ rest) ht h0 (by omega)
      obtain ⟨ids, hids, hlen⟩ := ih { g with number := g.number + 1 } ht
        (by simp only; omega) (by simp only; omega)
      refine ⟨makeId t { g with number := g.number + 1 } :: ids, ?_, by simp [hlen]⟩
      rw [List.replicate_succ, List.cons_append]
      have hnum : g.number + 1 + (n : Int) = g.number + ((n + 1 : Nat) : Int) := by
        push_cast
        ring
      simp only [getIds, hstep, hids, hnum]

theorem getIds_add (a b : Nat) :
    ∀ (g : Generate) (clock : List Int),
      getIds (a + b) g clock =
        match getIds a g clock with
        | none => none
        | some r =>
            match getIds b r.2.1 r.2.2 with
            | none => none
            | some r2 => some (r.1 ++ r2.1, r2.2.1, r2.2.2) := by
  induction a with
  | zero =>
      intro g clock
      simp only [Nat.zero_add, getIds]
      cases getIds b g clock <;> simp
  | succ n ih =>
      intro g clock
      rw [Nat.succ_add]
      simp only [getIds]
      cases h1 : getId g clock with
      | none => rfl
      | some r =>
          simp only [ih]
          cases h2 : getIds n r.2.1 r.2.2 with
          | none => rfl
          | some r2 =>
              simp only
              cases h3 : getIds b r2.2.1 r2.2.2 <;> simp

theorem getIds_succ (n : Nat) (g : Generate) (clock : List Int) :
    getIds (n + 1) g clock =
      match getId g clock with
      | none => none
      | some r =>
          match getIds n r.2.1 r.2.2 with
          | none => none
          | some r2 => some (r.1 :: r2.1, r2.2.1, r2.2.2) := rfl

theorem busyClock_eq :
    busyClock = sampleMs :: (List.replicate 4095 sampleMs ++
      [sampleMs, sampleMs + 1, sampleMs + 1]) := by
  have h1 : List.replicate 4097 sampleMs = List.replicate 4096 sampleMs ++ [sampleMs] :=
    List.replicate_succ' 4096 sampleMs
  have h2 : List.replicate 4096 sampleMs = sampleMs :: List.replicate 4095 sampleMs :=
    List.replicate_succ sampleMs 4095
  unfold busyClock
  rw [h1, h2, List.append_assoc, List.cons_append, List.singleton_append]

theorem getIds_busy_ms :
    ∃ ids, getIds 4096 ⟨0, 0, 1⟩ busyClock =
      some (ids, ⟨4095, sampleMs, 1⟩, [sampleMs, sampleMs + 1, sampleMs + 1]) := by
  obtain ⟨ids, h, _⟩ := getIds_same_ms sampleMs [sampleMs, sampleMs + 1, sampleMs + 1] 4095
    ⟨0, sampleMs, 1⟩ rfl (by decide) (by decide)
  have h3 : getIds 4095 ⟨0, sampleMs, 1⟩
      (List.replicate 4095 sampleMs ++ [sampleMs, sampleMs + 1, sampleMs + 1]) =
      some (ids, ⟨4095, sampleMs, 1⟩, [sampleMs, sampleMs + 1, sampleMs + 1]) := by
    rw [h]
    rfl
  have hfirst : ∀ clock, getId ⟨0, 0, 1⟩ (sampleMs :: clock) =
      some (makeId sampleMs ⟨0, sampleMs, 1⟩, ⟨0, sampleMs, 1⟩, clock) := by
    intro clock
    simp [getId, sampleMs]
  refine ⟨makeId sampleMs ⟨0, sampleMs, 1⟩ :: ids, ?_⟩
  rw [busyClock_eq, show (4096 : Nat) = 4095 + 1 from rfl, getIds_succ, hfirst]
  simp only []
  rw [h3]

theorem busyClock_nondecreasing : busyClock.Pairwise (· ≤ ·) := by
  unfold busyClock
  rw [List.pairwise_append]
  refine ⟨?_, by decide, ?_⟩
  · rw [List.pairwise_replicate]
    exact Or.inr (le_refl _)
  · intro a ha b hb
    rw [List.eq_of_mem_replicate ha]
    simp only [List.mem_cons, List.mem_singleton, List.not_mem_nil, or_false, or_self] at hb
    rw [hb]
    decide

/-- C17 fails on the code.  Node 1 is a valid node and its generator is asked
for 4098 IDs while the clock reads the same millisecond 4097 times and the next
millisecond after that.  After 4096 calls the sequence number is 4095.  Call
4097 raises it to 4096, waits for the next millisecond and returns an ID built
from the new reading and the sequence number 4096, without resetting the number
or storing the reading; call 4098, in that next millisecond, resets the number
to 0 and returns the same ID, because 4096 is the lowest bit of the node field
and node 1 has that bit set.  The IDs of the run are not pairwise distinct. -/
theorem overflow_id_is_issued_twice :
    newGenerate 1 = some ⟨0, 0, 1⟩ ∧
    busyClock.Pairwise (· ≤ ·) ∧
    (∃ ids, getIds 4096 ⟨0, 0, 1⟩ busyClock =
      some (ids, ⟨4095, sampleMs, 1⟩, [sampleMs, sampleMs + 1, sampleMs + 1])) ∧
    getId ⟨4095, sampleMs, 1⟩ [sampleMs, sampleMs + 1, sampleMs + 1] =
      some (731043980120166400, ⟨4096, sampleMs, 1⟩, [sampleMs + 1]) ∧
    getId ⟨4096, sampleMs, 1⟩ [sampleMs + 1] =
      some (731043980120166400, ⟨0, sampleMs + 1, 1⟩, []) ∧
    (∃ ids g, getIds 4098 ⟨0, 0, 1⟩ busyClock = some (ids, g, []) ∧ ¬ ids.Nodup) := by
  have h1 : getId ⟨4095, sampleMs, 1⟩ [sampleMs, sampleMs + 1, sampleMs + 1] =
      some (731043980120166400, ⟨4096, sampleMs, 1⟩, [sampleMs + 1]) := by decide
  have h2 : getId ⟨4096, sampleMs, 1⟩ [sampleMs + 1] =
      some (731043980120166400, ⟨0, sampleMs + 1, 1⟩, []) := by decide
  refine ⟨by decide, busyClock_nondecreasing, getIds_busy_ms, h1, h2, ?_⟩
  obtain ⟨ids, hids⟩ := getIds_busy_ms
  refine ⟨ids ++ [731043980120166400, 731043980120166400], ⟨0, sampleMs + 1, 1⟩, ?_, ?_⟩
  · rw [show (4098 : Nat) = 4096 + 2 from rfl, getIds_add, hids]
    simp only []
    rw [show (2 : Nat) = 1 + 1 from rfl, getIds_succ, h1]
    simp only []
    rw [show (1 : Nat) = 0 + 1 from rfl, getIds_succ, h2]
    rfl
  · intro hn
    have := (List.nodup_append.1 hn).2.1
    simp at this

end Genid

namespace Random

/-! ## Length of `RanValLen` (C19) -/

theorem Sha256_length (lib : Lib) (hl : lib.Lawful) (d : String) : (Sha256 lib d).length = 44 := by
  simp [Sha256, Encode, SHA256Binary, hl.2, hl.1]

theorem sliceTo_some (s : String) (n : Int) (h0 : 0 ≤ n) (h1 : n ≤ s.length) :
    ∃ r, sliceTo s n = some r ∧ (r.length : Int) = n := by
  refine ⟨⟨s.data.take n.toNat⟩, by simp [sliceTo, h0, h1], ?_⟩
  have h2 : n.toNat ≤ s.data.length := by
    have : s.data.length = s.length := rfl
    omega
  simp only [String.length, List.length_take, Nat.min_eq_left h2]
  omega

theorem sliceTo_none (s : String) (n : Int) (h : n < 0 ∨ (s.length : Int) < n) :
    sliceTo s n = none := by
  unfold sliceTo
  rw [if_neg]
  omega

/-- C19: with a 32-byte digest and the standard base64 length, every value of
`sha.Sha256` has 44 characters, and for every `lens` from 0 to 88 `RanValLen`
returns a string of exactly `lens` characters.  It cannot return more than 88:
for a larger or a negative `lens` the slice expression panics. -/
theorem RanValLen_has_length (lib : Lib) (now : Int) (draw : Nat → Nat) (num : Nat)
    (lens : Int) (hl : lib.Lawful) :
    (∀ d, (Sha256 lib d).length = 44) ∧
    (0 ≤ lens → lens ≤ 88 →
      ∃ s, (RanValLen lib now draw num lens).1 = some s ∧ (s.length : Int) = lens) ∧
    (88 < lens → (RanValLen lib now draw num lens).1 = none) ∧
    (lens < 0 → (RanValLen lib now draw num lens).1 = none) := by
  have h44 := Sha256_length lib hl
  refine ⟨h44, ?_, ?_, ?_⟩
  · intro h0 h1
    simp only [RanValLen]
    split_ifs with hc
    · exact sliceTo_some _ _ h0 (by rw [h44]; exact_mod_cast hc)
    · exact sliceTo_some _ _ h0 (by rw [String.length_append, h44, h44]; exact_mod_cast h1)
  · intro h
    simp only [RanValLen]
    rw [if_neg (by omega)]
    exact sliceTo_none _ _ (Or.inr (by rw [String.length_append, h44, h44]; exact_mod_cast h))
  · intro h
    simp only [RanValLen]
    rw [if_pos (by omega)]
    exact sliceTo_none _ _ (Or.inl h)

theorem stubLib_lawful : stubLib.Lawful := by
  constructor
  · intro d
    simp [stubLib]
  · intro b
    simp [stubLib, String.length]

/-- A call for 50 characters, more than one digest holds. -/
theorem RanValLen_has_length_witness :
    stubLib.Lawful ∧
    ∃ s, (RanValLen stubLib 1700000000 (fun i => i * 7) 5 50).1 = some s ∧
      (s.length : Int) = 50 :=
  ⟨stubLib_lawful,
   (RanValLen_has_length stubLib 1700000000 (fun i => i * 7) 5 50 stubLib_lawful).2.1
     (by decide) (by decide)⟩

/-! ## `RanValPar`: error, length and indices (C20) -/

theorem letters_length : letters.length = 62 := rfl

theorem letters_single : ∀ s ∈ letters, s.length = 1 := by decide

theorem lettersAt_some (i : Int) (h0 : 0 ≤ i) (h1 : i ≤ 61) :
    ∃ s, lettersAt i = some s ∧ s.length = 1 := by
  have hlt : i.toNat < letters.length := by
    rw [letters_length]
    omega
  refine ⟨letters.get ⟨i.toNat, hlt⟩, ?_, letters_single _ (List.get_mem _ _ _)⟩
  have hc : 0 ≤ i ∧ i < 62 := ⟨h0, by omega⟩
  simp only [lettersAt, hc, and_self, if_true]
  exact List.get?_eq_get hlt

theorem lookupAll_some (idx : List Int) (h : ∀ i ∈ idx, 0 ≤ i ∧ i ≤ 61) :
    ∃ s, lookupAll idx = some s ∧ s.length = idx.length := by
  induction idx with
  | nil => exact ⟨"", rfl, rfl⟩
  | cons i rest ih =>
      obtain ⟨a, ha, hal⟩ := lettersAt_some i (h i (List.mem_cons_self i rest)).1
        (h i (List.mem_cons_self i rest)).2
      obtain ⟨b, hb, hbl⟩ := ih (fun j hj => h j (List.mem_cons_of_mem i hj))
      refine ⟨a ++ b, by simp [lookupAll, ha, hb], ?_⟩
      rw [String.length_append, hal, hbl, List.length_cons]
      omega

theorem dateIndices_bounds (draw : Nat → Nat) (t : Date) (ht : validDate t)
    (hy : 2018 ≤ t.year ∧ t.year ≤ 2079) :
    ∀ i ∈ dateIndices ((draw 0 % 10 : Nat) : Int) t, 0 ≤ i ∧ i ≤ 61 := by
  obtain ⟨h1, h2, h3, h4, h5, h6, h7, h8⟩ := ht
  have hr : draw 0 % 10 < 10 := Nat.mod_lt _ (by decide)
  intro i hi
  simp only [dateIndices, List.mem_cons, List.mem_singleton, List.not_mem_nil, or_false] at hi
  rcases hi with rfl | rfl | rfl | rfl | rfl <;> omega

theorem nextPair_bounds (v : Int × Int) (h : 0 ≤ v.1 ∧ v.1 ≤ 61 ∧ 0 ≤ v.2 ∧ v.2 ≤ 61) :
    0 ≤ (nextPair 62 v).1 ∧ (nextPair 62 v).1 ≤ 61 ∧
    0 ≤ (nextPair 62 v).2 ∧ (nextPair 62 v).2 ≤ 61 := by
  unfold nextPair
  split_ifs <;> simp <;> omega

theorem pairOf_bounds (par : String) (randMap : RandMap) (hm : MapOk randMap) :
    0 ≤ (pairOf par randMap).1 ∧ (pairOf par randMap).1 ≤ 61 ∧
    0 ≤ (pairOf par randMap).2 ∧ (pairOf par randMap).2 ≤ 61 := by
  unfold pairOf
  cases hk : randMap (keyOf par) with
  | none => exact nextPair_bounds (0, 0) (by simp)
  | some v => exact nextPair_bounds v (hm _ v hk)

theorem loopIndices_bounds (lenth : Int) (draw : Nat → Nat) :
    ∀ i ∈ loopIndices lenth draw, 0 ≤ i ∧ i ≤ 61 := by
  intro i hi
  simp only [loopIndices, List.mem_map, List.mem_range] at hi
  obtain ⟨k, _, rfl⟩ := hi
  have : draw (k + 1) % 62 < 62 := Nat.mod_lt _ (by decide)
  omega

theorem loopIndices_length (lenth : Int) (draw : Nat → Nat) :
    (loopIndices lenth draw).length = (lenth - 7).toNat := by
  simp [loopIndices]

theorem mapOk_update (randMap : RandMap) (key : String) (v : Int × Int) (hm : MapOk randMap)
    (hv : 0 ≤ v.1 ∧ v.1 ≤ 61 ∧ 0 ≤ v.2 ∧ v.2 ≤ 61) :
    MapOk (fun k => if k = key then some v else randMap k) := by
  intro k u hu
  by_cases hk : k = key
  · simp only [hk, if_true, Option.some.injEq] at hu
    rw [← hu]
    exact hv
  · simp only [hk, if_false] at hu
    exact hm k u hu

/-- C20: `RanValPar` returns an error, with an empty string, when `lenth < 6`.
For every `lenth >= 6`, every name, every random stream, every time whose year
lies in 2018..2079 and every state of the counters that calls of `RanValPar`
can have left (all counters in 0..61, as in the empty map), it returns a nil
error and a string of exactly `lenth` characters without panicking, every index
it uses into `letters` lies in 0..61, and the counters it leaves are again in
0..61. -/
theorem RanValPar_error_and_length (par : String) (lenth : Int) (draw : Nat → Nat) (t : Date)
    (randMap : RandMap) (ht : validDate t) (hy : 2018 ≤ t.year ∧ t.year ≤ 2079)
    (hm : MapOk randMap) :
    (lenth < 6 →
      RanValPar par lenth draw t randMap = some ("", some "位数少于6", randMap)) ∧
    (6 ≤ lenth →
      ∃ res m, RanValPar par lenth draw t randMap = some (res, none, m) ∧
        (res.length : Int) = lenth ∧ MapOk m) ∧
    (∀ i ∈ indicesUsed par lenth draw t randMap, 0 ≤ i ∧ i ≤ 61) ∧
    MapOk emptyMap := by
  have hpb := pairOf_bounds par randMap hm
  have hpair : ∀ i ∈ [(pairOf par randMap).1, (pairOf par randMap).2], 0 ≤ i ∧ i ≤ 61 := by
    intro i hi
    simp only [List.mem_cons, List.mem_singleton, List.not_mem_nil, or_false] at hi
    rcases hi with rfl | rfl
    · exact ⟨hpb.1, hpb.2.1⟩
    · exact ⟨hpb.2.2.1, hpb.2.2.2⟩
  refine ⟨?_, ?_, ?_, ?_⟩
  · intro h
    simp [RanValPar, h]
  · intro h
    obtain ⟨a, ha, hal⟩ := lookupAll_some _ (dateIndices_bounds draw t ht hy)
    obtain ⟨b, hb, hbl⟩ := lookupAll_some _ hpair
    obtain ⟨c, hc, hcl⟩ := lookupAll_some _ (loopIndices_bounds lenth draw)
    rw [loopIndices_length] at hcl
    have hlen : (a ++ b ++ c).length = 7 + (lenth - 7).toNat := by
      rw [String.length_append, String.length_append, hal, hbl, hcl]
      rfl
    have hok := mapOk_update randMap (keyOf par) (pairOf par randMap) hm hpb
    unfold RanValPar
    rw [if_neg (by omega)]
    simp only [ha, hb, hc]
    by_cases h6 : lenth = 6
    · obtain ⟨r, hr, hrl⟩ := sliceTo_some (a ++ b ++ c) 6 (by decide) (by rw [hlen]; omega)
      rw [if_pos h6, hr]
      exact ⟨r, _, rfl, by rw [hrl, h6], hok⟩
    · rw [if_neg h6]
      exact ⟨a ++ b ++ c, _, rfl, by rw [hlen]; omega, hok⟩
  · intro i hi
    simp only [indicesUsed, List.mem_append] at hi
    rcases hi with (hi | hi) | hi
    · exact dateIndices_bounds draw t ht hy i hi
    · exact hpair i hi
    · exact loopIndices_bounds lenth draw i hi
  · intro k v hv
    simp [emptyMap] at hv

theorem sampleDate_valid : validDate sampleDate := by
  unfold validDate
  decide

/-- Twelve characters for the name `x`, first call. -/
theorem RanValPar_error_and_length_witness :
    validDate sampleDate ∧ (2018 ≤ sampleDate.year ∧ sampleDate.year ≤ 2079) ∧
    MapOk emptyMap ∧
    ∃ res m, RanValPar "x" 12 (fun i => i * 7 + 3) sampleDate emptyMap = some (res, none, m) ∧
      (res.length : Int) = 12 ∧ MapOk m :=
  ⟨sampleDate_valid, by decide,
   (RanValPar_error_and_length "x" 12 (fun i => i * 7 + 3) sampleDate emptyMap
     sampleDate_valid (by decide) (fun k v hv => by simp [emptyMap] at hv)).2.2.2,
   (RanValPar_error_and_length "x" 12 (fun i => i * 7 + 3) sampleDate emptyMap
     sampleDate_valid (by decide) (fun k v hv => by simp [emptyMap] at hv)).2.1 (by decide)⟩

end Random

namespace Cache

/-! ## `Set` on a map (C22) -/

theorem lpushesOf_listLoop (key : String) (expire : List Int) (xs : List String) :
    lpushesOf key (listLoop key expire xs) = xs := by
  induction xs with
  | nil => rfl
  | cons v rest ih => simp [listLoop, lpushesOf, ih]

/-- C22 fails on the code.  For a map with the entries `e :: rest`, in the order
`range` yields them, `Set` issues `PING`, one `HSET` for `e` and one `EXPIRE`
and returns from inside the loop: no entry of `rest` is stored, whatever their
number.  For the map with the entries `a` and `b` only `a` is stored.  For an
empty map it issues no `HSET` and stores the nil value with `SETEX` instead.
The sibling loop over a `[]string` pushes every element. -/
theorem Set_stores_one_entry (key : String) (e : String × String)
    (rest : List (String × String)) (expire : List Int) (xs : List String) :
    Set true key (Val.hash (e :: rest)) expire =
      some [⟨"PING", []⟩, ⟨"HSET", [key, e.1, e.2]⟩,
            ⟨"EXPIRE", [key, ttl expire 600000]⟩] ∧
    hsetsOf key [⟨"PING", []⟩, ⟨"HSET", [key, e.1, e.2]⟩,
                 ⟨"EXPIRE", [key, ttl expire 600000]⟩] = [e] ∧
    Set true "k" (Val.hash [("a", "1"), ("b", "2")]) [] =
      some [⟨"PING", []⟩, ⟨"HSET", ["k", "a", "1"]⟩, ⟨"EXPIRE", ["k", "600000"]⟩] ∧
    Set true key (Val.hash []) expire =
      some [⟨"PING", []⟩, ⟨"SETEX", [key, ttl expire 6000, ""]⟩] ∧
    Set true key (Val.list xs) expire = some (⟨"PING", []⟩ :: listLoop key expire xs) ∧
    lpushesOf key (listLoop key expire xs) = xs := by
  refine ⟨?_, ?_, rfl, rfl, rfl, lpushesOf_listLoop key expire xs⟩
  · obtain ⟨k, v⟩ := e
    rfl
  · simp [hsetsOf]

end Cache

namespace Http

/-! ## Retries of `send` (C23) -/

theorem sendLoop_succ (outcome : Nat → Outcome) (fuel i : Nat)
    (last : Option Response × Option String) :
    sendLoop outcome (fuel + 1) i last =
      match outcome i with
      | Outcome.fail r e => sendLoop outcome fuel (i + 1) (r, some e)
      | Outcome.ok r =>
          if r.StatusCode ≥ StatusInternalServerError then
            sendLoop outcome fuel (i + 1) (some r, none)
          else (i + 1, some r, none) := rfl

theorem sendLoop_retried (outcome : Nat → Outcome) (fuel i : Nat)
    (last : Option Response × Option String) (h : isRetried (outcome i) = true) :
    ∃ last1, sendLoop outcome (fuel + 1) i last = sendLoop outcome fuel (i + 1) last1 := by
  rw [sendLoop_succ]
  cases ho : outcome i with
  | fail r e => exact ⟨_, rfl⟩
  | ok r =>
      rw [ho] at h
      simp only [isRetried, decide_eq_true_eq] at h
      exact ⟨(some r, none), by simp [StatusInternalServerError, h]⟩

theorem sendLoop_first_good (outcome : Nat → Outcome) (r : Response) (k : Nat) :
    ∀ (fuel i : Nat) (last : Option Response × Option String), k < fuel →
      (∀ j, j < k → isRetried (outcome (i + j)) = true) → outcome (i + k) = Outcome.ok r →
      r.StatusCode < 500 → sendLoop outcome fuel i last = (i + k + 1, some r, none) := by
  induction k with
  | zero =>
      intro fuel i last hf _ hk hr
      obtain ⟨f, rfl⟩ : ∃ f, fuel = f + 1 := ⟨fuel - 1, by omega⟩
      rw [sendLoop_succ]
      simp only [Nat.add_zero] at hk
      rw [hk]
      simp only [StatusInternalServerError]
      rw [if_neg (by omega)]
  | succ n ih =>
      intro fuel i last hf hbad hk hr
      obtain ⟨f, rfl⟩ : ∃ f, fuel = f + 1 := ⟨fuel - 1, by omega⟩
      obtain ⟨last1, h1⟩ := sendLoop_retried outcome f i last (by simpa using hbad 0 (by omega))
      rw [h1, ih f (i + 1) last1 (by omega)
        (fun j hj => by
          have := hbad (j + 1) (by omega)
          rwa [show i + 1 + j = i + (j + 1) by omega])
        (by rwa [show i + 1 + n = i + (n + 1) by omega]) hr]
      congr 1
      omega

theorem sendLoop_calls_le (outcome : Nat → Outcome) (fuel : Nat) :
    ∀ (i : Nat) (last : Option Response × Option String),
      (sendLoop outcome fuel i last).1 ≤ i + fuel := by
  induction fuel with
  | zero => intro i last; simp [sendLoop]
  | succ f ih =>
      intro i last
      rw [sendLoop_succ]
      cases outcome i with
      | fail r e =>
          have := ih (i + 1) (r, some e)
          simp only
          omega
      | ok r =>
          simp only
          split_ifs
          · have := ih (i + 1) (some r, none)
            omega
          · simp only
            omega

/-- C23: let a client have retry count `n >= 0`, and let the attempts before
attempt `k <= n` (counted from 0) each end in a transport error or a status
code of 500 or more, while attempt `k` returns a response with a status code
below 500 and no error.  Then `send` makes exactly `k + 1` calls and returns
that response with a nil error.  Whatever the outcomes, `send` makes at most
`n + 1` calls. -/
theorem send_returns_first_good (n k : Nat) (outcome : Nat → Outcome) (r : Response)
    (hk : k ≤ n) (hbad : ∀ j, j < k → isRetried (outcome j) = true)
    (hgood : outcome k = Outcome.ok r) (hr : r.StatusCode < 500) :
    send n outcome = (k + 1, some r, none) ∧
    (∀ other : Nat → Outcome, (send n other).1 ≤ n + 1) := by
  have hfuel : ((n : Int) + 1).toNat = n + 1 := by omega
  constructor
  · have h := sendLoop_first_good outcome r k (n + 1) 0 (none, none) (by omega)
      (fun j hj => by simpa using hbad j hj) (by simpa using hgood) hr
    simp only [send, hfuel, h]
    simp
  · intro other
    have h := sendLoop_calls_le other (n + 1) 0 (none, none)
    simp only [send, hfuel]
    omega

/-- Retry count 3: a timeout, a 503, then a 200 on the third attempt. -/
theorem send_returns_first_good_witness :
    send 3 (fun i => if i = 0 then Outcome.fail none "timeout"
      else if i = 1 then Outcome.ok ⟨503⟩ else Outcome.ok ⟨200⟩) = (3, some ⟨200⟩, none) :=
  (send_returns_first_good 3 2 (fun i => if i = 0 then Outcome.fail none "timeout"
      else if i = 1 then Outcome.ok ⟨503⟩ else Outcome.ok ⟨200⟩) ⟨200⟩ (by decide)
    (fun j hj => by
      have hj2 : j = 0 ∨ j = 1 := by omega
      rcases hj2 with rfl | rfl <;> rfl)
    rfl (by decide)).1

end Http

namespace Genid

/-! ## The fields of an ID (C24) -/

theorem lor_fields (a g n : Nat) (hg : g < 2 ^ 10) (hn : n < 2 ^ 12) :
    Int.lor (Int.lor ((a : Int) * 2 ^ 22) ((g : Int) * 2 ^ 12)) (n : Int) =
      (a : Int) * 2 ^ 22 + (g : Int) * 2 ^ 12 + (n : Int) := by
  have h1 : 2 ^ 12 * g < 2 ^ 22 := by omega
  have e1 : 2 ^ 22 * a + 2 ^ 12 * g = 2 ^ 22 * a ||| 2 ^ 12 * g := Nat.mul_add_lt_is_or h1 a
  have e2 : 2 ^ 12 * (2 ^ 10 * a + g) + n = 2 ^ 12 * (2 ^ 10 * a + g) ||| n :=
    Nat.mul_add_lt_is_or hn _
  have e3 : 2 ^ 12 * (2 ^ 10 * a + g) = 2 ^ 22 * a + 2 ^ 12 * g := by ring
  have hA : ((a : Int) * 2 ^ 22) = ((2 ^ 22 * a : Nat) : Int) := by push_cast; ring
  have hG : ((g : Int) * 2 ^ 12) = ((2 ^ 12 * g : Nat) : Int) := by push_cast; ring
  rw [hA, hG]
  show ((((2 ^ 22 * a ||| 2 ^ 12 * g) ||| n : Nat) : Int)) = _
  rw [← e1, ← e3, ← e2]
  push_cast
  ring

/-- On the two paths of `getId` that do not wait, where the sequence number is
at most 4095, the ID of a valid node at a clock reading not before the epoch
has the three fields in place. -/
theorem makeId_fields (now : Int) (g : Generate) (h0 : epoch ≤ now)
    (h1 : now - epoch < 2 ^ 41) (hg0 : 0 ≤ g.generateId) (hg1 : g.generateId ≤ 1023)
    (hn0 : 0 ≤ g.number) (hn1 : g.number ≤ 4095) :
    timeField (makeId now g) = now - epoch ∧ nodeField (makeId now g) = g.generateId ∧
    numberField (makeId now g) = g.number := by
  obtain ⟨a, ha⟩ := Int.eq_ofNat_of_zero_le (show 0 ≤ now - epoch by omega)
  obtain ⟨gid, hgid⟩ := Int.eq_ofNat_of_zero_le hg0
  obtain ⟨n, hn⟩ := Int.eq_ofNat_of_zero_le hn0
  have hw1 : wrap64 (now - epoch) = now - epoch :=
    wrap64_small _ (by omega) (by norm_num at h1 ⊢; omega)
  have hw2 : wrap64 ((now - epoch) * 2 ^ 22) = (now - epoch) * 2 ^ 22 :=
    wrap64_small _ (by omega) (by norm_num at h1 ⊢; omega)
  have hw3 : wrap64 (g.generateId * 2 ^ 12) = g.generateId * 2 ^ 12 :=
    wrap64_small _ (by omega) (by norm_num; omega)
  have hid : makeId now g = (now - epoch) * 2 ^ 22 + g.generateId * 2 ^ 12 + g.number := by
    simp only [makeId, shl64, timeShift, generateShift, generateBits, numberBits, hw1]
    rw [show (10 + 12 : Nat) = 22 from rfl, hw2, hw3, ha, hgid, hn]
    exact lor_fields a gid n (by omega) (by omega)
  rw [hid]
  simp only [timeField, nodeField, numberField]
  norm_num at h1 ⊢
  refine ⟨?_, ?_, ?_⟩ <;> omega

theorem getIds_full_ms (gid : Int) (rest : List Int) :
    ∃ ids, getIds 4096 ⟨0, 0, gid⟩ (List.replicate 4096 sampleMs ++ rest) =
      some (ids, ⟨4095, sampleMs, gid⟩, rest) := by
  obtain ⟨ids, h, _⟩ := getIds_same_ms sampleMs rest 4095 ⟨0, sampleMs, gid⟩ rfl
    (by simp) (by simp)
  have h3 : getIds 4095 ⟨0, sampleMs, gid⟩ (List.replicate 4095 sampleMs ++ rest) =
      some (ids, ⟨4095, sampleMs, gid⟩, rest) := by
    rw [h]
    rfl
  have hfirst : ∀ clock, getId ⟨0, 0, gid⟩ (sampleMs :: clock) =
      some (makeId sampleMs ⟨0, sampleMs, gid⟩, ⟨0, sampleMs, gid⟩, clock) := by
    intro clock
    simp [getId, sampleMs]
  have h2 : List.replicate 4096 sampleMs = sampleMs :: List.replicate 4095 sampleMs :=
    List.replicate_succ sampleMs 4095
  refine ⟨makeId sampleMs ⟨0, sampleMs, gid⟩ :: ids, ?_⟩
  rw [h2, List.cons_append, show (4096 : Nat) = 4095 + 1 from rfl, getIds_succ, hfirst]
  simp only []
  rw [h3]

/-- C24 fails on the code, by the defect that also breaks C17.  Node 2 is a
valid node; after 4096 calls in one millisecond its sequence number is 4095.
The next call in that millisecond raises the number to 4096, above
`numberMax = 4095`, waits for the next millisecond and returns an ID built with
that number: bits 0 to 11 of the ID are 0, not the sequence number 4096, and
bits 12 to 21 are 3, not the node id 2; only bits 22 and up are the clock
reading minus the epoch. -/
theorem overflow_id_spills_into_node_field :
    newGenerate 2 = some ⟨0, 0, 2⟩ ∧
    (∃ ids, getIds 4096 ⟨0, 0, 2⟩ (List.replicate 4096 sampleMs ++ [sampleMs, sampleMs + 1]) =
      some (ids, ⟨4095, sampleMs, 2⟩, [sampleMs, sampleMs + 1])) ∧
    getId ⟨4095, sampleMs, 2⟩ [sampleMs, sampleMs + 1] =
      some (731043980120174592, ⟨4096, sampleMs, 2⟩, []) ∧
    numberMax = 4095 ∧
    numberField 731043980120174592 = 0 ∧
    nodeField 731043980120174592 = 3 ∧
    timeField 731043980120174592 = sampleMs + 1 - epoch := by
  refine ⟨by decide, getIds_full_ms 2 _, by decide, numberMax_eq, by decide, by decide,
    by decide⟩

end Genid

namespace Ecies

/-- When `hex.DecodeString` succeeds, the text is twice as long as the data. -/
theorem hexDecode_length : ∀ (s b : Bytes), hexDecode s = (b, none) → s.length = 2 * b.length
  | [], b, h => by
      simp only [hexDecode, Prod.mk.injEq, and_true] at h
      subst h
      rfl
  | [p], b, h => by
      simp only [hexDecode] at h
      split at h <;> simp at h
  | p :: q :: rest, b, h => by
      simp only [hexDecode] at h
      split at h
      · simp only [Prod.mk.injEq] at h
        have ih := hexDecode_length rest (hexDecode rest).1 (Prod.ext rfl h.2)
        rw [← h.1]
        simp only [List.length_cons, ih]
        omega
      · simp at h

/-- C25 fails on the code.  `EncryptStr` hands `Encrypt` the bytes that `sstr`
denotes in hexadecimal (line 96), `DecryptStr` hands `Decrypt` the characters of
`sstr` themselves (line 115).  For every seed string that is not empty and that
`EncryptStr` accepts, the seed bytes `concatKDF` receives on the two sides
differ: the decrypting side gets twice as many.  For `0a` they are `[10]` and
`[48, 97]`; only for the empty string are they the same. -/
theorem EncryptStr_and_DecryptStr_seeds_differ :
    (∀ (sstr : Bytes) (s1 : Option Bytes), sstr ≠ [] → encryptSeed sstr = Except.ok s1 →
      (∀ Encrypt mstr, EncryptStr Encrypt mstr sstr = Encrypt mstr s1) ∧
      (∀ Decrypt cstr, DecryptStr Decrypt cstr sstr = Decrypt cstr (some sstr)) ∧
      (kdfSeed (some sstr)).length = 2 * (kdfSeed s1).length ∧
      kdfSeed (some sstr) ≠ kdfSeed s1) ∧
    encryptSeed (bytesOf "0a") = Except.ok (some [10]) ∧
    decryptSeed (bytesOf "0a") = some [48, 97] ∧
    kdfSeed (some [10]) = [10] ∧ kdfSeed (some [48, 97]) = [48, 97] ∧
    encryptSeed [] = Except.ok none ∧ decryptSeed [] = none := by
  refine ⟨?_, rfl, rfl, rfl, rfl, rfl, rfl⟩
  intro sstr s1 hne h
  have hlen : (kdfSeed (some sstr)).length = 2 * (kdfSeed s1).length := by
    simp only [encryptSeed, if_neg hne] at h
    split at h
    · rename_i b hb
      simp only [Except.ok.injEq] at h
      subst h
      exact hexDecode_length sstr b hb
    · simp at h
  refine ⟨?_, ?_, hlen, ?_⟩
  · intro Encrypt mstr
    simp only [EncryptStr, h]
  · intro Decrypt cstr
    simp only [DecryptStr, decryptSeed, if_neg hne]
  · intro heq
    rw [heq] at hlen
    have h0 : (kdfSeed s1).length = 0 := by omega
    have h1 : kdfSeed s1 = [] := List.length_eq_zero.mp h0
    rw [h1] at heq
    exact hne heq

end Ecies

namespace Tokens

/-- The outcome of `Verify` in terms of the decoded data alone: success exactly
when the data parse as a token whose hash matches, which has not expired, and
whose signature verifies; in every other case `(false, nil)`. -/
theorem Verify_outcome (lib : Lib) (now : Int) (str : String) :
    (∀ body, Verify lib now str = (true, some body) ↔
      ∃ token, lib.unmarshal (URLDecode str).1 = some token ∧ body = token.Body ∧
        lib.sha256 (lib.marshal token.Body) = token.Sign.Hash ∧ now ≤ token.Body.Timeout ∧
        lib.rsaVerify (lib.sha256 (lib.marshal token.Body)) token.Sign.Value = none) ∧
    ((Verify lib now str).1 = false → Verify lib now str = (false, none)) := by
  simp only [Verify]
  cases hu : lib.unmarshal (URLDecode str).1 with
  | none => simp
  | some token =>
      simp only [Option.some.injEq, exists_eq_left', ne_eq]
      by_cases hh : lib.sha256 (lib.marshal token.Body) = token.Sign.Hash
      · rw [if_neg (not_not.mpr hh)]
        by_cases ht : now ≤ token.Body.Timeout
        · have hval : token.Body.valid now = none := by simp [Body.valid, ht]
          rw [hval]
          cases hv : lib.rsaVerify (lib.sha256 (lib.marshal token.Body)) token.Sign.Value with
          | none =>
              refine ⟨fun body => ⟨fun h => ?_, fun h => ?_⟩, fun h => ?_⟩
              · simp only [Option.isSome_none, Bool.false_eq_true, if_false, Prod.mk.injEq,
                  true_and, Option.some.injEq] at h
                exact ⟨h.symm, hh, ht, rfl⟩
              · simp [h.1]
              · simp at h
          | some e => simp
        · have hval : token.Body.valid now = some (now - token.Body.Timeout) := by
            simp [Body.valid, ht]
          rw [hval]
          simp [ht]
      · rw [if_pos hh]
        simp [hh]

theorem sextet_bang : sextet '!' = none := by decide

/-- The decoder on input followed by `!`, which is no base64 character: the
data are those of the input, and an error is reported. -/
theorem decodeQuanta_bang : ∀ cs : List Char,
    decodeQuanta (cs ++ ['!']) = ((decodeQuanta cs).1, some "illegal base64 data")
  | [] => by simp [decodeQuanta]
  | [a] => by simp [decodeQuanta]
  | [a, b] => by simp [decodeQuanta]
  | [a, b, c] => by
      simp only [List.cons_append, List.nil_append, decodeQuanta, sextet_bang]
      cases sextet a <;> cases sextet b <;> cases sextet c <;> simp
  | a :: b :: c :: d :: rest => by
      have ih := decodeQuanta_bang rest
      rw [List.cons_append, List.cons_append, List.cons_append, List.cons_append]
      cases h1 : sextet a with
      | none => simp [decodeQuanta, h1]
      | some x =>
          cases h2 : sextet b with
          | none => simp [decodeQuanta, h1, h2]
          | some y =>
              cases h3 : sextet c with
              | none =>
                  by_cases hp : c = '=' ∧ d = '='
                  · obtain ⟨rfl, rfl⟩ := hp
                    simp [decodeQuanta, h1, h2, h3]
                  · simp [decodeQuanta, h1, h2, h3, hp]
              | some z =>
                  cases h4 : sextet d with
                  | none =>
                      by_cases hp : d = '='
                      · subst hp
                        simp [decodeQuanta, h1, h2, h3, h4]
                      · simp [decodeQuanta, h1, h2, h3, h4, hp]
                  | some w => simp [decodeQuanta, h1, h2, h3, h4, ih]

theorem URLDecode_bang (str : String) :
    URLDecode (str ++ "!") = ((URLDecode str).1, some "illegal base64 data") := by
  have hd : (str ++ "!").data = str.data ++ ['!'] := by
    rw [String.data_append]
  simp only [URLDecode, stdDecodeString, hd, List.filter_append]
  have hf : List.filter (fun c => decide (c ≠ '\n' ∧ c ≠ '\r')) ['!'] = ['!'] := by decide
  rw [hf, decodeQuanta_bang]

set_option maxRecDepth 100000 in
theorem sampleString_decodes :
    URLDecode sampleString = (sampleJson.data.map Char.toNat, none) := by rfl

set_option maxRecDepth 100000 in
theorem sampleString_accepted :
    Verify sampleLib 1800000000 sampleString = (true, some sampleBody) := by
  simp only [Verify, sampleString_decodes]
  rfl

/-- C21 fails on the code.  Line 74 drops the error of `URLDecode`, while the
errors of the three checks after it are tested.  The decoder returns the data
it decoded before the error, so for every string `str`, with whatever parser,
hash and signature check, `Verify` gives the same result on `str` followed by
`!`, which is not a base64 encoding.  The string `NewToken` returns for the
body with id `abc` and timeout 4102444800 under the default keys is accepted
at time 1800000000, and so is that string followed by `!`. -/
theorem Verify_accepts_malformed_base64 :
    (∀ (lib : Lib) (now : Int) (str : String),
      (URLDecode (str ++ "!")).2 = some "illegal base64 data" ∧
      (URLDecode (str ++ "!")).1 = (URLDecode str).1 ∧
      Verify lib now (str ++ "!") = Verify lib now str) ∧
    URLDecode sampleString = (sampleJson.data.map Char.toNat, none) ∧
    Verify sampleLib 1800000000 sampleString = (true, some sampleBody) ∧
    Verify sampleLib 1800000000 (sampleString ++ "!") = (true, some sampleBody) := by
  have hgen : ∀ (lib : Lib) (now : Int) (str : String),
      (URLDecode (str ++ "!")).2 = some "illegal base64 data" ∧
      (URLDecode (str ++ "!")).1 = (URLDecode str).1 ∧
      Verify lib now (str ++ "!") = Verify lib now str := by
    intro lib now str
    refine ⟨by rw [URLDecode_bang], by rw [URLDecode_bang], ?_⟩
    simp only [Verify, URLDecode_bang]
  exact ⟨hgen, sampleString_decodes, sampleString_accepted,
    by rw [(hgen sampleLib 1800000000 sampleString).2.2, sampleString_accepted]⟩

end Tokens
